import Mathlib

/-!
# sq: parsers for kernel text files

A shallow embedding of `cli/input_iter.go` and `cli/input_iter_linux.go`
and the properties of the parsers proved over it.

Modelling conventions

* A Go `string` is its byte sequence (`GoString`); `len`, slicing and
  indexing are byte operations, as in Go.
* A Go call returning `(value, error)` returns a `Res`: `ok v`, `error e`,
  or `panic` for a run-time panic (index out of range).
* A Go slice that is compared with `nil` is an `Option (List _)`: `none` is
  the nil slice, `some []` an empty non-nil slice.  Slices that are only
  measured and ranged over are plain lists.
* `map[string]interface{}` is an association list with unique keys
  (`GoMap`); it is read through `GoMap.get?` and `GoMap.keys`.
* The functions of the Go standard library that the code calls (`strings`,
  `strconv`, `io`, the regular expressions) are modelled by their documented
  behaviour on bytes.
* The case table of `unicode.ToLower` is not part of the repository; it is
  written out from the simple lower-case mappings of the Unicode Character
  Database (`lowerRuns`, `upperLowerRuns`).
-/

namespace Sq

/-! ## Strings, errors, results -/

/-- Go string: an immutable sequence of bytes. -/
abbrev GoString := List UInt8

/-- Bytes (UTF-8) of a string literal of the source. -/
def B (s : String) : GoString := s.toList.flatMap String.utf8EncodeChar

/-- The two failure kinds of `strconv.NumError`: `ErrSyntax` and `ErrRange`. -/
inductive NumErr where
  | syntaxErr
  | rangeErr
  deriving DecidableEq, Repr

/-- Go `error` values produced by the code: a message built with `errors.New` or
`errors.Errorf`, or a `*strconv.NumError` (function name, offending input, kind). -/
inductive GoError where
  | new (msg : GoString)
  | num (fn : GoString) (input : GoString) (kind : NumErr)
  deriving DecidableEq, Repr

/-- Outcome of a Go call with result type `(α, error)`.  `panic i n` is the
run-time panic "index out of range [i] with length n". -/
inductive Res (α : Type) where
  | ok (v : α)
  | error (e : GoError)
  | panic (index length : Nat)
  deriving DecidableEq, Repr

/-- Sequencing of Go statements: an error or a panic ends the function. -/
def Res.bind {α β : Type} (x : Res α) (f : α → Res β) : Res β :=
  match x with
  | .ok v => f v
  | .error e => .error e
  | .panic i n => .panic i n

instance : Monad Res where
  pure := Res.ok
  bind := Res.bind

/-- Whether the call returned a value with a nil error. -/
def Res.isOk {α : Type} : Res α → Bool
  | .ok _ => true
  | _ => false

/-- Whether the call returned a non-nil error (and did not panic). -/
def Res.isError {α : Type} : Res α → Bool
  | .error _ => true
  | _ => false

/-- Whether the call ended in a run-time panic. -/
def Res.isPanic {α : Type} : Res α → Bool
  | .panic _ _ => true
  | _ => false

/-- Indexing `xs[i]` of a Go slice: panics when `i` is out of range. -/
def index {α : Type} (xs : List α) (i : Nat) : Res α :=
  match xs[i]? with
  | some x => .ok x
  | none => .panic i xs.length

/-- Slice expression `s[lo:hi]` of a Go string: panics unless `lo ≤ hi ≤ len(s)`. -/
def slice (s : GoString) (lo hi : Nat) : Res GoString :=
  if lo ≤ hi ∧ hi ≤ s.length then .ok ((s.take hi).drop lo) else .panic hi s.length

/-! ## Values -/

/-- Go `float64`, given by the 64 bits of its IEEE 754 representation. -/
structure GoFloat64 where
  bits : Nat

/-- JSON-compatible values stored behind `interface{}`: strings, `int64`, `float64`,
lists (`[]interface{}`) and maps (`map[string]interface{}`). -/
inductive Value where
  | str (s : GoString)
  | int (n : Int)
  | float (f : GoFloat64)
  | list (l : List Value)
  | map (m : List (GoString × Value))

/-- Go `map[string]interface{}` (non-nil): association list, each key once. -/
abbrev GoMap := List (GoString × Value)

/-- Assignment `m[k] = v`. -/
def GoMap.set : GoMap → GoString → Value → GoMap
  | [], k, v => [(k, v)]
  | (k0, v0) :: rest, k, v =>
    if k0 = k then (k, v) :: rest else (k0, v0) :: GoMap.set rest k v

/-- Lookup `m[k]`, `none` when the key is absent. -/
def GoMap.get? : GoMap → GoString → Option Value
  | [], _ => none
  | (k0, v0) :: rest, k => if k0 = k then some v0 else GoMap.get? rest k

/-- Go `make(map[string]interface{})`: the empty map. -/
def GoMap.empty : GoMap := []

/-- The keys present in the map. -/
def GoMap.keys (m : GoMap) : List GoString := m.map Prod.fst

/-! ## Standard library: package strings -/

/-- Worker of `Split`: `skip` bytes of a separator just matched are still to be
dropped, `cur` holds the bytes of the current piece in reverse. -/
def splitAux (sep : GoString) : Nat → GoString → GoString → List GoString
  | _, cur, [] => [cur.reverse]
  | skip + 1, cur, _ :: cs => splitAux sep skip cur cs
  | 0, cur, c :: cs =>
    if sep.isPrefixOf (c :: cs) then cur.reverse :: splitAux sep (sep.length - 1) [] cs
    else splitAux sep 0 (c :: cur) cs

/-- Go `strings.Split(s, sep)`: the pieces of `s` between the successive
non-overlapping occurrences of `sep`, always at least one piece.  Every call in
the repository passes a one-byte separator; for the empty separator Go explodes
`s` into UTF-8 sequences, which this model renders byte by byte (exact on ASCII). -/
def Split (s sep : GoString) : List GoString :=
  if sep = [] then s.map (fun c => [c]) else splitAux sep 0 [] s

/-- Worker of `ReplaceAll`, with the same `skip` counter as `splitAux`. -/
def replaceAux (old new : GoString) : Nat → GoString → GoString
  | _, [] => []
  | skip + 1, _ :: cs => replaceAux old new skip cs
  | 0, c :: cs =>
    if old.isPrefixOf (c :: cs) then new ++ replaceAux old new (old.length - 1) cs
    else c :: replaceAux old new 0 cs

/-- Go `strings.ReplaceAll(s, old, new)`: every non-overlapping occurrence of
`old`, found left to right, replaced by `new`.  Every call in the repository
passes a one-byte `old`; for the empty `old` Go inserts `new` before every UTF-8
sequence and at the end, rendered here byte by byte (exact on ASCII). -/
def ReplaceAll (s old new : GoString) : GoString :=
  if old = [] then new ++ s.flatMap (fun c => c :: new) else replaceAux old new 0 s

/-- Lower-casing of one ASCII byte: `A`..`Z` move to `a`..`z`. -/
def lowerASCII (c : UInt8) : UInt8 :=
  if 0x41 ≤ c ∧ c ≤ 0x5A then c + 0x20 else c

/-- Go `strings.ToLower(s)`.  A string of ASCII bytes takes the fast path of the
library, byte by byte.  A string with a byte ≥ 0x80 is mapped through
`strings.Map(unicode.ToLower, s)`, which rests on the Unicode case tables of
the library; that function is the parameter `unicodeLower`, and `mapToLower` below is
its model with the case table written out. -/
def ToLower (unicodeLower : GoString → GoString) (s : GoString) : GoString :=
  if s.all (fun c => c < 0x80) then s.map lowerASCII else unicodeLower s

/-- Go `strings.HasSuffix(s, suffix)`. -/
def HasSuffix (s suffix : GoString) : Bool := suffix.isSuffixOf s

/-- Go `strings.TrimSuffix(s, suffix)`: `s` without the trailing `suffix` if it has it. -/
def TrimSuffix (s suffix : GoString) : GoString :=
  if HasSuffix s suffix then s.take (s.length - suffix.length) else s

/-- Width in bytes of the white-space character (`unicode.IsSpace`) encoded at
the start of `s`, 0 when `s` does not start with one.  The white-space characters
are U+0009..U+000D, U+0020, U+0085, U+00A0, U+1680, U+2000..U+200A, U+2028,
U+2029, U+202F, U+205F and U+3000. -/
def spaceWidth : GoString → Nat
  | [] => 0
  | a :: rest =>
    if (0x09 ≤ a ∧ a ≤ 0x0D) ∨ a = 0x20 then 1
    else match rest with
      | [] => 0
      | b :: rest2 =>
        if a = 0xC2 ∧ (b = 0x85 ∨ b = 0xA0) then 2
        else match rest2 with
          | [] => 0
          | c :: _ =>
            if (a = 0xE1 ∧ b = 0x9A ∧ c = 0x80)
              ∨ (a = 0xE2 ∧ b = 0x80 ∧ ((0x80 ≤ c ∧ c ≤ 0x8A) ∨ c = 0xA8 ∨ c = 0xA9 ∨ c = 0xAF))
              ∨ (a = 0xE2 ∧ b = 0x81 ∧ c = 0x9F)
              ∨ (a = 0xE3 ∧ b = 0x80 ∧ c = 0x80) then 3
            else 0

/-- Width in bytes of the white-space character encoded at the end of the string
whose reversed bytes are given, 0 when there is none. -/
def spaceWidthRev : GoString → Nat
  | [] => 0
  | c :: rest =>
    if (0x09 ≤ c ∧ c ≤ 0x0D) ∨ c = 0x20 then 1
    else match rest with
      | [] => 0
      | b :: rest2 =>
        if b = 0xC2 ∧ (c = 0x85 ∨ c = 0xA0) then 2
        else match rest2 with
          | [] => 0
          | a :: _ =>
            if (a = 0xE1 ∧ b = 0x9A ∧ c = 0x80)
              ∨ (a = 0xE2 ∧ b = 0x80 ∧ ((0x80 ≤ c ∧ c ≤ 0x8A) ∨ c = 0xA8 ∨ c = 0xA9 ∨ c = 0xAF))
              ∨ (a = 0xE2 ∧ b = 0x81 ∧ c = 0x9F)
              ∨ (a = 0xE3 ∧ b = 0x80 ∧ c = 0x80) then 3
            else 0

/-- Dropping leading white space, at most `fuel` characters of it. -/
def trimLeftN : Nat → GoString → GoString
  | 0, s => s
  | fuel + 1, s => if spaceWidth s = 0 then s else trimLeftN fuel (s.drop (spaceWidth s))

/-- Dropping trailing white space from reversed bytes, at most `fuel` characters. -/
def trimRightRevN : Nat → GoString → GoString
  | 0, r => r
  | fuel + 1, r =>
    if spaceWidthRev r = 0 then r else trimRightRevN fuel (r.drop (spaceWidthRev r))

/-- Go `strings.TrimSpace(s)`: `s` without leading and trailing white space.
The fuel `len(s)` covers every white-space character of the string. -/
def TrimSpace (s : GoString) : GoString :=
  let t := trimLeftN s.length s
  (trimRightRevN t.length t.reverse).reverse

/-! ## Standard library: packages unicode/utf8 and unicode, and `strings.Map` -/

/-- Go `utf8.RuneError`: the replacement character U+FFFD. -/
def RuneError : Nat := 0xFFFD

/-- A code point that is a Unicode scalar value: at most U+10FFFF and no surrogate. -/
def validRune (r : Nat) : Bool := r < 0xD800 || (0xE000 ≤ r && r < 0x110000)

/-- The two-byte case of `DecodeRune`, on the values of the bytes. -/
def decode2 (p0 b1 : Nat) : Nat × Nat :=
  if 0x80 ≤ b1 ∧ b1 ≤ 0xBF then (p0 % 32 * 64 + b1 % 64, 2) else (RuneError, 1)

/-- The three-byte case of `DecodeRune`: the second byte is at least 0xA0 after 0xE0
(no overlong form) and at most 0x9F after 0xED (no surrogate). -/
def decode3 (p0 b1 b2 : Nat) : Nat × Nat :=
  if (if p0 = 0xE0 then 0xA0 else 0x80) ≤ b1 ∧ b1 ≤ (if p0 = 0xED then 0x9F else 0xBF)
      ∧ 0x80 ≤ b2 ∧ b2 ≤ 0xBF then
    (p0 % 16 * 4096 + b1 % 64 * 64 + b2 % 64, 3)
  else (RuneError, 1)

/-- The four-byte case of `DecodeRune`: the second byte is at least 0x90 after 0xF0
(no overlong form) and at most 0x8F after 0xF4 (nothing above U+10FFFF). -/
def decode4 (p0 b1 b2 b3 : Nat) : Nat × Nat :=
  if (if p0 = 0xF0 then 0x90 else 0x80) ≤ b1 ∧ b1 ≤ (if p0 = 0xF4 then 0x8F else 0xBF)
      ∧ 0x80 ≤ b2 ∧ b2 ≤ 0xBF ∧ 0x80 ≤ b3 ∧ b3 ≤ 0xBF then
    (p0 % 8 * 262144 + b1 % 64 * 4096 + b2 % 64 * 64 + b3 % 64, 4)
  else (RuneError, 1)

/-- Go `utf8.DecodeRune`: the character encoded at the start of `s` and its width in
bytes.  An empty `s` gives (RuneError, 0); bytes that are no valid encoding (a stray
continuation byte, a truncated or overlong sequence, a surrogate, a value above
U+10FFFF) give (RuneError, 1). -/
def DecodeRune : GoString → Nat × Nat
  | [] => (RuneError, 0)
  | p0 :: rest =>
    if p0.toNat < 0x80 then (p0.toNat, 1)
    else if p0.toNat < 0xC2 then (RuneError, 1)
    else if p0.toNat < 0xE0 then
      match rest with
      | b1 :: _ => decode2 p0.toNat b1.toNat
      | _ => (RuneError, 1)
    else if p0.toNat < 0xF0 then
      match rest with
      | b1 :: b2 :: _ => decode3 p0.toNat b1.toNat b2.toNat
      | _ => (RuneError, 1)
    else if p0.toNat < 0xF5 then
      match rest with
      | b1 :: b2 :: b3 :: _ => decode4 p0.toNat b1.toNat b2.toNat b3.toNat
      | _ => (RuneError, 1)
    else (RuneError, 1)

/-- Go `utf8.AppendRune` on an empty buffer: the UTF-8 encoding of `r`; a surrogate or
a value above U+10FFFF is encoded as U+FFFD. -/
def EncodeRune (r : Nat) : GoString :=
  if r < 0x80 then [UInt8.ofNat r]
  else if r < 0x800 then [UInt8.ofNat (0xC0 + r / 64), UInt8.ofNat (0x80 + r % 64)]
  else if 0x10FFFF < r ∨ (0xD800 ≤ r ∧ r ≤ 0xDFFF) then [0xEF, 0xBF, 0xBD]
  else if r < 0x10000 then
    [UInt8.ofNat (0xE0 + r / 4096), UInt8.ofNat (0x80 + r / 64 % 64),
      UInt8.ofNat (0x80 + r % 64)]
  else
    [UInt8.ofNat (0xF0 + r / 262144), UInt8.ofNat (0x80 + r / 4096 % 64),
      UInt8.ofNat (0x80 + r / 64 % 64), UInt8.ofNat (0x80 + r % 64)]

/-- Worker of `Map`: `skip` bytes of the character just decoded are still to be passed
over. -/
def mapAux (mapping : Nat → Nat) : Nat → GoString → GoString
  | _, [] => []
  | skip + 1, _ :: cs => mapAux mapping skip cs
  | 0, c :: cs =>
    EncodeRune (mapping (DecodeRune (c :: cs)).1)
      ++ mapAux mapping ((DecodeRune (c :: cs)).2 - 1) cs

/-- Go `strings.Map(mapping, s)` for a mapping that returns no negative value: the
encodings of the images of the characters of `s`, where a byte that starts no valid
encoding counts as the character U+FFFD. -/
def Map (mapping : Nat → Nat) (s : GoString) : GoString := mapAux mapping 0 s

/-- Worker of `runes`, with the same `skip` counter as `mapAux`. -/
def runesAux : Nat → GoString → List Nat
  | _, [] => []
  | skip + 1, _ :: cs => runesAux skip cs
  | 0, c :: cs => (DecodeRune (c :: cs)).1 :: runesAux ((DecodeRune (c :: cs)).2 - 1) cs

/-- The characters of `s` as `for _, c := range s` yields them. -/
def runes (s : GoString) : List Nat := runesAux 0 s

/-- The case table of `unicode.ToLower` outside ASCII, first part.  Source of the data:
the simple lower-case mappings of the Unicode Character Database (UnicodeData.txt,
version 14.0.0), which the table `unicode.CaseRanges` of the library encodes.  Each
entry is a run of consecutive capital letters whose lower-case forms are consecutive
too: first letter, last letter, lower-case form of the first letter. -/
def lowerRuns : List (Nat × Nat × Nat) :=
  [(0x00C0, 0x00D6, 0x00E0), (0x00D8, 0x00DE, 0x00F8), (0x0130, 0x0130, 0x0069),
   (0x0178, 0x0178, 0x00FF), (0x0181, 0x0181, 0x0253), (0x0186, 0x0186, 0x0254),
   (0x0187, 0x0187, 0x0188), (0x0189, 0x018A, 0x0256), (0x018B, 0x018B, 0x018C),
   (0x018E, 0x018E, 0x01DD), (0x018F, 0x018F, 0x0259), (0x0190, 0x0190, 0x025B),
   (0x0191, 0x0191, 0x0192), (0x0193, 0x0193, 0x0260), (0x0194, 0x0194, 0x0263),
   (0x0196, 0x0196, 0x0269), (0x0197, 0x0197, 0x0268), (0x0198, 0x0198, 0x0199),
   (0x019C, 0x019C, 0x026F), (0x019D, 0x019D, 0x0272), (0x019F, 0x019F, 0x0275),
   (0x01A6, 0x01A6, 0x0280), (0x01A7, 0x01A7, 0x01A8), (0x01A9, 0x01A9, 0x0283),
   (0x01AC, 0x01AC, 0x01AD), (0x01AE, 0x01AE, 0x0288), (0x01AF, 0x01AF, 0x01B0),
   (0x01B1, 0x01B2, 0x028A), (0x01B7, 0x01B7, 0x0292), (0x01B8, 0x01B8, 0x01B9),
   (0x01BC, 0x01BC, 0x01BD), (0x01C4, 0x01C4, 0x01C6), (0x01C5, 0x01C5, 0x01C6),
   (0x01C7, 0x01C7, 0x01C9), (0x01C8, 0x01C8, 0x01C9), (0x01CA, 0x01CA, 0x01CC),
   (0x01CB, 0x01CB, 0x01CC), (0x01F1, 0x01F1, 0x01F3), (0x01F2, 0x01F2, 0x01F3),
   (0x01F6, 0x01F6, 0x0195), (0x01F7, 0x01F7, 0x01BF), (0x0220, 0x0220, 0x019E),
   (0x023A, 0x023A, 0x2C65), (0x023B, 0x023B, 0x023C), (0x023D, 0x023D, 0x019A),
   (0x023E, 0x023E, 0x2C66), (0x0241, 0x0241, 0x0242), (0x0243, 0x0243, 0x0180),
   (0x0244, 0x0244, 0x0289), (0x0245, 0x0245, 0x028C), (0x0376, 0x0376, 0x0377),
   (0x037F, 0x037F, 0x03F3), (0x0386, 0x0386, 0x03AC), (0x0388, 0x038A, 0x03AD),
   (0x038C, 0x038C, 0x03CC), (0x038E, 0x038F, 0x03CD), (0x0391, 0x03A1, 0x03B1),
   (0x03A3, 0x03AB, 0x03C3), (0x03CF, 0x03CF, 0x03D7), (0x03F4, 0x03F4, 0x03B8),
   (0x03F7, 0x03F7, 0x03F8), (0x03F9, 0x03F9, 0x03F2), (0x03FA, 0x03FA, 0x03FB),
   (0x03FD, 0x03FF, 0x037B), (0x0400, 0x040F, 0x0450), (0x0410, 0x042F, 0x0430),
   (0x04C0, 0x04C0, 0x04CF), (0x0531, 0x0556, 0x0561), (0x10A0, 0x10C5, 0x2D00),
   (0x10C7, 0x10C7, 0x2D27), (0x10CD, 0x10CD, 0x2D2D), (0x13A0, 0x13EF, 0xAB70),
   (0x13F0, 0x13F5, 0x13F8), (0x1C90, 0x1CBA, 0x10D0), (0x1CBD, 0x1CBF, 0x10FD),
   (0x1E9E, 0x1E9E, 0x00DF), (0x1F08, 0x1F0F, 0x1F00), (0x1F18, 0x1F1D, 0x1F10),
   (0x1F28, 0x1F2F, 0x1F20), (0x1F38, 0x1F3F, 0x1F30), (0x1F48, 0x1F4D, 0x1F40),
   (0x1F59, 0x1F59, 0x1F51), (0x1F5B, 0x1F5B, 0x1F53), (0x1F5D, 0x1F5D, 0x1F55),
   (0x1F5F, 0x1F5F, 0x1F57), (0x1F68, 0x1F6F, 0x1F60), (0x1F88, 0x1F8F, 0x1F80),
   (0x1F98, 0x1F9F, 0x1F90), (0x1FA8, 0x1FAF, 0x1FA0), (0x1FB8, 0x1FB9, 0x1FB0),
   (0x1FBA, 0x1FBB, 0x1F70), (0x1FBC, 0x1FBC, 0x1FB3), (0x1FC8, 0x1FCB, 0x1F72),
   (0x1FCC, 0x1FCC, 0x1FC3), (0x1FD8, 0x1FD9, 0x1FD0), (0x1FDA, 0x1FDB, 0x1F76),
   (0x1FE8, 0x1FE9, 0x1FE0), (0x1FEA, 0x1FEB, 0x1F7A), (0x1FEC, 0x1FEC, 0x1FE5),
   (0x1FF8, 0x1FF9, 0x1F78), (0x1FFA, 0x1FFB, 0x1F7C), (0x1FFC, 0x1FFC, 0x1FF3),
   (0x2126, 0x2126, 0x03C9), (0x212A, 0x212A, 0x006B), (0x212B, 0x212B, 0x00E5),
   (0x2132, 0x2132, 0x214E), (0x2160, 0x216F, 0x2170), (0x2183, 0x2183, 0x2184),
   (0x24B6, 0x24CF, 0x24D0), (0x2C00, 0x2C2F, 0x2C30), (0x2C60, 0x2C60, 0x2C61),
   (0x2C62, 0x2C62, 0x026B), (0x2C63, 0x2C63, 0x1D7D), (0x2C64, 0x2C64, 0x027D),
   (0x2C6D, 0x2C6D, 0x0251), (0x2C6E, 0x2C6E, 0x0271), (0x2C6F, 0x2C6F, 0x0250),
   (0x2C70, 0x2C70, 0x0252), (0x2C72, 0x2C72, 0x2C73), (0x2C75, 0x2C75, 0x2C76),
   (0x2C7E, 0x2C7F, 0x023F), (0x2CF2, 0x2CF2, 0x2CF3), (0xA77D, 0xA77D, 0x1D79),
   (0xA78B, 0xA78B, 0xA78C), (0xA78D, 0xA78D, 0x0265), (0xA7AA, 0xA7AA, 0x0266),
   (0xA7AB, 0xA7AB, 0x025C), (0xA7AC, 0xA7AC, 0x0261), (0xA7AD, 0xA7AD, 0x026C),
   (0xA7AE, 0xA7AE, 0x026A), (0xA7B0, 0xA7B0, 0x029E), (0xA7B1, 0xA7B1, 0x0287),
   (0xA7B2, 0xA7B2, 0x029D), (0xA7B3, 0xA7B3, 0xAB53), (0xA7C4, 0xA7C4, 0xA794),
   (0xA7C5, 0xA7C5, 0x0282), (0xA7C6, 0xA7C6, 0x1D8E), (0xA7D0, 0xA7D0, 0xA7D1),
   (0xA7F5, 0xA7F5, 0xA7F6), (0xFF21, 0xFF3A, 0xFF41), (0x10400, 0x10427, 0x10428),
   (0x104B0, 0x104D3, 0x104D8), (0x10570, 0x1057A, 0x10597), (0x1057C, 0x1058A, 0x105A3),
   (0x1058C, 0x10592, 0x105B3), (0x10594, 0x10595, 0x105BB), (0x10C80, 0x10CB2, 0x10CC0),
   (0x118A0, 0x118BF, 0x118C0), (0x16E40, 0x16E5F, 0x16E60), (0x1E900, 0x1E921, 0x1E922)]

/-- The case table of `unicode.ToLower` outside ASCII, second part: the runs in which
capital and small letters alternate, a capital letter first and a small letter last
(as in the ranges that `unicode.CaseRanges` marks `UpperLower`).  Each entry: first and
last character of the run. -/
def upperLowerRuns : List (Nat × Nat) :=
  [(0x0100, 0x012F), (0x0132, 0x0137), (0x0139, 0x0148), (0x014A, 0x0177), (0x0179, 0x017E),
   (0x0182, 0x0185), (0x01A0, 0x01A5), (0x01B3, 0x01B6), (0x01CD, 0x01DC), (0x01DE, 0x01EF),
   (0x01F4, 0x01F5), (0x01F8, 0x021F), (0x0222, 0x0233), (0x0246, 0x024F), (0x0370, 0x0373),
   (0x03D8, 0x03EF), (0x0460, 0x0481), (0x048A, 0x04BF), (0x04C1, 0x04CE), (0x04D0, 0x052F),
   (0x1E00, 0x1E95), (0x1EA0, 0x1EFF), (0x2C67, 0x2C6C), (0x2C80, 0x2CE3), (0x2CEB, 0x2CEE),
   (0xA640, 0xA66D), (0xA680, 0xA69B), (0xA722, 0xA72F), (0xA732, 0xA76F), (0xA779, 0xA77C),
   (0xA77E, 0xA787), (0xA790, 0xA793), (0xA796, 0xA7A9), (0xA7B4, 0xA7C3), (0xA7C7, 0xA7CA),
   (0xA7D6, 0xA7D9)]

/-- Lower-case form of `r` by the runs of capital letters, if `r` is in one of them. -/
def lookupLowerRun : List (Nat × Nat × Nat) → Nat → Option Nat
  | [], _ => none
  | (lo, hi, img) :: rest, r =>
    if lo ≤ r ∧ r ≤ hi then some (img + (r - lo)) else lookupLowerRun rest r

/-- Lower-case form of `r` by the alternating runs, if `r` is in one of them: the next
character for a capital letter (even offset), the character itself for a small one. -/
def lookupUpperLowerRun : List (Nat × Nat) → Nat → Option Nat
  | [], _ => none
  | (lo, hi) :: rest, r =>
    if lo ≤ r ∧ r ≤ hi then some (if (r - lo) % 2 = 0 then r + 1 else r)
    else lookupUpperLowerRun rest r

/-- Go `unicode.ToLower` (package unicode, letter.go): the ASCII letters are mapped by
the code of the function itself, the other characters through the case table; a
character that the table does not list is its own lower-case form. -/
def unicodeToLower (r : Nat) : Nat :=
  if r ≤ 0x7F then (if 0x41 ≤ r ∧ r ≤ 0x5A then r + 32 else r)
  else
    match lookupLowerRun lowerRuns r with
    | some x => x
    | none => (lookupUpperLowerRun upperLowerRuns r).getD r

/-- The non-ASCII path of `strings.ToLower(s)`: `strings.Map(unicode.ToLower, s)`. -/
def mapToLower (s : GoString) : GoString := Map unicodeToLower s

/-! ## Standard library: package strconv -/

/-- Digit loop of `strconv.ParseUint(s, 10, 64)`: a byte that is no digit is a
syntax error, an overflow of 64 bits a range error, whichever comes first. -/
def parseUintLoop : GoString → Nat → Except NumErr Nat
  | [], n => .ok n
  | c :: cs, n =>
    if ¬ (0x30 ≤ c ∧ c ≤ 0x39) then .error .syntaxErr
    else if n ≥ 1844674407370955162 then .error .rangeErr
    else if n * 10 + (c.toNat - 0x30) ≥ 2 ^ 64 then .error .rangeErr
    else parseUintLoop cs (n * 10 + (c.toNat - 0x30))

/-- Go `strconv.ParseUint(s, 10, 64)`. -/
def ParseUint (s : GoString) : Except NumErr Nat :=
  if s = [] then .error .syntaxErr else parseUintLoop s 0

/-- Go `strconv.ParseInt(s, 10, 64)`: an optional sign, then decimal digits, the
value within `-2^63 .. 2^63 - 1`. -/
def ParseInt (s : GoString) : Res Int :=
  match s with
  | [] => .error (.num (B "ParseInt") s .syntaxErr)
  | c :: rest =>
    let neg : Bool := c = 0x2D
    let body := if c = 0x2B ∨ c = 0x2D then rest else s
    match ParseUint body with
    | .error k => .error (.num (B "ParseInt") s k)
    | .ok un =>
      if ¬ neg ∧ un ≥ 2 ^ 63 then .error (.num (B "ParseInt") s .rangeErr)
      else if neg ∧ un > 2 ^ 63 then .error (.num (B "ParseInt") s .rangeErr)
      else .ok (if neg then - (un : Int) else (un : Int))

/-! ## Standard library: the regular expressions of the code -/

/-- Worker of `findAllRuns`; `cur` holds the current run in reverse. -/
def runsAux (p : UInt8 → Bool) : GoString → GoString → List GoString
  | cur, [] => if cur = [] then [] else [cur.reverse]
  | cur, c :: cs =>
    if p c then runsAux p (c :: cur) cs
    else if cur = [] then runsAux p [] cs
    else cur.reverse :: runsAux p [] cs

/-- Result of `FindAllString(s, -1)` for a regular expression `[class]+`: the maximal
runs of bytes of the class, left to right. -/
def findAllRuns (p : UInt8 → Bool) (s : GoString) : List GoString := runsAux p [] s

/-- Class `\s` of Go regular expressions: tab, newline, form feed, carriage
return, space. -/
def isRegexSpace (c : UInt8) : Bool :=
  c = 0x09 || c = 0x0A || c = 0x0C || c = 0x0D || c = 0x20

/-- Class `\d` of Go regular expressions: the ASCII digits. -/
def isRegexDigit (c : UInt8) : Bool := 0x30 ≤ c && c ≤ 0x39

/-- Result of `MatchString(s)` for a regular expression `^[class]+$`: `s` is not
empty and all its bytes are of the class. -/
def matchesAll (p : UInt8 → Bool) (s : GoString) : Bool := s ≠ [] && s.all p

/-- Rendering of the verb `%d` of `errors.Errorf` for a non-negative integer. -/
def fmtD (n : Nat) : GoString := B (toString n)

/-! ## Package io -/

/-- An `io.Reader`: the bytes it delivers up to end of file and, if reading
fails, the error it reports. -/
structure Reader where
  data : GoString
  fail : Option GoError

/-- Go `io.ReadAll(r)`. -/
def ReadAll (r : Reader) : Res GoString :=
  match r.fail with
  | some e => .error e
  | none => .ok r.data

/-- Built-in `append(s, x)` on a slice that may be nil: the result is never nil. -/
def goAppend {α : Type} (s : Option (List α)) (x : α) : Option (List α) :=
  some (s.getD [] ++ [x])

/-- The statements `var val []interface{}; for _, v := range xs { val = append(val, v) }`:
the strings of `xs` boxed one by one into a slice that starts nil. -/
def appendAll (xs : List GoString) : Option (List Value) :=
  xs.foldl (fun val v => goAppend val (Value.str v)) none

/-! ## cli/options.go -/

/-- The process-wide `options` variable. -/
structure Options where
  Version : Bool
  OutputCompact : Bool
  OutputRaw : Bool
  OutputJoin : Bool
  OutputQueryFriendly : Bool
  OutputNul : Bool
  OutputColor : Bool
  OutputMono : Bool
  OutputYAML : Bool
  OutputIndent : Option Int
  OutputTab : Bool

/-- The zero value of `options`, before any flag is read. -/
def Options.zero : Options :=
  ⟨false, false, false, false, false, false, false, false, false, none, false⟩

/-- The value of `options` when only the flag `-f` (`--query-friendly`) is given. -/
def Options.queryFriendly : Options :=
  ⟨false, false, false, false, true, false, false, false, false, none, false⟩

/-! ## cli/input_iter.go -/

/-- Source: `makeQueryFriendly` (input_iter.go 18-26). -/
def makeQueryFriendly (unicodeLower : GoString → GoString) (key : GoString) : GoString :=
  ToLower unicodeLower
    (ReplaceAll
      (ReplaceAll
        (ReplaceAll key (B " ") (B "_"))
        (B "(") (B "_"))
      (B ")") (B ""))

/-- Source: `type lineSplitterFn`. -/
abbrev lineSplitterFn := GoString → Res (GoString × GoString)

/-- Source: `type valueParserFn`. -/
abbrev valueParserFn := GoString → GoString → Res Value

/-- Source: `type lineParserFn`. -/
abbrev lineParserFn := GoString → Res (GoString × Value)

/-- Source: `type tableHeaderParserFn`. -/
abbrev tableHeaderParserFn := List GoString → Res (List GoString × List GoString)

/-- Source: `type tableRowParserFn`. -/
abbrev tableRowParserFn := List GoString → GoString → Res GoMap

/-- Source: `type tableParserFn`; the returned slice may be nil. -/
abbrev tableParserFn := Reader → Res (Option (List Value))

/-- Source: `type tableColumnSplitterFn`. -/
abbrev tableColumnSplitterFn := GoString → Res (List GoString)

/-- Source: `type tableColumnsParserFn`. -/
abbrev tableColumnsParserFn := List GoString → List GoString → Res GoMap

/-- Source: `type chunkParserFn`; the returned slice may be nil. -/
abbrev chunkParserFn := Reader → Res (Option (List Value))

/-- Source: `type chunk`. -/
abbrev chunk := List GoString

/-- Source: `type procMapIter`; `content` may be the nil map. -/
structure procMapIter where
  fname : GoString
  content : Option GoMap

/-- Source: `newProcMapIter` (input_iter.go 33-39). -/
def newProcMapIter (fname : GoString) (r : Reader)
    (parser : Reader → Res (Option GoMap)) : Res procMapIter := do
  let content ← parser r
  return ⟨fname, content⟩

/-- Source: `procMapIter.Next` (input_iter.go 41-49): the returned pair and the
iterator afterwards. -/
def procMapIter.Next (i : procMapIter) : (Option Value × Bool) × procMapIter :=
  match i.content with
  | none => ((none, false), i)
  | some result => ((some (Value.map result), true), ⟨i.fname, none⟩)

/-- Source: `procMapIter.Close` (input_iter.go 51-54): the returned error and the
iterator afterwards. -/
def procMapIter.Close (i : procMapIter) : Option GoError × procMapIter :=
  (none, ⟨i.fname, none⟩)

/-- Source: `procMapIter.Name`. -/
def procMapIter.Name (i : procMapIter) : GoString := i.fname

/-- Loop of `createMapParser` over the lines: stops at the first empty line. -/
def mapParserLoop (lineParser : lineParserFn) : List GoString → GoMap → Res GoMap
  | [], result => .ok result
  | line :: rest, result =>
    if line = [] then .ok result
    else do
      let (key, val) ← lineParser line
      mapParserLoop lineParser rest (result.set key val)

/-- Source: `createMapParser` (input_iter.go 60-82). -/
def createMapParser (lineParser : lineParserFn) : Reader → Res (Option GoMap) :=
  fun r => do
    let b ← ReadAll r
    let lines := Split b (B "\n")
    let result ← mapParserLoop lineParser lines GoMap.empty
    return some result

/-- Source: `type procArrayIter`; `content` may be the nil slice. -/
structure procArrayIter where
  fname : GoString
  content : Option (List Value)

/-- Source: `newProcArrayIter` (input_iter.go 89-95). -/
def newProcArrayIter (fname : GoString) (r : Reader)
    (parser : Reader → Res (Option (List Value))) : Res procArrayIter := do
  let content ← parser r
  return ⟨fname, content⟩

/-- Source: `procArrayIter.Next` (input_iter.go 97-105). -/
def procArrayIter.Next (i : procArrayIter) : (Option Value × Bool) × procArrayIter :=
  match i.content with
  | none => ((none, false), i)
  | some result => ((some (Value.list result), true), ⟨i.fname, none⟩)

/-- Source: `procArrayIter.Close` (input_iter.go 107-110). -/
def procArrayIter.Close (i : procArrayIter) : Option GoError × procArrayIter :=
  (none, ⟨i.fname, none⟩)

/-- Source: `procArrayIter.Name`. -/
def procArrayIter.Name (i : procArrayIter) : GoString := i.fname

/-- Source: `type procTableIter`; `content` may be the nil slice. -/
structure procTableIter where
  fname : GoString
  content : Option (List Value)

/-- Source: `newProcTableIter` (input_iter.go 121-127). -/
def newProcTableIter (fname : GoString) (r : Reader) (parser : tableParserFn) :
    Res procTableIter := do
  let content ← parser r
  return ⟨fname, content⟩

/-- Source: `procTableIter.Next` (input_iter.go 129-137). -/
def procTableIter.Next (i : procTableIter) : (Option Value × Bool) × procTableIter :=
  match i.content with
  | none => ((none, false), i)
  | some result => ((some (Value.list result), true), ⟨i.fname, none⟩)

/-- Source: `procTableIter.Close` (input_iter.go 139-142). -/
def procTableIter.Close (i : procTableIter) : Option GoError × procTableIter :=
  (none, ⟨i.fname, none⟩)

/-- Source: `procTableIter.Name`. -/
def procTableIter.Name (i : procTableIter) : GoString := i.fname

/-- Source: `noTableHeader`, the nil header parser. -/
def noTableHeader : Option tableHeaderParserFn := none

/-- Source: `skipTableHeader` (input_iter.go 152-160); every call passes a row count
that is not negative. -/
def skipTableHeader (nRows : Nat) : Option tableHeaderParserFn :=
  some (fun rows =>
    if rows.length < nRows then
      .error (.new (B "unable to skip table header: " ++ fmtD nRows
        ++ B " rows to be skipped, but only " ++ fmtD rows.length ++ B " rows available"))
    else .ok (rows.take nRows, rows.drop nRows))

/-- Source: `readAllLines` (input_iter.go 210-217). -/
def readAllLines (r : Reader) : Res (List GoString) := do
  let b ← ReadAll r
  return Split b (B "\n")

/-- Row loop of `createTableParser`: empty lines are passed over, a failing row
ends the parse. -/
def tableLoop (rowParser : tableRowParserFn) (header : List GoString) :
    List GoString → Option (List Value) → Res (Option (List Value))
  | [], result => .ok result
  | line :: rest, result =>
    if line = [] then tableLoop rowParser header rest result
    else do
      let row ← rowParser header line
      tableLoop rowParser header rest (goAppend result (Value.map row))

/-- Source: `createTableParser` (input_iter.go 167-197). -/
def createTableParser (headerParser : Option tableHeaderParserFn)
    (rowParser : tableRowParserFn) : tableParserFn :=
  fun r => do
    let lines ← readAllLines r
    let (header, lines) ←
      (match headerParser with
        | some hp =>
          if lines.length > 0 then hp lines
          else (.ok ([], lines) : Res (List GoString × List GoString))
        | none => .ok ([], lines))
    tableLoop rowParser header lines none

/-- Source: `createTableRowParser` (input_iter.go 199-208). -/
def createTableRowParser (columnSplitter : tableColumnSplitterFn)
    (columnsParser : tableColumnsParserFn) : tableRowParserFn :=
  fun header row => do
    let columns ← columnSplitter row
    columnsParser header columns

/-- Source: `createLineParser` (input_iter.go 246-263); the global `options` and
the case tables used by `makeQueryFriendly` are parameters. -/
def createLineParser (options : Options) (unicodeLower : GoString → GoString)
    (splitter : lineSplitterFn) (valueParser : valueParserFn) : lineParserFn :=
  fun line => do
    let (key, val) ← splitter line
    let valParsed ← valueParser key val
    let key := if options.OutputQueryFriendly then makeQueryFriendly unicodeLower key else key
    return (key, valParsed)

/-- Source: `newChunk`. -/
def newChunk : chunk := []

/-- Loop of `parseAsChunks` over the lines, with the variables `chunks` and `curr`. -/
def chunksLoop : List GoString → List chunk → chunk → List chunk
  | [], chunks, _ => chunks
  | line :: rest, chunks, curr =>
    if line = [] then
      if curr.length > 0 then chunksLoop rest (chunks ++ [curr]) newChunk
      else chunksLoop rest chunks newChunk
    else chunksLoop rest chunks (curr ++ [line])

/-- Source: `parseAsChunks` (input_iter.go 271-293). -/
def parseAsChunks (r : Reader) : Res (List chunk) := do
  let lines ← readAllLines r
  return chunksLoop lines [] []

/-- Loop of `parseChunkLines`. -/
def chunkLinesLoop (lineParser : lineParserFn) : List GoString → GoMap → Res GoMap
  | [], result => .ok result
  | line :: rest, result => do
    let (key, value) ← lineParser line
    chunkLinesLoop lineParser rest (result.set key value)

/-- Source: `parseChunkLines` (input_iter.go 295-305). -/
def parseChunkLines (c : chunk) (lineParser : lineParserFn) : Res GoMap :=
  chunkLinesLoop lineParser c GoMap.empty

/-- Loop of `createChunkParser` over the chunks. -/
def chunkParserLoop (lineParser : lineParserFn) :
    List chunk → Option (List Value) → Res (Option (List Value))
  | [], result => .ok result
  | c :: rest, result => do
    let m ← parseChunkLines c lineParser
    chunkParserLoop lineParser rest (goAppend result (Value.map m))

/-- Source: `createChunkParser` (input_iter.go 221-240). -/
def createChunkParser (lineParser : lineParserFn) : chunkParserFn :=
  fun r => do
    let chunks ← parseAsChunks r
    chunkParserLoop lineParser chunks none

/-- Source: `splitLineBy` (input_iter.go 315-329). -/
def splitLineBy (line sep : GoString) : Res (GoString × GoString) :=
  let parts := Split line sep
  if parts.length < 1 then
    .error (.new (B "empty string where colon separated string is expected"))
  else do
    let key := TrimSpace (← index parts 0)
    let val ← (if parts.length ≥ 2 then do
        let p ← index parts 1
        pure (TrimSpace p)
      else pure (B ""))
    return (key, val)

/-- Source: `splitLineByColon`. -/
def splitLineByColon (line : GoString) : Res (GoString × GoString) := splitLineBy line (B ":")

/-- Source: `splitLineBySpace`. -/
def splitLineBySpace (line : GoString) : Res (GoString × GoString) := splitLineBy line (B " ")

/-- Source: `splitColumnsBySpace` with `reNotSpace`, the expression `\S+`. -/
def splitColumnsBySpace (row : GoString) : Res (List GoString) :=
  .ok (findAllRuns (fun c => !isRegexSpace c) row)

/-- Source: `splitColumnsByColonAndSpace` with `reNotSpaceNorColon`, the
expression `[^\s:]+`. -/
def splitColumnsByColonAndSpace (row : GoString) : Res (List GoString) :=
  .ok (findAllRuns (fun c => !(isRegexSpace c || c = 0x3A)) row)

/-- Source: `isLikelyInteger` with `reInteger`, the expression `^\d+$`. -/
def isLikelyInteger (s : GoString) : Bool := matchesAll isRegexDigit s

/-! ## cli/input_iter_linux.go -/

/-- Source: `parseProcPidIoValue` (input_iter_linux.go 63-65). -/
def parseProcPidIoValue (_key valueStr : GoString) : Res Value := do
  let n ← ParseInt valueStr
  return Value.int n

/-- Source: `splitProcPidLimitsColumns` (input_iter_linux.go 67-80). -/
def splitProcPidLimitsColumns (row : GoString) : Res (List GoString) :=
  if row.length < 68 then .error (.new (B "unexpected /proc/\x7bpid\x7d/limits format"))
  else do
    let columns : List GoString := []
    let columns := columns ++ [TrimSpace (← slice row 0 26)]
    let columns := columns ++ [TrimSpace (← slice row 26 47)]
    let columns := columns ++ [TrimSpace (← slice row 47 68)]
    let columns := columns ++ [TrimSpace (← slice row 68 row.length)]
    return columns

/-- Source: `unlimitedOrInteger` (input_iter_linux.go 106-112). -/
def unlimitedOrInteger (s : GoString) : Res Value :=
  if s = B "unlimited" then .ok (Value.str s)
  else do
    let n ← ParseInt s
    return Value.int n

/-- Source: `parseProcPidLimitsColumns` (input_iter_linux.go 82-104). -/
def parseProcPidLimitsColumns (_header columns : List GoString) : Res GoMap := do
  let sl ← unlimitedOrInteger (← index columns 1)
  let hl ← unlimitedOrInteger (← index columns 2)
  let c0 ← index columns 0
  let result : GoMap := GoMap.empty
  let result := result.set (B "limit") (Value.str c0)
  let result := result.set (B "soft_limit") sl
  let result := result.set (B "hard_limit") hl
  let c3 ← index columns 3
  if c3 ≠ B "" then
    let c3 ← index columns 3
    return result.set (B "units") (Value.str c3)
  else
    return result

/-- Source: `parseProcCryptoValue` (input_iter_linux.go 208-247). -/
def parseProcCryptoValue (key valueStr : GoString) : Res Value :=
  if key = B "async" ∨ key = B "driver" ∨ key = B "geniv" ∨ key = B "internal"
      ∨ key = B "module" ∨ key = B "name" ∨ key = B "selftest" ∨ key = B "type" then
    .ok (Value.str valueStr)
  else if key = B "blocksize" ∨ key = B "chunksize" ∨ key = B "digestsize"
      ∨ key = B "ivsize" ∨ key = B "max keysize" ∨ key = B "maxauthsize"
      ∨ key = B "min keysize" ∨ key = B "priority" ∨ key = B "refcnt"
      ∨ key = B "seedsize" ∨ key = B "walksize" then do
    let val ← ParseInt valueStr
    return Value.int val
  else .error (.new (B "unknown crypto key: " ++ key))

/-- Source: the slice `labels` of `parseProcDiskstatsColumns`. -/
def diskstatsLabels : List GoString :=
  [B "major", B "minor", B "name", B "ios_read", B "merges_read", B "sectors_read",
   B "msecs_read", B "ios_write", B "merges_write", B "sectors_write", B "msecs_write",
   B "inflight", B "io_ticks", B "msecs_total", B "ios_discard", B "merges_discard",
   B "sectors_discard", B "msec_discard", B "ios_flush", B "msec_flush"]

/-- Loop of `parseProcDiskstatsColumns`: `i` is the index of the first column of
the list, `labels[i]` is looked up after the column has been converted. -/
def diskstatsLoop : List GoString → Nat → GoMap → Res GoMap
  | [], _, result => .ok result
  | col :: rest, i, result =>
    if i ≠ 2 then do
      let val ← ParseInt col
      let label ← index diskstatsLabels i
      diskstatsLoop rest (i + 1) (result.set label (Value.int val))
    else do
      let label ← index diskstatsLabels i
      diskstatsLoop rest (i + 1) (result.set label (Value.str col))

/-- Source: `parseProcDiskstatsColumns` (input_iter_linux.go 249-269). -/
def parseProcDiskstatsColumns (_header columns : List GoString) : Res GoMap :=
  if columns.length < 20 then
    .error (.new (B "unknown /proc/diskstats format: found " ++ fmtD columns.length
      ++ B " columns"))
  else diskstatsLoop columns 0 GoMap.empty

/-- Source: `parseProcMeminfoValue` (input_iter_linux.go 271-296). -/
def parseProcMeminfoValue (_key valueStr : GoString) : Res Value :=
  if HasSuffix valueStr (B " kB") then do
    let val ← ParseInt (TrimSuffix valueStr (B " kB"))
    return Value.map
      (GoMap.set (GoMap.set GoMap.empty (B "value") (Value.int val)) (B "unit")
        (Value.str (B "kB")))
  else if isLikelyInteger valueStr then do
    let val ← ParseInt valueStr
    return Value.map (GoMap.set GoMap.empty (B "value") (Value.int val))
  else
    return Value.map (GoMap.set GoMap.empty (B "value") (Value.str valueStr))

/-- Source: `parseProcNetArpColumns` (input_iter_linux.go 351-365). -/
def parseProcNetArpColumns (_header columns : List GoString) : Res GoMap :=
  if columns.length < 6 then
    .error (.new (B "unknown /proc/net/arp format. expected 6 columns but got "
      ++ fmtD columns.length ++ B " columns"))
  else do
    let result : GoMap := GoMap.empty
    let result := result.set (B "ip_address") (Value.str (← index columns 0))
    let result := result.set (B "hw_type") (Value.str (← index columns 1))
    let result := result.set (B "flags") (Value.str (← index columns 2))
    let result := result.set (B "hw_address") (Value.str (← index columns 3))
    let result := result.set (B "mask") (Value.str (← index columns 4))
    let result := result.set (B "device") (Value.str (← index columns 5))
    return result

/-- Source: `parseProcVmstatValue` (input_iter_linux.go 492-494). -/
def parseProcVmstatValue (_key valueStr : GoString) : Res Value := do
  let n ← ParseInt valueStr
  return Value.int n

/-- Source: the string cases of `parseProcCpuinfoValue`. -/
def cpuinfoStringKeys : List GoString :=
  [B "address sizes", B "cache size", B "CPU implementer", B "CPU part", B "CPU variant",
   B "fpu", B "fpu_exception", B "isa", B "microcode", B "mmu", B "model name",
   B "vendor_id", B "wp"]

/-- Source: the integer cases of `parseProcCpuinfoValue`. -/
def cpuinfoIntKeys : List GoString :=
  [B "apicid", B "cache_alignment", B "clflush size", B "core id", B "CPU architecture",
   B "CPU revision", B "cpu cores", B "cpu family", B "cpuid level", B "hart",
   B "initial apicid", B "model", B "physical id", B "processor", B "siblings", B "stepping"]

/-- Source: the float cases of `parseProcCpuinfoValue`. -/
def cpuinfoFloatKeys : List GoString := [B "bogomips", B "BogoMIPS", B "cpu MHz"]

/-- Source: the cases of space separated strings of `parseProcCpuinfoValue`. -/
def cpuinfoSpaceListKeys : List GoString := [B "bugs", B "Features", B "flags", B "vmx flags"]

/-- Source: the case of comma separated strings of `parseProcCpuinfoValue`. -/
def cpuinfoCommaListKeys : List GoString := [B "uarch"]

/-- Source: the case marked unknown of `parseProcCpuinfoValue`. -/
def cpuinfoOtherKeys : List GoString := [B "power management"]

/-- Source: `parseProcCpuinfoValue` (input_iter_linux.go 114-206).  The conversion
`strconv.ParseFloat(_, 64)` of the library is the parameter `parseFloat`. -/
def parseProcCpuinfoValue (parseFloat : GoString → Except NumErr GoFloat64)
    (key valueStr : GoString) : Res Value :=
  if key ∈ cpuinfoStringKeys then .ok (Value.str valueStr)
  else if key ∈ cpuinfoIntKeys then do
    let val ← ParseInt valueStr
    return Value.int val
  else if key ∈ cpuinfoFloatKeys then
    match parseFloat valueStr with
    | .error k => .error (.num (B "ParseFloat") valueStr k)
    | .ok val => .ok (Value.float val)
  else if key ∈ cpuinfoSpaceListKeys then
    .ok (Value.list ((appendAll (Split valueStr (B " "))).getD []))
  else if key ∈ cpuinfoCommaListKeys then
    .ok (Value.list ((appendAll (Split valueStr (B ","))).getD []))
  else if key ∈ cpuinfoOtherKeys then .ok (Value.str valueStr)
  else .error (.new (B "unknown cpuinfo key: " ++ key))

/-- Source: `parseProcModulesColumns` (input_iter_linux.go 298-330). -/
def parseProcModulesColumns (_header columns : List GoString) : Res GoMap :=
  if columns.length < 6 then
    .error (.new (B "unknown /proc/modules format. expected 6 columns but got "
      ++ fmtD columns.length ++ B " columns"))
  else do
    let result : GoMap := GoMap.empty
    let result := result.set (B "name") (Value.str (← index columns 0))
    let result := result.set (B "size") (Value.int (← ParseInt (← index columns 1)))
    let result := result.set (B "ref_count") (Value.int (← ParseInt (← index columns 2)))
    let c3 ← index columns 3
    let sources : Option (List Value) :=
      if HasSuffix c3 (B ",") then appendAll (Split (TrimSuffix c3 (B ",")) (B ","))
      else none
    let result : GoMap :=
      match sources with
      | some l => result.set (B "sources") (Value.list l)
      | none => result
    let result := result.set (B "state") (Value.str (← index columns 4))
    let result := result.set (B "base") (Value.str (← index columns 5))
    return result

/-- Source: `parseProcMountsColumns` (input_iter_linux.go 332-349). -/
def parseProcMountsColumns (_header columns : List GoString) : Res GoMap :=
  if columns.length < 6 then
    .error (.new (B "unknown /proc/mounts format. expected 6 columns but got "
      ++ fmtD columns.length ++ B " columns"))
  else do
    let result : GoMap := GoMap.empty
    let result := result.set (B "device") (Value.str (← index columns 0))
    let result := result.set (B "mount_point") (Value.str (← index columns 1))
    let result := result.set (B "type") (Value.str (← index columns 2))
    let opts := appendAll (Split (← index columns 3) (B ","))
    let result := result.set (B "options") (Value.list (opts.getD []))
    return result

/-- Source: `parseProcNetDevColumns` (input_iter_linux.go 367-445). -/
def parseProcNetDevColumns (_header columns : List GoString) : Res GoMap :=
  if columns.length < 17 then
    .error (.new (B "unknown /proc/net/dev format. expected 17 columns but got "
      ++ fmtD columns.length ++ B " columns"))
  else do
    let result : GoMap := GoMap.empty
    let result := result.set (B "interface") (Value.str (← index columns 0))
    let receive : GoMap := GoMap.empty
    let receive := receive.set (B "bytes") (Value.int (← ParseInt (← index columns 1)))
    let receive := receive.set (B "packets") (Value.int (← ParseInt (← index columns 2)))
    let receive := receive.set (B "errs") (Value.int (← ParseInt (← index columns 3)))
    let receive := receive.set (B "drop") (Value.int (← ParseInt (← index columns 4)))
    let receive := receive.set (B "fifo") (Value.int (← ParseInt (← index columns 5)))
    let receive := receive.set (B "frame") (Value.int (← ParseInt (← index columns 6)))
    let receive := receive.set (B "compressed") (Value.int (← ParseInt (← index columns 7)))
    let receive := receive.set (B "multicast") (Value.int (← ParseInt (← index columns 8)))
    let result := result.set (B "receive") (Value.map receive)
    let transmit : GoMap := GoMap.empty
    let transmit := transmit.set (B "bytes") (Value.int (← ParseInt (← index columns 9)))
    let transmit := transmit.set (B "packets") (Value.int (← ParseInt (← index columns 10)))
    let transmit := transmit.set (B "errs") (Value.int (← ParseInt (← index columns 11)))
    let transmit := transmit.set (B "drop") (Value.int (← ParseInt (← index columns 12)))
    let transmit := transmit.set (B "fifo") (Value.int (← ParseInt (← index columns 13)))
    let transmit := transmit.set (B "frame") (Value.int (← ParseInt (← index columns 14)))
    let transmit := transmit.set (B "compressed") (Value.int (← ParseInt (← index columns 15)))
    let transmit := transmit.set (B "multicast") (Value.int (← ParseInt (← index columns 16)))
    let result := result.set (B "transmit") (Value.map transmit)
    return result

/-- Source: `parseProcNetNetlinkColumns` (input_iter_linux.go 447-490). -/
def parseProcNetNetlinkColumns (_header columns : List GoString) : Res GoMap :=
  if columns.length < 10 then
    .error (.new (B "unknown /proc/net/netlink format. expected 10 columns but got "
      ++ fmtD columns.length ++ B " columns"))
  else do
    let result : GoMap := GoMap.empty
    let result := result.set (B "sk") (Value.str (← index columns 0))
    let result := result.set (B "eth") (Value.int (← ParseInt (← index columns 1)))
    let result := result.set (B "pid") (Value.int (← ParseInt (← index columns 2)))
    let result := result.set (B "groups") (Value.str (← index columns 3))
    let result := result.set (B "rmem") (Value.int (← ParseInt (← index columns 4)))
    let result := result.set (B "wmem") (Value.int (← ParseInt (← index columns 5)))
    let result := result.set (B "dump") (Value.int (← ParseInt (← index columns 6)))
    let result := result.set (B "locks") (Value.int (← ParseInt (← index columns 7)))
    let result := result.set (B "drops") (Value.int (← ParseInt (← index columns 8)))
    let result := result.set (B "inode") (Value.int (← ParseInt (← index columns 9)))
    return result

/-- Match of the expression `/proc/\d+/(.+)` that starts at the first byte of `s`:
the text matched and the text captured.  The digits are the longest run of digits,
the capture is the longest run of bytes other than newline, at least one. -/
def matchPerProcessHere (s : GoString) : Option (GoString × GoString) :=
  if (B "/proc/").isPrefixOf s then
    match (s.drop 6).dropWhile isRegexDigit with
    | [] => none
    | c :: tail =>
      if (s.drop 6).takeWhile isRegexDigit ≠ [] ∧ c = 0x2F
          ∧ tail.takeWhile (fun b => b ≠ 0x0A) ≠ [] then
        some (B "/proc/" ++ (s.drop 6).takeWhile isRegexDigit ++ [0x2F]
            ++ tail.takeWhile (fun b => b ≠ 0x0A),
          tail.takeWhile (fun b => b ≠ 0x0A))
      else none
  else none

/-- Source: `rePerProcess.FindStringSubmatch(s)` with `rePerProcess`, the expression
`/proc/\d+/(.+)`: nil when the expression matches nowhere in `s`, else the text of
the leftmost match followed by the text of its capture group. -/
def findPerProcessSubmatch : GoString → List GoString
  | [] => []
  | c :: cs =>
    match matchPerProcessHere (c :: cs) with
    | some (m, cap) => [m, cap]
    | none => findPerProcessSubmatch cs

/-- Source: `type inputIter`, the interface that the three iterators implement. -/
inductive inputIter where
  | procMap (i : procMapIter)
  | procArray (i : procArrayIter)
  | procTable (i : procTableIter)

/-- Source: the statement `switch fname` of `createInputIter`
(input_iter_linux.go 38-60), on the opened file `f`. -/
def switchFname (options : Options) (unicodeLower : GoString → GoString)
    (parseFloat : GoString → Except NumErr GoFloat64) (fname : GoString) (f : Reader) :
    Res inputIter :=
  if fname = B "/proc/cpuinfo" then
    newProcArrayIter fname f (createChunkParser (createLineParser options unicodeLower
      splitLineByColon (parseProcCpuinfoValue parseFloat))) >>= fun i => pure (.procArray i)
  else if fname = B "/proc/crypto" then
    newProcArrayIter fname f (createChunkParser (createLineParser options unicodeLower
      splitLineByColon parseProcCryptoValue)) >>= fun i => pure (.procArray i)
  else if fname = B "/proc/diskstats" then
    newProcTableIter fname f (createTableParser noTableHeader
      (createTableRowParser splitColumnsBySpace parseProcDiskstatsColumns))
      >>= fun i => pure (.procTable i)
  else if fname = B "/proc/meminfo" then
    newProcMapIter fname f (createMapParser (createLineParser options unicodeLower
      splitLineByColon parseProcMeminfoValue)) >>= fun i => pure (.procMap i)
  else if fname = B "/proc/modules" then
    newProcTableIter fname f (createTableParser noTableHeader
      (createTableRowParser splitColumnsBySpace parseProcModulesColumns))
      >>= fun i => pure (.procTable i)
  else if fname = B "/proc/mounts" then
    newProcTableIter fname f (createTableParser noTableHeader
      (createTableRowParser splitColumnsBySpace parseProcMountsColumns))
      >>= fun i => pure (.procTable i)
  else if fname = B "/proc/net/arp" ∨ fname = B "/proc/self/net/arp" then
    newProcTableIter fname f (createTableParser (skipTableHeader 1)
      (createTableRowParser splitColumnsBySpace parseProcNetArpColumns))
      >>= fun i => pure (.procTable i)
  else if fname = B "/proc/net/dev" ∨ fname = B "/proc/self/net/dev" then
    newProcTableIter fname f (createTableParser (skipTableHeader 2)
      (createTableRowParser splitColumnsByColonAndSpace parseProcNetDevColumns))
      >>= fun i => pure (.procTable i)
  else if fname = B "/proc/net/netlink" ∨ fname = B "/proc/self/net/netlink" then
    newProcTableIter fname f (createTableParser (skipTableHeader 1)
      (createTableRowParser splitColumnsBySpace parseProcNetNetlinkColumns))
      >>= fun i => pure (.procTable i)
  else if fname = B "/proc/vmstat" then
    newProcMapIter fname f (createMapParser (createLineParser options unicodeLower
      splitLineBySpace parseProcVmstatValue)) >>= fun i => pure (.procMap i)
  else .error (.new (fname ++ B " is not supported"))

/-- Source: `createInputIter` (input_iter_linux.go 16-61).  `os.Open` is the
parameter `osOpen`, which gives the reader of a file or the error of opening it;
the global `options` and the library tables are parameters as before. -/
def createInputIter (options : Options) (unicodeLower : GoString → GoString)
    (parseFloat : GoString → Except NumErr GoFloat64) (osOpen : GoString → Res Reader)
    (_query : GoString) (args : List GoString) : Res inputIter :=
  if args.length < 1 then .error (.new (B "file name argument is required"))
  else do
    let fname ← index args 0
    let f ← osOpen fname
    let submatch := findPerProcessSubmatch fname
    if submatch.length = 2 then
      let sub ← index submatch 1
      if sub = B "io" then
        newProcMapIter fname f (createMapParser (createLineParser options unicodeLower
          splitLineByColon parseProcPidIoValue)) >>= fun i => pure (.procMap i)
      else if sub = B "limits" then
        newProcTableIter fname f (createTableParser (skipTableHeader 1)
          (createTableRowParser splitProcPidLimitsColumns parseProcPidLimitsColumns))
          >>= fun i => pure (.procTable i)
      else switchFname options unicodeLower parseFloat fname f
    else switchFname options unicodeLower parseFloat fname f

/-! ## Use of the iterators by a consumer -/

/-- A call made on an iterator by its consumer. -/
inductive IterCall where
  | next
  | close

/-- What a call on an iterator returned: the pair of `Next`, or the error of `Close`. -/
inductive IterReturn where
  | next (value : Option Value) (hasMore : Bool)
  | close (err : Option GoError)

/-- One call on a `procMapIter`: what it returned and the iterator afterwards. -/
def procMapIter.call (i : procMapIter) : IterCall → IterReturn × procMapIter
  | .next => (.next i.Next.1.1 i.Next.1.2, i.Next.2)
  | .close => (.close i.Close.1, i.Close.2)

/-- The returns of a sequence of calls made one after the other on a `procMapIter`. -/
def procMapIter.run (i : procMapIter) : List IterCall → List IterReturn
  | [] => []
  | c :: cs => (i.call c).1 :: procMapIter.run (i.call c).2 cs

/-- One call on a `procArrayIter`: what it returned and the iterator afterwards. -/
def procArrayIter.call (i : procArrayIter) : IterCall → IterReturn × procArrayIter
  | .next => (.next i.Next.1.1 i.Next.1.2, i.Next.2)
  | .close => (.close i.Close.1, i.Close.2)

/-- The returns of a sequence of calls made one after the other on a `procArrayIter`. -/
def procArrayIter.run (i : procArrayIter) : List IterCall → List IterReturn
  | [] => []
  | c :: cs => (i.call c).1 :: procArrayIter.run (i.call c).2 cs

/-- One call on a `procTableIter`: what it returned and the iterator afterwards. -/
def procTableIter.call (i : procTableIter) : IterCall → IterReturn × procTableIter
  | .next => (.next i.Next.1.1 i.Next.1.2, i.Next.2)
  | .close => (.close i.Close.1, i.Close.2)

/-- The returns of a sequence of calls made one after the other on a `procTableIter`. -/
def procTableIter.run (i : procTableIter) : List IterCall → List IterReturn
  | [] => []
  | c :: cs => (i.call c).1 :: procTableIter.run (i.call c).2 cs

/-- A return that shows an exhausted iterator: `Next` gave `(nil, false)`, or
`Close` gave no error. -/
def IterReturn.exhausted : IterReturn → Prop
  | .next v more => v = none ∧ more = false
  | .close err => err = none

/-- Claim C5 in the words of the specification, one byte of the key: a space or a "("
becomes "_", a ")" disappears, every other byte is kept. -/
def replaceByteSpec (c : UInt8) : GoString :=
  if c = 0x20 ∨ c = 0x28 then [0x5F] else if c = 0x29 then [] else [c]

/-- Claim C5 in the words of the specification, the lower-case form of a text: the
text is read as a sequence of characters and each character is replaced by its
lower-case form. -/
def lowercasedSpec (s : GoString) : GoString :=
  ((runes s).map unicodeToLower).flatMap EncodeRune

/-- Claim C5 in the words of the specification: every space and every "(" replaced by
"_", every ")" deleted, the other bytes kept in their order, and the result
lowercased. -/
def normalizeKeySpec (key : GoString) : GoString :=
  lowercasedSpec (key.flatMap replaceByteSpec)

/-- Claim C5 on one byte of a key of ASCII bytes: "_" for a space or a "(", nothing for
a ")", the small letter (32 places further) for a capital letter "A".."Z", the byte
itself otherwise. -/
def normalizeByteSpec (c : UInt8) : GoString :=
  if c = 0x20 ∨ c = 0x28 then [0x5F]
  else if c = 0x29 then []
  else if 0x41 ≤ c.toNat ∧ c.toNat ≤ 0x5A then [UInt8.ofNat (c.toNat + 32)]
  else [c]

/-- Claim C5 on one character of a key that is valid UTF-8: "_" for a space or a "(",
nothing for a ")", the lower-case form otherwise. -/
def normalizeCharSpec (r : Nat) : Option Nat :=
  if r = 0x20 ∨ r = 0x28 then some 0x5F
  else if r = 0x29 then none
  else some (unicodeToLower r)

/-- The replacements of claim C5 on one character: "_" for a space or a "(", nothing for
a ")", the character itself otherwise. -/
def replaceCharSpec (r : Nat) : List Nat :=
  if r = 0x20 ∨ r = 0x28 then [0x5F] else if r = 0x29 then [] else [r]

/-- A reader that delivers the given text and never fails. -/
def textReader (s : String) : Reader := ⟨B s, none⟩

/-- The value that `parseProcDiskstatsColumns` stores for column `i`: the column itself
at index 2, the integer it denotes elsewhere. -/
def diskstatsValue (i : Nat) (col : GoString) : Value :=
  if i = 2 then Value.str col
  else match ParseInt col with
    | .ok n => Value.int n
    | _ => Value.str col

/-- A disk-stats row of 20 columns, as the kernel prints it. -/
def diskstatsRow20 : GoString :=
  B "   8       0 sda 93096 31643 7164520 30111 165330 190118 9267266 238574 0 121248 283373 0 0 0 0 24499 14687"

/-- A disk-stats row of 19 columns: the row above without its last column. -/
def diskstatsRow19 : GoString :=
  B "   8       0 sda 93096 31643 7164520 30111 165330 190118 9267266 238574 0 121248 283373 0 0 0 0 24499"

/-- A disk-stats row of 21 columns: the row of 20 columns with one more counter. -/
def diskstatsRow21 : GoString :=
  B "   8       0 sda 93096 31643 7164520 30111 165330 190118 9267266 238574 0 121248 283373 0 0 0 0 24499 14687 5"

/-- A row of a limits file, 78 bytes long. -/
def limitsRowOpenFiles : GoString :=
  B "Max open files            1024                 1048576              files     "

/-- A row of a limits file cut after its third column: 68 bytes, no units. -/
def limitsRow68 : GoString :=
  B "Max cpu time              unlimited            unlimited            "

/-- A row of a limits file cut inside its third column: 67 bytes. -/
def limitsRow67 : GoString :=
  B "Max cpu time              unlimited            unlimited           "



/-- The number that the decimal digits of `s` denote when read after the number `n`:
`decimalValue s 0` is the value of the digit string `s`. -/
def decimalValue : GoString → Nat → Nat
  | [], n => n
  | c :: cs, n => decimalValue cs (n * 10 + (c.toNat - 0x30))

/-- The eight counters of a net-device row in their declared order, the same for the
receive and the transmit side. -/
def netDevCounters : List GoString :=
  [B "bytes", B "packets", B "errs", B "drop", B "fifo", B "frame", B "compressed",
   B "multicast"]

/-- The row of the loopback device of a net-device file. -/
def netDevRowLo : GoString :=
  B "    lo: 1093450 11420 0 0 0 0 0 0 1093451 11421 0 0 0 0 0 0"

/-- The text of `s` before the first occurrence of the byte `b`; all of `s` when `b`
does not occur. -/
def beforeFirst (b : UInt8) (s : GoString) : GoString := s.takeWhile (fun c => c ≠ b)

/-- The text of `s` after the first occurrence of the byte `b`; empty when `b` does
not occur. -/
def afterFirst (b : UInt8) (s : GoString) : GoString := (s.dropWhile (fun c => c ≠ b)).drop 1

/-- The pair that `splitLineBy` returns for a one-byte delimiter, in one expression:
`strings.TrimSpace` of the text before the first occurrence of the delimiter, and
`strings.TrimSpace` of the text between its first and its second occurrence (to the end
of the line if there is no second one), empty if the delimiter is absent. -/
def splitLineSpec (line : GoString) (b : UInt8) : GoString × GoString :=
  (TrimSpace (beforeFirst b line),
   if b ∈ line then TrimSpace (beforeFirst b (afterFirst b line)) else [])

/-- The characters for which `unicode.IsSpace` holds, by code point: U+0009..U+000D,
U+0020, U+0085, U+00A0, U+1680, U+2000..U+200A, U+2028, U+2029, U+202F, U+205F,
U+3000. -/
def whiteSpaceCodes : List Nat :=
  [0x09, 0x0A, 0x0B, 0x0C, 0x0D, 0x20, 0x85, 0xA0, 0x1680, 0x2000, 0x2001, 0x2002, 0x2003,
   0x2004, 0x2005, 0x2006, 0x2007, 0x2008, 0x2009, 0x200A, 0x2028, 0x2029, 0x202F, 0x205F,
   0x3000]

/-- The white-space characters as they stand in a text: their UTF-8 encodings. -/
def whiteSpaces : List GoString :=
  whiteSpaceCodes.map (fun n => String.utf8EncodeChar (Char.ofNat n))

/-- The text starts with a white-space character. -/
def startsWithSpace (s : GoString) : Bool := whiteSpaces.any (fun w => w.isPrefixOf s)

/-- The text ends with a white-space character. -/
def endsWithSpace (s : GoString) : Bool := whiteSpaces.any (fun w => w.isSuffixOf s)

/-- Claim C12 in the words of the specification: `t` is the white-space-trimmed `s`,
that is, `s` is `t` between two runs of white-space characters, and `t` neither starts
nor ends with a white-space character. -/
def isTrimOf (s t : GoString) : Prop :=
  ∃ pre post : List GoString, (∀ w ∈ pre, w ∈ whiteSpaces) ∧ (∀ w ∈ post, w ∈ whiteSpaces)
    ∧ s = pre.flatten ++ t ++ post.flatten
    ∧ startsWithSpace t = false ∧ endsWithSpace t = false

/-- The keys that `parseProcCpuinfoValue` enumerates, all cases together. -/
def cpuinfoKeys : List GoString :=
  cpuinfoStringKeys ++ cpuinfoIntKeys ++ cpuinfoFloatKeys ++ cpuinfoSpaceListKeys
    ++ cpuinfoCommaListKeys ++ cpuinfoOtherKeys

/-- The keys that `parseProcCryptoValue` enumerates, both cases together. -/
def cryptoKeys : List GoString :=
  [B "async", B "driver", B "geniv", B "internal", B "module", B "name", B "selftest",
   B "type", B "blocksize", B "chunksize", B "digestsize", B "ivsize", B "max keysize",
   B "maxauthsize", B "min keysize", B "priority", B "refcnt", B "seedsize", B "walksize"]

/-- A CPU-info text of two blocks; the second block has the key "bogus". -/
def cpuinfoTextBogus : Reader :=
  textReader "processor\t: 0\nmodel name\t: QEMU\n\nprocessor\t: 1\nbogus\t: 7\n\n"

/-- A property of the value of a call, void when the call returns an error or panics. -/
def Res.All {α : Type} (P : α → Prop) : Res α → Prop
  | .ok v => P v
  | _ => True

/-- Every key of the mapping is one of the given field names. -/
def keysIn (labels : List GoString) (m : GoMap) : Prop := ∀ k ∈ m.keys, k ∈ labels

/-- The value is a mapping and every key of it is one of the given field names. -/
def keysWithin (labels : List GoString) (v : Value) : Prop :=
  ∃ m : GoMap, v = Value.map m ∧ keysIn labels m

/-- The field names of a row of the modules file. -/
def modulesLabels : List GoString :=
  [B "name", B "size", B "ref_count", B "sources", B "state", B "base"]

/-- The field names of a row of the mounts file. -/
def mountsLabels : List GoString := [B "device", B "mount_point", B "type", B "options"]

/-- The field names of a row of the ARP table. -/
def arpLabels : List GoString :=
  [B "ip_address", B "hw_type", B "flags", B "hw_address", B "mask", B "device"]

/-- The field names of a row of the net-device file. -/
def netDevLabels : List GoString := [B "interface", B "receive", B "transmit"]

/-- The field names of a row of the netlink file. -/
def netlinkLabels : List GoString :=
  [B "sk", B "eth", B "pid", B "groups", B "rmem", B "wmem", B "dump", B "locks", B "drops",
   B "inode"]

/-- The field names of a row of a limits file. -/
def limitsLabels : List GoString := [B "limit", B "soft_limit", B "hard_limit", B "units"]

/-- The keys of a row of the net-device file are in order: the three field names at
the top, the eight counters inside "receive" and "transmit". -/
def netDevKeysOk (m : GoMap) : Prop :=
  keysIn netDevLabels m
  ∧ (∀ sub, m.get? (B "receive") = some (Value.map sub) → keysIn netDevCounters sub)
  ∧ (∀ sub, m.get? (B "transmit") = some (Value.map sub) → keysIn netDevCounters sub)

/-- An ARP table with its header row and one entry. -/
def arpTextOneEntry : Reader :=
  textReader "IP address HW type Flags HW address Mask Device\n10.0.2.2 0x1 0x2 52:55:0a:00:02:02 * eth0\n"

/-- Source: the literal paths of the statement `switch fname` of `createInputIter`. -/
def literalPaths : List GoString :=
  [B "/proc/cpuinfo", B "/proc/crypto", B "/proc/diskstats", B "/proc/meminfo",
   B "/proc/modules", B "/proc/mounts", B "/proc/net/arp", B "/proc/self/net/arp",
   B "/proc/net/dev", B "/proc/self/net/dev", B "/proc/net/netlink",
   B "/proc/self/net/netlink", B "/proc/vmstat"]

/-- Claim C15 in the words of the specification: the path is of the per-process form
`/proc/<digits>/<suffix>`, from its first byte to its last. -/
def perProcessForm (fname suffix : GoString) : Bool :=
  (B "/proc/").isPrefixOf fname
    && (fname.drop 6).takeWhile isRegexDigit ≠ []
    && (fname.drop 6).dropWhile isRegexDigit = 0x2F :: suffix

/-- Source: the literal paths for which the statement `switch fname` of
`createInputIter` builds its iterator with `newProcTableIter`. -/
def tablePaths : List GoString :=
  [B "/proc/diskstats", B "/proc/modules", B "/proc/mounts", B "/proc/net/arp",
   B "/proc/self/net/arp", B "/proc/net/dev", B "/proc/self/net/dev",
   B "/proc/net/netlink", B "/proc/self/net/netlink"]

/-- Claim C21 in the words of the specification: the iterator of the map combinator
with the colon line splitter and the integer value converter, on the opened file. -/
def dispatchPidIo (options : Options) (unicodeLower : GoString → GoString)
    (fname : GoString) (f : Reader) : Res inputIter :=
  newProcMapIter fname f (createMapParser (createLineParser options unicodeLower
    splitLineByColon parseProcPidIoValue)) >>= fun i => pure (.procMap i)

/-- Claim C21 in the words of the specification: the iterator of the table combinator
with one header row skipped and the fixed-width limits columns, on the opened file. -/
def dispatchPidLimits (fname : GoString) (f : Reader) : Res inputIter :=
  newProcTableIter fname f (createTableParser (skipTableHeader 1)
    (createTableRowParser splitProcPidLimitsColumns parseProcPidLimitsColumns))
    >>= fun i => pure (.procTable i)

/-- Claim C21 in the words of the specification: the choice made from the text
captured after the numeric segment, `none` when the expression matches nowhere. -/
def dispatchByCapture (options : Options) (unicodeLower : GoString → GoString)
    (parseFloat : GoString → Except NumErr GoFloat64) (fname : GoString) (f : Reader) :
    Option GoString → Res inputIter
  | some cap =>
    if cap = B "io" then dispatchPidIo options unicodeLower fname f
    else if cap = B "limits" then dispatchPidLimits fname f
    else switchFname options unicodeLower parseFloat fname f
  | none => switchFname options unicodeLower parseFloat fname f

/-- The bytes of the character are decimal digits, at least one. -/
def isDigitChar (c : Char) : Bool :=
  (String.utf8EncodeChar c).all isRegexDigit && (String.utf8EncodeChar c).length = 1

/-- Claim C22 in the words of the specification: the lines before the first empty
line. -/
def linesBeforeEmpty (lines : List GoString) : List GoString :=
  lines.takeWhile (fun l => l ≠ [])

/-- The text whose lines are the given ones: the lines with a newline between each two
(`strings.Join(lines, "\n")`). -/
def joinLines : List GoString → GoString
  | [] => []
  | [l] => l
  | l :: l2 :: rest => l ++ 0x0A :: joinLines (l2 :: rest)

/-- Claim C23 in the words of the specification: the text contains no space, no "("
and no ")". -/
def hasNoSpaceOrParen (s : GoString) : Bool :=
  s.all (fun c => c ≠ 0x20 ∧ c ≠ 0x28 ∧ c ≠ 0x29)

/-- A property of the library's case tables (the parameter `unicodeLower`): on a
text with a byte outside ASCII, lower-casing creates no space and no parenthesis. -/
def lowerKeepsClean (unicodeLower : GoString → GoString) : Prop :=
  ∀ s : GoString, s.all (fun c => c < 0x80) = false →
    hasNoSpaceOrParen s = true → hasNoSpaceOrParen (unicodeLower s) = true

/-- A property of the library's case tables (the parameter `unicodeLower`): the
lower-cased form of a text with a byte outside ASCII is left unchanged by
`strings.ToLower`. -/
def lowerIdempotent (unicodeLower : GoString → GoString) : Prop :=
  ∀ s : GoString, s.all (fun c => c < 0x80) = false →
    ToLower unicodeLower (unicodeLower s) = unicodeLower s

/-- The intervals `[lo, hi]` and `[lo2, hi2]` have no point in common. -/
def apart (lo hi lo2 hi2 : Nat) : Bool := Nat.blt hi lo2 || Nat.blt hi2 lo

/-- A check on an interval of lower-case forms: scalar values above "Z" that lie in no
run of the case table. -/
def imageOk (lo hi : Nat) : Bool :=
  (Nat.blt hi 0xD800 || (Nat.ble 0xE000 lo && Nat.blt hi 0x110000))
  && Nat.blt 0x5A lo
  && lowerRuns.all (fun f => apart lo hi f.1 f.2.1)
  && upperLowerRuns.all (fun g => apart lo hi g.1 g.2)

/-- A check on a run of capital letters: it lies outside ASCII and the interval of its
lower-case forms passes `imageOk`. -/
def lowerRunOk (e : Nat × Nat × Nat) : Bool :=
  Nat.ble e.1 e.2.1 && Nat.ble 0x80 e.1 && imageOk e.2.2 (e.2.2 + (e.2.1 - e.1))

/-- A check on an alternating run: it lies outside ASCII and below the surrogates, has
an even number of characters, and meets no other run of the case table. -/
def upperLowerRunOk (g : Nat × Nat) : Bool :=
  Nat.ble 0x80 g.1 && Nat.blt g.1 g.2 && Nat.beq ((g.2 - g.1) % 2) 1 && Nat.blt g.2 0xD800
  && lowerRuns.all (fun f => apart g.1 g.2 f.1 f.2.1)
  && upperLowerRuns.all (fun g2 =>
      (Nat.beq g.1 g2.1 && Nat.beq g.2 g2.2) || apart g.1 g.2 g2.1 g2.2)

/-- The checks above on the whole case table. -/
def caseTableOk : Bool := lowerRuns.all lowerRunOk && upperLowerRuns.all upperLowerRunOk

/-! ## Basic facts about `Res` -/

@[simp] theorem Res.ok_bind {α β : Type} (v : α) (f : α → Res β) :
    (Res.ok v >>= f) = f v := rfl

@[simp] theorem Res.error_bind {α β : Type} (e : GoError) (f : α → Res β) :
    ((Res.error e : Res α) >>= f) = Res.error e := rfl

@[simp] theorem Res.panic_bind {α β : Type} (i n : Nat) (f : α → Res β) :
    ((Res.panic i n : Res α) >>= f) = Res.panic i n := rfl

@[simp] theorem Res.pure_eq {α : Type} (v : α) : (pure v : Res α) = Res.ok v := rfl

/-! ## C1: chunks -/

/-- C1 (code evaluated at the failing input).  On the text "processor: 0", a run of
non-empty lines that reaches end of input with no empty line after it,
`parseAsChunks` returns no chunk at all: the run is dropped.  The same text followed
by a newline yields the run as the one chunk. -/
theorem parseAsChunks_drops_unterminated_run :
    parseAsChunks (textReader "processor: 0") = .ok []
    ∧ parseAsChunks (textReader "processor: 0\n") = .ok [[B "processor: 0"]] := by
  decide

/-! ## C2: first call of `Next` -/

/-- C2 (code evaluated at the failing input).  An ARP table that holds its header
row and no entry parses without error to zero rows, and the first `Next` of the
`procTableIter` built from it returns `(nil, false)`; the empty text parses without
error to zero chunks, and the first `Next` of the `procArrayIter` built from it
returns `(nil, false)`; whereas the `procMapIter` built from the empty text returns
the empty mapping with `hasMore = true`. -/
theorem first_Next_of_empty_list_is_exhausted :
    (newProcTableIter (B "/proc/net/arp")
        (textReader "IP address       HW type     Flags       HW address            Mask     Device\n")
        (createTableParser (skipTableHeader 1)
          (createTableRowParser splitColumnsBySpace parseProcNetArpColumns))
      >>= fun i => pure i.Next.1) = .ok (none, false)
    ∧ (newProcArrayIter (B "/proc/crypto") (textReader "")
        (createChunkParser
          (createLineParser Options.zero (fun s => s) splitLineByColon parseProcCryptoValue))
      >>= fun i => pure i.Next.1) = .ok (none, false)
    ∧ (newProcMapIter (B "/proc/vmstat") (textReader "")
        (createMapParser
          (createLineParser Options.zero (fun s => s) splitLineBySpace parseProcVmstatValue))
      >>= fun i => pure i.Next.1) = .ok (some (Value.map []), true) := by
  refine ⟨?_, ?_, ?_⟩ <;> rfl

/-! ## C3: exhaustion is permanent -/

theorem procMapIter_run_of_nil (fname : GoString) (calls : List IterCall) :
    ∀ r ∈ procMapIter.run ⟨fname, none⟩ calls, r.exhausted := by
  induction calls with
  | nil => intro r hr; simp [procMapIter.run] at hr
  | cons c cs ih =>
    intro r hr
    cases c <;>
      simp only [procMapIter.run, procMapIter.call, procMapIter.Next, procMapIter.Close,
        List.mem_cons] at hr <;>
      rcases hr with rfl | hr
    · exact ⟨rfl, rfl⟩
    · exact ih r hr
    · exact rfl
    · exact ih r hr

theorem procArrayIter_run_of_nil (fname : GoString) (calls : List IterCall) :
    ∀ r ∈ procArrayIter.run ⟨fname, none⟩ calls, r.exhausted := by
  induction calls with
  | nil => intro r hr; simp [procArrayIter.run] at hr
  | cons c cs ih =>
    intro r hr
    cases c <;>
      simp only [procArrayIter.run, procArrayIter.call, procArrayIter.Next,
        procArrayIter.Close, List.mem_cons] at hr <;>
      rcases hr with rfl | hr
    · exact ⟨rfl, rfl⟩
    · exact ih r hr
    · exact rfl
    · exact ih r hr

theorem procTableIter_run_of_nil (fname : GoString) (calls : List IterCall) :
    ∀ r ∈ procTableIter.run ⟨fname, none⟩ calls, r.exhausted := by
  induction calls with
  | nil => intro r hr; simp [procTableIter.run] at hr
  | cons c cs ih =>
    intro r hr
    cases c <;>
      simp only [procTableIter.run, procTableIter.call, procTableIter.Next,
        procTableIter.Close, List.mem_cons] at hr <;>
      rcases hr with rfl | hr
    · exact ⟨rfl, rfl⟩
    · exact ih r hr
    · exact rfl
    · exact ih r hr

theorem procMapIter_Next_snd (i : procMapIter) : i.Next.2 = ⟨i.fname, none⟩ := by
  rcases i with ⟨f, _ | m⟩ <;> rfl

theorem procArrayIter_Next_snd (i : procArrayIter) : i.Next.2 = ⟨i.fname, none⟩ := by
  rcases i with ⟨f, _ | m⟩ <;> rfl

theorem procTableIter_Next_snd (i : procTableIter) : i.Next.2 = ⟨i.fname, none⟩ := by
  rcases i with ⟨f, _ | m⟩ <;> rfl

/-- C3.  For each of the three record wrappers: (1) once `Next` has returned
`hasMore = false`, and (2) once `Close` has been called, on an iterator in any
state, every call of any further sequence of `Next` and `Close` calls shows
exhaustion: each `Next` returns `(nil, false)` and each `Close` no error;
(3) `Close` returns no error in every state; (4) closing twice leaves the state that
closing once leaves. -/
theorem exhaustion_is_permanent :
    ((∀ (i : procMapIter) (calls : List IterCall), i.Next.1.2 = false →
        ∀ r ∈ i.Next.2.run calls, r.exhausted)
      ∧ (∀ (i : procMapIter) (calls : List IterCall), ∀ r ∈ i.Close.2.run calls, r.exhausted)
      ∧ (∀ i : procMapIter, i.Close.1 = none)
      ∧ (∀ i : procMapIter, i.Close.2.Close.2 = i.Close.2))
    ∧ ((∀ (i : procArrayIter) (calls : List IterCall), i.Next.1.2 = false →
        ∀ r ∈ i.Next.2.run calls, r.exhausted)
      ∧ (∀ (i : procArrayIter) (calls : List IterCall), ∀ r ∈ i.Close.2.run calls, r.exhausted)
      ∧ (∀ i : procArrayIter, i.Close.1 = none)
      ∧ (∀ i : procArrayIter, i.Close.2.Close.2 = i.Close.2))
    ∧ ((∀ (i : procTableIter) (calls : List IterCall), i.Next.1.2 = false →
        ∀ r ∈ i.Next.2.run calls, r.exhausted)
      ∧ (∀ (i : procTableIter) (calls : List IterCall), ∀ r ∈ i.Close.2.run calls, r.exhausted)
      ∧ (∀ i : procTableIter, i.Close.1 = none)
      ∧ (∀ i : procTableIter, i.Close.2.Close.2 = i.Close.2)) := by
  refine ⟨⟨?_, ?_, ?_, ?_⟩, ⟨?_, ?_, ?_, ?_⟩, ⟨?_, ?_, ?_, ?_⟩⟩
  · intro i calls _
    rw [procMapIter_Next_snd]
    exact procMapIter_run_of_nil _ calls
  · intro i calls
    exact procMapIter_run_of_nil _ calls
  · intro i; rfl
  · intro i; rfl
  · intro i calls _
    rw [procArrayIter_Next_snd]
    exact procArrayIter_run_of_nil _ calls
  · intro i calls
    exact procArrayIter_run_of_nil _ calls
  · intro i; rfl
  · intro i; rfl
  · intro i calls _
    rw [procTableIter_Next_snd]
    exact procTableIter_run_of_nil _ calls
  · intro i calls
    exact procTableIter_run_of_nil _ calls
  · intro i; rfl
  · intro i; rfl

/-- Witness of C3: the three wrappers, exhausted by a first `Next` on nil content,
then driven through `Next, Close, Next, Next`. -/
theorem exhaustion_is_permanent_witness :
    ((procMapIter.mk (B "/proc/meminfo") none).Next.1.2 = false
      ∧ ∀ r ∈ (procMapIter.mk (B "/proc/meminfo") none).Next.2.run
          [.next, .close, .next, .next], r.exhausted)
    ∧ ((procArrayIter.mk (B "/proc/cpuinfo") none).Next.1.2 = false
      ∧ ∀ r ∈ (procArrayIter.mk (B "/proc/cpuinfo") none).Next.2.run
          [.next, .close, .next, .next], r.exhausted)
    ∧ ((procTableIter.mk (B "/proc/mounts") none).Next.1.2 = false
      ∧ ∀ r ∈ (procTableIter.mk (B "/proc/mounts") none).Next.2.run
          [.next, .close, .next, .next], r.exhausted) :=
  ⟨⟨rfl, exhaustion_is_permanent.1.1 _ _ rfl⟩,
   ⟨rfl, exhaustion_is_permanent.2.1.1 _ _ rfl⟩,
   ⟨rfl, exhaustion_is_permanent.2.2.1 _ _ rfl⟩⟩

/-! ## C4: key normalization -/

theorem replaceAux_single (b : UInt8) (new s : GoString) :
    replaceAux [b] new 0 s = s.flatMap (fun c => if c = b then new else [c]) := by
  induction s with
  | nil => rfl
  | cons c cs ih =>
    by_cases h : c = b
    · subst h
      simp [replaceAux, List.isPrefixOf, ih]
    · have h2 : ¬ b = c := fun e => h e.symm
      simp [replaceAux, List.isPrefixOf, ih, h, h2]

theorem ReplaceAll_single (b : UInt8) (new s : GoString) :
    ReplaceAll s [b] new = s.flatMap (fun c => if c = b then new else [c]) := by
  simp [ReplaceAll, replaceAux_single]

theorem replace_three (key : GoString) :
    ReplaceAll (ReplaceAll (ReplaceAll key (B " ") (B "_")) (B "(") (B "_")) (B ")") (B "")
      = key.flatMap
          (fun c => if c = 0x20 ∨ c = 0x28 then [0x5F] else if c = 0x29 then [] else [c]) := by
  have e1 : B " " = [0x20] := by decide
  have e2 : B "_" = [0x5F] := by decide
  have e3 : B "(" = [0x28] := by decide
  have e4 : B ")" = [0x29] := by decide
  have e5 : B "" = [] := by decide
  rw [e1, e2, e3, e4, e5, ReplaceAll_single, ReplaceAll_single, ReplaceAll_single]
  induction key with
  | nil => rfl
  | cons c cs ih =>
    simp only [List.flatMap_cons, List.flatMap_append, ih]
    by_cases h1 : c = 0x20
    · subst h1; simp
    · by_cases h2 : c = 0x28
      · subst h2; simp
      · by_cases h3 : c = 0x29
        · subst h3; simp
        · simp [h1, h2, h3]

/-- C4 (counterexample).  Whatever the case tables, `makeQueryFriendly` does not turn
"Cache Size (L2)" into "cache_size_l2". -/
theorem makeQueryFriendly_example_refuted :
    ¬ ∃ unicodeLower : GoString → GoString,
      makeQueryFriendly unicodeLower (B "Cache Size (L2)") = B "cache_size_l2" := by
  rintro ⟨f, h⟩
  have e : makeQueryFriendly f (B "Cache Size (L2)") = B "cache_size__l2" := rfl
  rw [e] at h
  exact absurd h (by decide)

/-- C4 (amended).  `makeQueryFriendly` turns "Cache Size (L2)" into "cache_size__l2",
with one underscore for the space and one for the "(".  When the splitter and the
value converter succeed on a line, the line parser returns the value of the
converter and, as key, `makeQueryFriendly` of the splitter's key if the option is
enabled and the splitter's key verbatim if it is disabled. -/
theorem key_normalization_example :
    (∀ unicodeLower : GoString → GoString,
      makeQueryFriendly unicodeLower (B "Cache Size (L2)") = B "cache_size__l2")
    ∧ (∀ (options : Options) (unicodeLower : GoString → GoString) (splitter : lineSplitterFn)
        (valueParser : valueParserFn) (line key val : GoString) (parsed : Value),
        splitter line = .ok (key, val) → valueParser key val = .ok parsed →
        createLineParser options unicodeLower splitter valueParser line
          = .ok (if options.OutputQueryFriendly then makeQueryFriendly unicodeLower key else key,
              parsed)) := by
  refine ⟨fun _ => rfl, ?_⟩
  intro options f splitter valueParser line key val parsed hs hv
  simp [createLineParser, hs, hv]

/-- Witness of C4: the line "Cache Size (L2): 512 kB" through the colon splitter and
the memory-info converter, with the option disabled and with it enabled. -/
theorem key_normalization_example_witness :
    splitLineByColon (B "Cache Size (L2): 512 kB") = .ok (B "Cache Size (L2)", B "512 kB")
    ∧ parseProcMeminfoValue (B "Cache Size (L2)") (B "512 kB")
        = .ok (Value.map [(B "value", Value.int 512), (B "unit", Value.str (B "kB"))])
    ∧ createLineParser Options.zero (fun s => s) splitLineByColon parseProcMeminfoValue
          (B "Cache Size (L2): 512 kB")
        = .ok (B "Cache Size (L2)",
            Value.map [(B "value", Value.int 512), (B "unit", Value.str (B "kB"))])
    ∧ createLineParser Options.queryFriendly (fun s => s) splitLineByColon parseProcMeminfoValue
          (B "Cache Size (L2): 512 kB")
        = .ok (B "cache_size__l2",
            Value.map [(B "value", Value.int 512), (B "unit", Value.str (B "kB"))]) :=
  ⟨rfl, rfl,
   key_normalization_example.2 Options.zero (fun s => s) splitLineByColon parseProcMeminfoValue
     (B "Cache Size (L2): 512 kB") (B "Cache Size (L2)") (B "512 kB") _ rfl rfl,
   key_normalization_example.2 Options.queryFriendly (fun s => s) splitLineByColon
     parseProcMeminfoValue (B "Cache Size (L2): 512 kB") (B "Cache Size (L2)") (B "512 kB") _
     rfl rfl⟩

/-! ## Facts about maps and lists -/

theorem Res.isOk_iff {α : Type} (r : Res α) : r.isOk = true ↔ ∃ v, r = .ok v := by
  cases r <;> simp [Res.isOk]

theorem GoMap.set_of_not_mem (m : GoMap) (k : GoString) (v : Value) (h : k ∉ m.keys) :
    m.set k v = m ++ [(k, v)] := by
  induction m with
  | nil => rfl
  | cons kv rest ih =>
    obtain ⟨k0, v0⟩ := kv
    simp only [GoMap.keys, List.map_cons, List.mem_cons, not_or] at h
    have hne : ¬ k0 = k := fun e => h.1 e.symm
    simp only [GoMap.set, if_neg hne, List.cons_append]
    rw [ih h.2]

theorem GoMap.get?_zip (ks : List GoString) : ∀ (vs : List Value) (i : Nat) (k : GoString)
    (v : Value), ks.Nodup → ks[i]? = some k → vs[i]? = some v →
    GoMap.get? (ks.zip vs) k = some v := by
  induction ks with
  | nil => intro vs i k v _ hk; simp at hk
  | cons k0 ks ih =>
    intro vs i k v hnd hk hv
    rcases vs with _ | ⟨v0, vs⟩
    · simp at hv
    rcases i with _ | i
    · simp only [List.getElem?_cons_zero, Option.some.injEq] at hk hv
      subst hk hv
      simp [GoMap.get?]
    · simp only [List.getElem?_cons_succ] at hk hv
      have hmem : k ∈ ks := List.getElem?_mem hk
      have hne : ¬ k0 = k := by
        rintro rfl
        exact (List.nodup_cons.1 hnd).1 hmem
      simp only [List.zip_cons_cons, GoMap.get?, if_neg hne]
      exact ih vs i k v (List.nodup_cons.1 hnd).2 hk hv

theorem not_mem_take_of_nodup {α : Type} (l : List α) (hnd : l.Nodup) (i : Nat) (a : α)
    (h : l[i]? = some a) : a ∉ l.take i := by
  induction l generalizing i with
  | nil => simp at h
  | cons x xs ih =>
    rcases i with _ | i
    · simp
    · simp only [List.getElem?_cons_succ] at h
      simp only [List.take_succ_cons, List.mem_cons, not_or]
      refine ⟨?_, ih (List.nodup_cons.1 hnd).2 i h⟩
      rintro rfl
      exact (List.nodup_cons.1 hnd).1 (List.getElem?_mem h)

/-- A property of every indexed entry of a list follows from its check on the list. -/
theorem forall_getElem?_of_all {α : Type} (l : List α) (p : Nat → α → Bool)
    (h : l.enum.all (fun x => p x.1 x.2) = true) :
    ∀ i c, l[i]? = some c → p i c = true := by
  intro i c hc
  exact List.all_eq_true.1 h (i, c) (List.mk_mem_enum_iff_getElem?.2 hc)

/-! ## C6, C7: disk-stats rows -/

theorem diskstatsLabels_nodup : diskstatsLabels.Nodup := by decide

theorem diskstatsLabels_length : diskstatsLabels.length = 20 := by decide

/-- Loop invariant of `parseProcDiskstatsColumns`: started at index `i` with the labels
before `i` filled in, on columns that fit the label list and are integers away from
index 2, the loop adds label `i + j` with the value of column `j`, for every `j`. -/
theorem diskstatsLoop_ok (cols : List GoString) : ∀ (i : Nat) (r : GoMap),
    i + cols.length ≤ 20 → r.keys = diskstatsLabels.take i →
    (∀ j c, cols[j]? = some c → i + j ≠ 2 → (ParseInt c).isOk = true) →
    diskstatsLoop cols i r
      = .ok (r ++ (diskstatsLabels.drop i).zip
          ((cols.enumFrom i).map (fun p => diskstatsValue p.1 p.2))) := by
  induction cols with
  | nil => intro i r _ _ _; simp [diskstatsLoop]
  | cons c cs ih =>
    intro i r hlen hkeys hints
    simp only [List.length_cons] at hlen
    have hi : i < diskstatsLabels.length := by
      rw [diskstatsLabels_length]; omega
    obtain ⟨label, hlabel⟩ : ∃ label, diskstatsLabels[i]? = some label :=
      ⟨_, List.getElem?_eq_getElem hi⟩
    have hidx : index diskstatsLabels i = .ok label := by simp only [index, hlabel]
    have hfresh : label ∉ r.keys := by
      rw [hkeys]; exact not_mem_take_of_nodup _ diskstatsLabels_nodup i label hlabel
    have hdrop : diskstatsLabels.drop i = label :: diskstatsLabels.drop (i + 1) := by
      rw [List.drop_eq_getElem_cons hi]
      rw [List.getElem?_eq_getElem hi] at hlabel
      simp only [Option.some.injEq] at hlabel
      rw [hlabel]
    have hkeys2 : ∀ v, GoMap.keys (r ++ [(label, v)]) = diskstatsLabels.take (i + 1) := by
      intro v
      have e : GoMap.keys (r ++ [(label, v)]) = r.keys ++ [label] := by
        simp [GoMap.keys]
      rw [e, hkeys, List.take_succ, hlabel]
      rfl
    have hrest : ∀ j c, cs[j]? = some c → i + 1 + j ≠ 2 → (ParseInt c).isOk = true := by
      intro j c hj hne
      exact hints (j + 1) c (by simpa using hj) (by omega)
    by_cases h2 : i = 2
    · subst h2
      simp only [diskstatsLoop, ne_eq, not_true_eq_false, if_false, hidx, Res.ok_bind]
      rw [GoMap.set_of_not_mem _ _ _ hfresh, ih 3 _ (by omega) (hkeys2 _) hrest, hdrop]
      simp [diskstatsValue, List.enumFrom]
    · obtain ⟨n, hn⟩ := (Res.isOk_iff _).1 (hints 0 c (by simp) (by simpa using h2))
      simp only [diskstatsLoop, ne_eq, h2, not_false_eq_true, if_true, hn, hidx, Res.ok_bind]
      rw [GoMap.set_of_not_mem _ _ _ hfresh, ih (i + 1) _ (by omega) (hkeys2 _) hrest, hdrop]
      simp [diskstatsValue, List.enumFrom, h2, hn]

/-- C6.  `parseProcDiskstatsColumns` returns its format error for every column list
with fewer than 20 entries.  For every list of exactly 20 entries in which every
entry other than index 2 is accepted by `strconv.ParseInt(_, 10, 64)`, it returns a
mapping whose keys are exactly the 20 labels, each once, in which label `i` holds
the integer value of column `i` for `i ≠ 2` and "name" holds column 2 as a string. -/
theorem parseProcDiskstatsColumns_spec (header columns : List GoString) :
    (columns.length < 20 →
      parseProcDiskstatsColumns header columns
        = .error (.new (B "unknown /proc/diskstats format: found " ++ fmtD columns.length
            ++ B " columns")))
    ∧ (columns.length = 20 →
        (∀ i c, columns[i]? = some c → i ≠ 2 → (ParseInt c).isOk = true) →
        ∃ m, parseProcDiskstatsColumns header columns = .ok m
          ∧ m.keys = diskstatsLabels
          ∧ (∀ i c label, columns[i]? = some c → diskstatsLabels[i]? = some label → i ≠ 2 →
              ∃ n, ParseInt c = .ok n ∧ m.get? label = some (Value.int n))
          ∧ (∀ c, columns[2]? = some c → m.get? (B "name") = some (Value.str c))) := by
  constructor
  · intro h
    simp [parseProcDiskstatsColumns, h]
  · intro hlen hints
    have hloop := diskstatsLoop_ok columns 0 GoMap.empty (by omega) rfl
      (fun j c hj hne => hints j c hj (by simpa using hne))
    have hvals : ∀ i c, columns[i]? = some c →
        ((columns.enumFrom 0).map (fun p => diskstatsValue p.1 p.2))[i]?
          = some (diskstatsValue i c) := by
      intro i c hc
      simp [List.getElem?_enumFrom, hc]
    refine ⟨diskstatsLabels.zip ((columns.enumFrom 0).map (fun p => diskstatsValue p.1 p.2)),
      ?_, ?_, ?_, ?_⟩
    · simp only [parseProcDiskstatsColumns, hlen, lt_irrefl, if_false]
      exact hloop
    · simp only [GoMap.keys]
      apply List.map_fst_zip
      simp [hlen, diskstatsLabels_length]
    · intro i c label hc hl hne
      obtain ⟨n, hn⟩ := (Res.isOk_iff _).1 (hints i c hc hne)
      refine ⟨n, hn, ?_⟩
      have hv := hvals i c hc
      simp only [diskstatsValue, if_neg hne, hn] at hv
      exact GoMap.get?_zip _ _ i label _ diskstatsLabels_nodup hl hv
    · intro c hc
      have hv := hvals 2 c hc
      simp only [diskstatsValue, if_true] at hv
      exact GoMap.get?_zip _ _ 2 (B "name") _ diskstatsLabels_nodup rfl hv

/-- Witness of C6: a row of 19 columns and a row of 20 columns, split on white space. -/
theorem parseProcDiskstatsColumns_spec_witness :
    (findAllRuns (fun c => !isRegexSpace c) diskstatsRow19).length < 20
    ∧ parseProcDiskstatsColumns [] (findAllRuns (fun c => !isRegexSpace c) diskstatsRow19)
        = .error (.new (B "unknown /proc/diskstats format: found 19 columns"))
    ∧ (findAllRuns (fun c => !isRegexSpace c) diskstatsRow20).length = 20
    ∧ ∃ m, parseProcDiskstatsColumns [] (findAllRuns (fun c => !isRegexSpace c) diskstatsRow20)
          = .ok m
        ∧ m.keys = diskstatsLabels
        ∧ m.get? (B "major") = some (Value.int 8)
        ∧ m.get? (B "name") = some (Value.str (B "sda"))
        ∧ m.get? (B "msec_flush") = some (Value.int 14687) := by
  have h19 : (findAllRuns (fun c => !isRegexSpace c) diskstatsRow19).length < 20 := by decide
  have h20 : (findAllRuns (fun c => !isRegexSpace c) diskstatsRow20).length = 20 := by decide
  have hints : ∀ i c, (findAllRuns (fun c => !isRegexSpace c) diskstatsRow20)[i]? = some c →
      i ≠ 2 → (ParseInt c).isOk = true := by
    intro i c hc hne
    have h := forall_getElem?_of_all _ (fun i c => i = 2 || (ParseInt c).isOk) (by decide) i c hc
    simpa [hne] using h
  obtain ⟨m, hm, hk, hint, hname⟩ :=
    (parseProcDiskstatsColumns_spec [] (findAllRuns (fun c => !isRegexSpace c) diskstatsRow20)).2
      h20 hints
  refine ⟨h19, ?_, h20, m, hm, hk, ?_, ?_, ?_⟩
  · exact (parseProcDiskstatsColumns_spec [] _).1 h19
  · obtain ⟨n, hn, hg⟩ := hint 0 (B "8") (B "major") (by decide) (by decide) (by decide)
    have e : n = 8 := by
      have : Res.ok (8 : Int) = Res.ok n := (by decide : ParseInt (B "8") = .ok 8).symm.trans hn
      cases this; rfl
    rw [hg, e]
  · exact hname (B "sda") (by decide)
  · obtain ⟨n, hn, hg⟩ := hint 19 (B "14687") (B "msec_flush") (by decide) (by decide) (by decide)
    have e : n = 14687 := by
      have : Res.ok (14687 : Int) = Res.ok n :=
        (by decide : ParseInt (B "14687") = .ok 14687).symm.trans hn
      cases this; rfl
    rw [hg, e]

/-- C7 (code evaluated at the failing input).  On a disk-stats row of 21 columns that
are integers away from index 2, the row parser does not return a mapping: it ends in
the run-time panic "index out of range [20] with length 20" raised by `labels[i]`. -/
theorem parseProcDiskstatsColumns_panics_on_21_columns :
    (findAllRuns (fun c => !isRegexSpace c) diskstatsRow21).length = 21
    ∧ createTableRowParser splitColumnsBySpace parseProcDiskstatsColumns [] diskstatsRow21
        = .panic 20 20 := by
  constructor
  · decide
  · rfl

/-! ## C8, C9: rows of a limits file -/

theorem ParseInt_isPanic (s : GoString) : (ParseInt s).isPanic = false := by
  unfold ParseInt
  split
  · rfl
  · dsimp only
    split
    · rfl
    · split
      · rfl
      · split <;> rfl

theorem unlimitedOrInteger_isPanic (s : GoString) : (unlimitedOrInteger s).isPanic = false := by
  unfold unlimitedOrInteger
  split
  · rfl
  · have h := ParseInt_isPanic s
    cases hp : ParseInt s <;> simp_all [Res.isPanic]

theorem splitProcPidLimitsColumns_long (row : GoString) (h : 68 ≤ row.length) :
    splitProcPidLimitsColumns row
      = .ok [TrimSpace (row.take 26), TrimSpace ((row.take 47).drop 26),
          TrimSpace ((row.take 68).drop 47), TrimSpace (row.drop 68)] := by
  have h1 : ¬ row.length < 68 := by omega
  have h2 : 26 ≤ row.length := by omega
  have h3 : 47 ≤ row.length := by omega
  simp [splitProcPidLimitsColumns, slice, h1, h2, h3, h]

theorem parseProcPidLimitsColumns_isPanic (header : List GoString) (c0 c1 c2 c3 : GoString) :
    (parseProcPidLimitsColumns header [c0, c1, c2, c3]).isPanic = false := by
  have h1 := unlimitedOrInteger_isPanic c1
  have h2 := unlimitedOrInteger_isPanic c2
  simp only [parseProcPidLimitsColumns, index, List.getElem?_cons_zero, List.getElem?_cons_succ,
    Res.ok_bind]
  cases hp1 : unlimitedOrInteger c1 with
  | panic i n => rw [hp1] at h1; simp [Res.isPanic] at h1
  | error e => rfl
  | ok sl =>
    cases hp2 : unlimitedOrInteger c2 with
    | panic i n => rw [hp2] at h2; simp [Res.isPanic] at h2
    | error e => rfl
    | ok hl =>
      simp only [Res.ok_bind]
      split <;> rfl

/-- C8.  `splitProcPidLimitsColumns` returns its format error for every row shorter
than 68 bytes; for every row of at least 68 bytes it returns exactly four columns,
the byte ranges [0,26), [26,47), [47,68) and [68,end) of the row, each trimmed by
`strings.TrimSpace`; and the limits row parser, the splitter followed by
`parseProcPidLimitsColumns`, never ends in an index-out-of-range panic. -/
theorem splitProcPidLimitsColumns_spec (header : List GoString) (row : GoString) :
    (row.length < 68 →
      splitProcPidLimitsColumns row
        = .error (.new (B "unexpected /proc/\x7bpid\x7d/limits format")))
    ∧ (68 ≤ row.length →
      splitProcPidLimitsColumns row
        = .ok [TrimSpace (row.take 26), TrimSpace ((row.take 47).drop 26),
            TrimSpace ((row.take 68).drop 47), TrimSpace (row.drop 68)])
    ∧ (createTableRowParser splitProcPidLimitsColumns parseProcPidLimitsColumns header row).isPanic
        = false := by
  refine ⟨?_, splitProcPidLimitsColumns_long row, ?_⟩
  · intro h
    simp [splitProcPidLimitsColumns, h]
  · by_cases h : row.length < 68
    · simp [createTableRowParser, splitProcPidLimitsColumns, h, Res.isPanic]
    · simp only [createTableRowParser, splitProcPidLimitsColumns_long row (by omega),
        Res.ok_bind]
      exact parseProcPidLimitsColumns_isPanic _ _ _ _ _

/-- Witness of C8: a row of 67 bytes and a row of 78 bytes. -/
theorem splitProcPidLimitsColumns_spec_witness :
    limitsRow67.length < 68
    ∧ splitProcPidLimitsColumns limitsRow67
        = .error (.new (B "unexpected /proc/\x7bpid\x7d/limits format"))
    ∧ 68 ≤ limitsRowOpenFiles.length
    ∧ splitProcPidLimitsColumns limitsRowOpenFiles
        = .ok [B "Max open files", B "1024", B "1048576", B "files"] := by
  have h67 : limitsRow67.length < 68 := by decide
  have h78 : 68 ≤ limitsRowOpenFiles.length := by decide
  refine ⟨h67, (splitProcPidLimitsColumns_spec [] limitsRow67).1 h67, h78, ?_⟩
  rw [(splitProcPidLimitsColumns_spec [] limitsRowOpenFiles).2.1 h78]
  decide

theorem unlimitedOrInteger_unlimited :
    unlimitedOrInteger (B "unlimited") = .ok (Value.str (B "unlimited")) := by
  simp [unlimitedOrInteger]

theorem unlimitedOrInteger_int (s : GoString) (n : Int) (hs : s ≠ B "unlimited")
    (h : ParseInt s = .ok n) : unlimitedOrInteger s = .ok (Value.int n) := by
  simp [unlimitedOrInteger, hs, h]

theorem unlimitedOrInteger_error (s : GoString) (e : GoError) (hs : s ≠ B "unlimited")
    (h : ParseInt s = .error e) : unlimitedOrInteger s = .error e := by
  simp [unlimitedOrInteger, hs, h]

theorem TrimSpace_nil : TrimSpace [] = [] := rfl

/-- C9.  For every row of four columns: (1) a limit column equal to "unlimited" is
converted to that string, and any other limit column to the integer that
`strconv.ParseInt(_, 10, 64)` reads from it, with the error of `ParseInt` if it reads
none; (2) when both limit columns are converted, `parseProcPidLimitsColumns` returns a
mapping with "limit" = column 0 as a string, "soft_limit" = the conversion of column
1, "hard_limit" = the conversion of column 2, and "units" = column 3 as a string if
column 3 is not empty and no "units" key if it is empty; (3) when a limit column is
not converted, the error is returned for the row; (4) the mapping parsed from a row of
exactly 68 bytes has no "units" key. -/
theorem parseProcPidLimitsColumns_spec (header : List GoString) (c0 c1 c2 c3 : GoString) :
    (unlimitedOrInteger (B "unlimited") = .ok (Value.str (B "unlimited"))
      ∧ (∀ (s : GoString) (n : Int), s ≠ B "unlimited" → ParseInt s = .ok n →
          unlimitedOrInteger s = .ok (Value.int n))
      ∧ (∀ (s : GoString) (e : GoError), s ≠ B "unlimited" → ParseInt s = .error e →
          unlimitedOrInteger s = .error e))
    ∧ (∀ sl hl, unlimitedOrInteger c1 = .ok sl → unlimitedOrInteger c2 = .ok hl →
        ∃ m, parseProcPidLimitsColumns header [c0, c1, c2, c3] = .ok m
          ∧ m.get? (B "limit") = some (Value.str c0)
          ∧ m.get? (B "soft_limit") = some sl
          ∧ m.get? (B "hard_limit") = some hl
          ∧ (c3 ≠ B "" → m.get? (B "units") = some (Value.str c3)
              ∧ m.keys = [B "limit", B "soft_limit", B "hard_limit", B "units"])
          ∧ (c3 = B "" → m.get? (B "units") = none
              ∧ m.keys = [B "limit", B "soft_limit", B "hard_limit"]))
    ∧ (∀ e, unlimitedOrInteger c1 = .error e →
        parseProcPidLimitsColumns header [c0, c1, c2, c3] = .error e)
    ∧ (∀ sl e, unlimitedOrInteger c1 = .ok sl → unlimitedOrInteger c2 = .error e →
        parseProcPidLimitsColumns header [c0, c1, c2, c3] = .error e)
    ∧ (∀ (row : GoString) (m : GoMap), row.length = 68 →
        createTableRowParser splitProcPidLimitsColumns parseProcPidLimitsColumns header row
          = .ok m →
        m.get? (B "units") = none) := by
  have hkeys : ∀ (x0 x3 sl hl : Value),
      GoMap.set (GoMap.set (GoMap.set GoMap.empty (B "limit") x0) (B "soft_limit") sl)
        (B "hard_limit") hl
        = [(B "limit", x0), (B "soft_limit", sl), (B "hard_limit", hl)]
      ∧ GoMap.set (GoMap.set (GoMap.set (GoMap.set GoMap.empty (B "limit") x0)
          (B "soft_limit") sl) (B "hard_limit") hl) (B "units") x3
        = [(B "limit", x0), (B "soft_limit", sl), (B "hard_limit", hl), (B "units", x3)] :=
    fun _ _ _ _ => ⟨rfl, rfl⟩
  have hparse : ∀ (a b c d : GoString) sl hl, unlimitedOrInteger b = .ok sl →
      unlimitedOrInteger c = .ok hl →
      parseProcPidLimitsColumns header [a, b, c, d]
        = .ok (if d ≠ B "" then
            [(B "limit", Value.str a), (B "soft_limit", sl), (B "hard_limit", hl),
              (B "units", Value.str d)]
          else [(B "limit", Value.str a), (B "soft_limit", sl), (B "hard_limit", hl)]) := by
    intro a b c d sl hl h1 h2
    simp only [parseProcPidLimitsColumns, index, List.getElem?_cons_zero,
      List.getElem?_cons_succ, Res.ok_bind, h1, h2]
    by_cases hd : d = B ""
    · simp only [hd, ne_eq, not_true_eq_false, if_false, Res.pure_eq]
      rw [(hkeys (Value.str a) (Value.str d) sl hl).1]
    · simp only [ne_eq, hd, not_false_eq_true, if_true, Res.pure_eq, Res.ok_bind]
      rw [(hkeys (Value.str a) (Value.str d) sl hl).2]
  refine ⟨⟨unlimitedOrInteger_unlimited, unlimitedOrInteger_int, unlimitedOrInteger_error⟩,
    ?_, ?_, ?_, ?_⟩
  · intro sl hl h1 h2
    refine ⟨_, hparse c0 c1 c2 c3 sl hl h1 h2, ?_⟩
    by_cases hd : c3 = B ""
    · simp only [hd, ne_eq, not_true_eq_false, if_false]
      exact ⟨rfl, rfl, rfl, fun h => h.elim, fun _ => ⟨rfl, rfl⟩⟩
    · simp only [ne_eq, hd, not_false_eq_true, if_true]
      exact ⟨rfl, rfl, rfl, fun _ => ⟨rfl, rfl⟩, fun h => h.elim⟩
  · intro e h1
    simp [parseProcPidLimitsColumns, index, h1]
  · intro sl e h1 h2
    simp [parseProcPidLimitsColumns, index, h1, h2]
  · intro row m hlen hm
    have hdrop : row.drop 68 = [] := List.drop_eq_nil_of_le (by omega)
    simp only [createTableRowParser, splitProcPidLimitsColumns_long row (by omega),
      Res.ok_bind, hdrop, TrimSpace_nil] at hm
    cases h1 : unlimitedOrInteger (TrimSpace ((row.take 47).drop 26)) with
    | panic i n => simp [parseProcPidLimitsColumns, index, h1] at hm
    | error e => simp [parseProcPidLimitsColumns, index, h1] at hm
    | ok sl =>
      cases h2 : unlimitedOrInteger (TrimSpace ((row.take 68).drop 47)) with
      | panic i n => simp [parseProcPidLimitsColumns, index, h1, h2] at hm
      | error e => simp [parseProcPidLimitsColumns, index, h1, h2] at hm
      | ok hl =>
        rw [hparse _ _ _ _ sl hl h1 h2] at hm
        have e : B "" = ([] : GoString) := rfl
        simp only [e, ne_eq, not_true_eq_false, if_false, Res.ok.injEq] at hm
        subst hm
        rfl

/-- Witness of C9: the row "Max open files" with two integer limits and units, and a
row of 68 bytes with two "unlimited" limits and no units. -/
theorem parseProcPidLimitsColumns_spec_witness :
    (∃ m, parseProcPidLimitsColumns [] [B "Max open files", B "1024", B "1048576", B "files"]
          = .ok m
        ∧ m.get? (B "limit") = some (Value.str (B "Max open files"))
        ∧ m.get? (B "soft_limit") = some (Value.int 1024)
        ∧ m.get? (B "hard_limit") = some (Value.int 1048576)
        ∧ m.get? (B "units") = some (Value.str (B "files")))
    ∧ parseProcPidLimitsColumns [] [B "Max open files", B "many", B "1048576", B "files"]
        = .error (.num (B "ParseInt") (B "many") .syntaxErr)
    ∧ limitsRow68.length = 68
    ∧ createTableRowParser splitProcPidLimitsColumns parseProcPidLimitsColumns [] limitsRow68
        = .ok [(B "limit", Value.str (B "Max cpu time")),
            (B "soft_limit", Value.str (B "unlimited")),
            (B "hard_limit", Value.str (B "unlimited"))]
    ∧ GoMap.get? [(B "limit", Value.str (B "Max cpu time")),
            (B "soft_limit", Value.str (B "unlimited")),
            (B "hard_limit", Value.str (B "unlimited"))] (B "units") = none := by
  have hrow : createTableRowParser splitProcPidLimitsColumns parseProcPidLimitsColumns []
      limitsRow68
        = .ok [(B "limit", Value.str (B "Max cpu time")),
            (B "soft_limit", Value.str (B "unlimited")),
            (B "hard_limit", Value.str (B "unlimited"))] := rfl
  have hsoft : unlimitedOrInteger (B "1024") = .ok (Value.int 1024) := rfl
  have hhard : unlimitedOrInteger (B "1048576") = .ok (Value.int 1048576) := rfl
  have hbad : unlimitedOrInteger (B "many")
      = .error (.num (B "ParseInt") (B "many") .syntaxErr) := rfl
  obtain ⟨m, hm, h0, h1, h2, h3, _⟩ :=
    (parseProcPidLimitsColumns_spec [] (B "Max open files") (B "1024") (B "1048576")
      (B "files")).2.1 _ _ hsoft hhard
  exact ⟨⟨m, hm, h0, h1, h2, (h3 (by decide)).1⟩,
    (parseProcPidLimitsColumns_spec [] (B "Max open files") (B "many") (B "1048576")
      (B "files")).2.2.1 _ hbad,
    by decide, hrow,
    (parseProcPidLimitsColumns_spec [] [] [] [] []).2.2.2.2 limitsRow68 _ (by decide) hrow⟩

/-! ## C10: values of the memory-info file -/

theorem le_decimalValue (s : GoString) : ∀ n, n ≤ decimalValue s n := by
  induction s with
  | nil => intro n; exact le_refl n
  | cons c cs ih =>
    intro n
    show n ≤ decimalValue cs (n * 10 + (c.toNat - 0x30))
    generalize c.toNat - 0x30 = d
    exact le_trans (by omega) (ih (n * 10 + d))

/-- On a string of digits, the digit loop of `ParseUint` computes its decimal value,
and reports a range error exactly when the value does not fit 64 bits. -/
theorem parseUintLoop_digits (s : GoString) (hs : s.all isRegexDigit = true) : ∀ n,
    n < 2 ^ 64 → parseUintLoop s n
      = if decimalValue s n < 2 ^ 64 then .ok (decimalValue s n) else .error .rangeErr := by
  induction s with
  | nil =>
    intro n hn
    simp only [parseUintLoop, decimalValue, hn, if_true]
  | cons c cs ih =>
    intro n _
    simp only [List.all_cons, Bool.and_eq_true] at hs
    have hc : (0x30 ≤ c ∧ c ≤ 0x39) := by
      have := hs.1
      simpa [isRegexDigit] using this
    have hmono := le_decimalValue cs (n * 10 + (c.toNat - 0x30))
    simp only [parseUintLoop, decimalValue, hc, and_self, not_true_eq_false, if_false]
    generalize c.toNat - 0x30 = d at hmono ⊢
    by_cases h1 : n ≥ 1844674407370955162
    · have : ¬ decimalValue cs (n * 10 + d) < 2 ^ 64 := by
        have : (2 : Nat) ^ 64 = 18446744073709551616 := by norm_num
        omega
      simp only [h1, if_true, this, if_false]
    · by_cases h2 : n * 10 + d ≥ 2 ^ 64
      · have : ¬ decimalValue cs (n * 10 + d) < 2 ^ 64 := by omega
        simp only [h1, if_false, h2, if_true, this]
      · simp only [h1, if_false, h2]
        exact ih hs.2 (n * 10 + d) (by omega)

/-- On a non-empty string of digits, `ParseInt` returns its decimal value if that is
at most `2^63 - 1`, and a range error otherwise. -/
theorem ParseInt_digits (s : GoString) (hs : isLikelyInteger s = true) :
    ParseInt s
      = if decimalValue s 0 < 2 ^ 63 then .ok (decimalValue s 0 : Int)
        else .error (.num (B "ParseInt") s .rangeErr) := by
  simp only [isLikelyInteger, matchesAll, Bool.and_eq_true, decide_eq_true_eq] at hs
  obtain ⟨hne, hall⟩ := hs
  have hloop := parseUintLoop_digits s hall 0 (by norm_num)
  rcases s with _ | ⟨c, cs⟩
  · exact absurd rfl hne
  · have hc : isRegexDigit c = true := by
      simp only [List.all_cons, Bool.and_eq_true] at hall
      exact hall.1
    have hplus : ¬ (c = 0x2B ∨ c = 0x2D) := by
      rintro (rfl | rfl) <;> exact absurd hc (by decide)
    have hminus : ¬ c = 0x2D := fun h => hplus (Or.inr h)
    have hpl : ¬ c = 0x2B := fun h => hplus (Or.inl h)
    have e64 : (2 : Nat) ^ 64 = 18446744073709551616 := by norm_num
    have e63 : (2 : Nat) ^ 63 = 9223372036854775808 := by norm_num
    rw [e64] at hloop
    rw [e63]
    by_cases h64 : decimalValue (c :: cs) 0 < 18446744073709551616
    · by_cases h63 : decimalValue (c :: cs) 0 < 9223372036854775808
      · have h : ¬ 9223372036854775808 ≤ decimalValue (c :: cs) 0 := by omega
        simp [ParseInt, ParseUint, hpl, hminus, hloop, h64, h63, h]
      · have h : 9223372036854775808 ≤ decimalValue (c :: cs) 0 := by omega
        simp [ParseInt, ParseUint, hpl, hminus, hloop, h64, h63, h]
    · have h63 : ¬ decimalValue (c :: cs) 0 < 9223372036854775808 := by omega
      simp [ParseInt, ParseUint, hpl, hminus, hloop, h64, h63]

theorem not_HasSuffix_kB_of_digits (s : GoString) (hs : isLikelyInteger s = true) :
    HasSuffix s (B " kB") = false := by
  simp only [isLikelyInteger, matchesAll, Bool.and_eq_true, decide_eq_true_eq] at hs
  by_contra h
  simp only [Bool.not_eq_false] at h
  have hsuf : B " kB" <:+ s := by simpa [HasSuffix] using h
  obtain ⟨t, ht⟩ := hsuf
  have hmem : (0x42 : UInt8) ∈ s := by
    rw [← ht]
    exact List.mem_append_right _ (by decide)
  have := List.all_eq_true.1 hs.2 _ hmem
  exact absurd this (by decide)

/-- C10 (counterexample).  The value "9223372036854775808" consists of decimal
digits only, yet `parseProcMeminfoValue` returns no mapping for it: it fails with the
range error of `strconv.ParseInt`. -/
theorem parseProcMeminfoValue_numeric_out_of_range :
    isLikelyInteger (B "9223372036854775808") = true
    ∧ parseProcMeminfoValue (B "HugePages_Total") (B "9223372036854775808")
        = .error (.num (B "ParseInt") (B "9223372036854775808") .rangeErr) := by
  constructor
  · decide
  · rfl

/-- C10 (amended).  For every key and every raw value: (1) a value that ends with
" kB" yields the mapping with "value" = n and "unit" = "kB" when
`strconv.ParseInt(_, 10, 64)` reads the integer n from the text before the suffix,
and the error of `ParseInt` when it reads none; (2) a value of decimal digits only
yields the mapping with "value" = n, n its decimal value, when n is at most
`2^63 - 1`, and the range error of `ParseInt` when n is larger; (3) every other value
yields the mapping with "value" = the value itself as a string. -/
theorem parseProcMeminfoValue_spec (key valueStr : GoString) :
    (HasSuffix valueStr (B " kB") = true →
      (∀ n, ParseInt (TrimSuffix valueStr (B " kB")) = .ok n →
        parseProcMeminfoValue key valueStr
          = .ok (Value.map [(B "value", Value.int n), (B "unit", Value.str (B "kB"))]))
      ∧ (∀ e, ParseInt (TrimSuffix valueStr (B " kB")) = .error e →
        parseProcMeminfoValue key valueStr = .error e))
    ∧ (isLikelyInteger valueStr = true →
      (decimalValue valueStr 0 < 2 ^ 63 →
        parseProcMeminfoValue key valueStr
          = .ok (Value.map [(B "value", Value.int (decimalValue valueStr 0))]))
      ∧ (2 ^ 63 ≤ decimalValue valueStr 0 →
        parseProcMeminfoValue key valueStr
          = .error (.num (B "ParseInt") valueStr .rangeErr)))
    ∧ (HasSuffix valueStr (B " kB") = false → isLikelyInteger valueStr = false →
      parseProcMeminfoValue key valueStr
        = .ok (Value.map [(B "value", Value.str valueStr)])) := by
  have hmap2 : ∀ n : Int,
      GoMap.set (GoMap.set GoMap.empty (B "value") (Value.int n)) (B "unit") (Value.str (B "kB"))
        = [(B "value", Value.int n), (B "unit", Value.str (B "kB"))] := fun _ => rfl
  have hmap1 : ∀ v : Value, GoMap.set GoMap.empty (B "value") v = [(B "value", v)] :=
    fun _ => rfl
  refine ⟨?_, ?_, ?_⟩
  · intro hsuf
    constructor
    · intro n hn
      simp only [parseProcMeminfoValue, hsuf, if_true, hn, Res.ok_bind, Res.pure_eq, hmap2]
    · intro e he
      simp only [parseProcMeminfoValue, hsuf, if_true, he, Res.error_bind]
  · intro hdig
    have hsuf := not_HasSuffix_kB_of_digits valueStr hdig
    have hp := ParseInt_digits valueStr hdig
    constructor
    · intro hlt
      rw [if_pos hlt] at hp
      simp [parseProcMeminfoValue, hsuf, hdig, hp, hmap1]
    · intro hge
      rw [if_neg (by omega)] at hp
      simp [parseProcMeminfoValue, hsuf, hdig, hp]
  · intro hsuf hdig
    simp [parseProcMeminfoValue, hsuf, hdig, hmap1]

/-- Witness of C10: the values "131072 kB", "x kB", "3", "9223372036854775808" and
"unknown". -/
theorem parseProcMeminfoValue_spec_witness :
    parseProcMeminfoValue (B "MemTotal") (B "131072 kB")
        = .ok (Value.map [(B "value", Value.int 131072), (B "unit", Value.str (B "kB"))])
    ∧ parseProcMeminfoValue (B "MemTotal") (B "x kB")
        = .error (.num (B "ParseInt") (B "x") .syntaxErr)
    ∧ parseProcMeminfoValue (B "HugePages_Total") (B "3")
        = .ok (Value.map [(B "value", Value.int (decimalValue (B "3") 0))])
    ∧ decimalValue (B "3") 0 = 3
    ∧ parseProcMeminfoValue (B "HugePages_Total") (B "9223372036854775808")
        = .error (.num (B "ParseInt") (B "9223372036854775808") .rangeErr)
    ∧ parseProcMeminfoValue (B "State") (B "unknown")
        = .ok (Value.map [(B "value", Value.str (B "unknown"))]) :=
  ⟨((parseProcMeminfoValue_spec (B "MemTotal") (B "131072 kB")).1 (by decide)).1 131072
      (by decide),
   ((parseProcMeminfoValue_spec (B "MemTotal") (B "x kB")).1 (by decide)).2 _ (by decide),
   ((parseProcMeminfoValue_spec (B "HugePages_Total") (B "3")).2.1 (by decide)).1 (by decide),
   by decide,
   ((parseProcMeminfoValue_spec (B "HugePages_Total") (B "9223372036854775808")).2.1
      (by decide)).2 (by decide),
   (parseProcMeminfoValue_spec (B "State") (B "unknown")).2.2 (by decide) (by decide)⟩

/-! ## C11: rows of the net-device file -/

theorem length_eq_17 {α : Type} (l : List α) (h : l.length = 17) :
    ∃ c0 c1 c2 c3 c4 c5 c6 c7 c8 c9 c10 c11 c12 c13 c14 c15 c16 : α,
      l = [c0, c1, c2, c3, c4, c5, c6, c7, c8, c9, c10, c11, c12, c13, c14, c15, c16] :=
  match l, h with
  | [c0, c1, c2, c3, c4, c5, c6, c7, c8, c9, c10, c11, c12, c13, c14, c15, c16], _ =>
    ⟨c0, c1, c2, c3, c4, c5, c6, c7, c8, c9, c10, c11, c12, c13, c14, c15, c16, rfl⟩

/-- C11.  For every net-device row that `splitColumnsByColonAndSpace` splits into
exactly 17 tokens of which tokens 1..16 are accepted by `strconv.ParseInt(_, 10, 64)`,
the row parser returns a mapping with exactly the keys "interface", "receive" and
"transmit"; "interface" holds token 0 as a string, "receive" and "transmit" hold
mappings whose keys are the eight counters bytes, packets, errs, drop, fifo, frame,
compressed, multicast, and counter `j` holds the integer of token `j + 1` on the
receive side and of token `j + 9` on the transmit side. -/
theorem parseProcNetDevColumns_spec (header : List GoString) (row : GoString)
    (columns : List GoString)
    (hsplit : splitColumnsByColonAndSpace row = .ok columns) (hlen : columns.length = 17)
    (hints : ∀ i c, columns[i]? = some c → 1 ≤ i → (ParseInt c).isOk = true) :
    ∃ (m receive transmit : GoMap),
      createTableRowParser splitColumnsByColonAndSpace parseProcNetDevColumns header row = .ok m
      ∧ m.keys = [B "interface", B "receive", B "transmit"]
      ∧ (∀ c, columns[0]? = some c → m.get? (B "interface") = some (Value.str c))
      ∧ m.get? (B "receive") = some (Value.map receive)
      ∧ m.get? (B "transmit") = some (Value.map transmit)
      ∧ receive.keys = netDevCounters ∧ transmit.keys = netDevCounters
      ∧ (∀ j name c, netDevCounters[j]? = some name → columns[j + 1]? = some c →
          ∃ n, ParseInt c = .ok n ∧ receive.get? name = some (Value.int n))
      ∧ (∀ j name c, netDevCounters[j]? = some name → columns[j + 9]? = some c →
          ∃ n, ParseInt c = .ok n ∧ transmit.get? name = some (Value.int n)) := by
  obtain ⟨c0, c1, c2, c3, c4, c5, c6, c7, c8, c9, c10, c11, c12, c13, c14, c15, c16, rfl⟩ :=
    length_eq_17 columns hlen
  obtain ⟨n1, h1⟩ : ∃ n, ParseInt c1 = .ok n :=
    (Res.isOk_iff _).1 (hints 1 c1 rfl (by decide))
  obtain ⟨n2, h2⟩ : ∃ n, ParseInt c2 = .ok n :=
    (Res.isOk_iff _).1 (hints 2 c2 rfl (by decide))
  obtain ⟨n3, h3⟩ : ∃ n, ParseInt c3 = .ok n :=
    (Res.isOk_iff _).1 (hints 3 c3 rfl (by decide))
  obtain ⟨n4, h4⟩ : ∃ n, ParseInt c4 = .ok n :=
    (Res.isOk_iff _).1 (hints 4 c4 rfl (by decide))
  obtain ⟨n5, h5⟩ : ∃ n, ParseInt c5 = .ok n :=
    (Res.isOk_iff _).1 (hints 5 c5 rfl (by decide))
  obtain ⟨n6, h6⟩ : ∃ n, ParseInt c6 = .ok n :=
    (Res.isOk_iff _).1 (hints 6 c6 rfl (by decide))
  obtain ⟨n7, h7⟩ : ∃ n, ParseInt c7 = .ok n :=
    (Res.isOk_iff _).1 (hints 7 c7 rfl (by decide))
  obtain ⟨n8, h8⟩ : ∃ n, ParseInt c8 = .ok n :=
    (Res.isOk_iff _).1 (hints 8 c8 rfl (by decide))
  obtain ⟨n9, h9⟩ : ∃ n, ParseInt c9 = .ok n :=
    (Res.isOk_iff _).1 (hints 9 c9 rfl (by decide))
  obtain ⟨n10, h10⟩ : ∃ n, ParseInt c10 = .ok n :=
    (Res.isOk_iff _).1 (hints 10 c10 rfl (by decide))
  obtain ⟨n11, h11⟩ : ∃ n, ParseInt c11 = .ok n :=
    (Res.isOk_iff _).1 (hints 11 c11 rfl (by decide))
  obtain ⟨n12, h12⟩ : ∃ n, ParseInt c12 = .ok n :=
    (Res.isOk_iff _).1 (hints 12 c12 rfl (by decide))
  obtain ⟨n13, h13⟩ : ∃ n, ParseInt c13 = .ok n :=
    (Res.isOk_iff _).1 (hints 13 c13 rfl (by decide))
  obtain ⟨n14, h14⟩ : ∃ n, ParseInt c14 = .ok n :=
    (Res.isOk_iff _).1 (hints 14 c14 rfl (by decide))
  obtain ⟨n15, h15⟩ : ∃ n, ParseInt c15 = .ok n :=
    (Res.isOk_iff _).1 (hints 15 c15 rfl (by decide))
  obtain ⟨n16, h16⟩ : ∃ n, ParseInt c16 = .ok n :=
    (Res.isOk_iff _).1 (hints 16 c16 rfl (by decide))
  have hrow : createTableRowParser splitColumnsByColonAndSpace parseProcNetDevColumns header row
      = .ok [(B "interface", Value.str c0),
          (B "receive", Value.map
            [(B "bytes", Value.int n1), (B "packets", Value.int n2), (B "errs", Value.int n3), (B "drop", Value.int n4),
            (B "fifo", Value.int n5), (B "frame", Value.int n6), (B "compressed", Value.int n7), (B "multicast", Value.int n8)]),
          (B "transmit", Value.map
            [(B "bytes", Value.int n9), (B "packets", Value.int n10), (B "errs", Value.int n11), (B "drop", Value.int n12),
            (B "fifo", Value.int n13), (B "frame", Value.int n14), (B "compressed", Value.int n15), (B "multicast", Value.int n16)])] := by
    rw [createTableRowParser, hsplit, Res.ok_bind]
    unfold parseProcNetDevColumns
    rw [if_neg (by simp)]
    simp only [index, List.getElem?_cons_zero, List.getElem?_cons_succ]
    rw [Res.ok_bind,
      Res.ok_bind, h1, Res.ok_bind,
      Res.ok_bind, h2, Res.ok_bind,
      Res.ok_bind, h3, Res.ok_bind,
      Res.ok_bind, h4, Res.ok_bind,
      Res.ok_bind, h5, Res.ok_bind,
      Res.ok_bind, h6, Res.ok_bind,
      Res.ok_bind, h7, Res.ok_bind,
      Res.ok_bind, h8, Res.ok_bind,
      Res.ok_bind, h9, Res.ok_bind,
      Res.ok_bind, h10, Res.ok_bind,
      Res.ok_bind, h11, Res.ok_bind,
      Res.ok_bind, h12, Res.ok_bind,
      Res.ok_bind, h13, Res.ok_bind,
      Res.ok_bind, h14, Res.ok_bind,
      Res.ok_bind, h15, Res.ok_bind,
      Res.ok_bind, h16, Res.ok_bind]
    rfl
  refine ⟨_,
    [(B "bytes", Value.int n1), (B "packets", Value.int n2), (B "errs", Value.int n3), (B "drop", Value.int n4),
      (B "fifo", Value.int n5), (B "frame", Value.int n6), (B "compressed", Value.int n7), (B "multicast", Value.int n8)],
    [(B "bytes", Value.int n9), (B "packets", Value.int n10), (B "errs", Value.int n11), (B "drop", Value.int n12),
      (B "fifo", Value.int n13), (B "frame", Value.int n14), (B "compressed", Value.int n15), (B "multicast", Value.int n16)],
    hrow, rfl, ?_, rfl, rfl, rfl, rfl, ?_, ?_⟩
  · intro c hc
    cases hc
    rfl
  · intro j name c hname hc
    have hj : j < 8 := by
      have := (List.getElem?_eq_some.1 hname).1
      simpa [netDevCounters] using this
    interval_cases j
    · cases hname; cases hc; exact ⟨n1, h1, rfl⟩
    · cases hname; cases hc; exact ⟨n2, h2, rfl⟩
    · cases hname; cases hc; exact ⟨n3, h3, rfl⟩
    · cases hname; cases hc; exact ⟨n4, h4, rfl⟩
    · cases hname; cases hc; exact ⟨n5, h5, rfl⟩
    · cases hname; cases hc; exact ⟨n6, h6, rfl⟩
    · cases hname; cases hc; exact ⟨n7, h7, rfl⟩
    · cases hname; cases hc; exact ⟨n8, h8, rfl⟩
  · intro j name c hname hc
    have hj : j < 8 := by
      have := (List.getElem?_eq_some.1 hname).1
      simpa [netDevCounters] using this
    interval_cases j
    · cases hname; cases hc; exact ⟨n9, h9, rfl⟩
    · cases hname; cases hc; exact ⟨n10, h10, rfl⟩
    · cases hname; cases hc; exact ⟨n11, h11, rfl⟩
    · cases hname; cases hc; exact ⟨n12, h12, rfl⟩
    · cases hname; cases hc; exact ⟨n13, h13, rfl⟩
    · cases hname; cases hc; exact ⟨n14, h14, rfl⟩
    · cases hname; cases hc; exact ⟨n15, h15, rfl⟩
    · cases hname; cases hc; exact ⟨n16, h16, rfl⟩

theorem Res.ok_inj {α : Type} {a b : α} (h : (Res.ok a : Res α) = Res.ok b) : a = b := by
  cases h; rfl

/-- Witness of C11: the row of the loopback device. -/
theorem parseProcNetDevColumns_spec_witness :
    ∃ (m receive transmit : GoMap),
      createTableRowParser splitColumnsByColonAndSpace parseProcNetDevColumns [] netDevRowLo
        = .ok m
      ∧ m.keys = [B "interface", B "receive", B "transmit"]
      ∧ m.get? (B "interface") = some (Value.str (B "lo"))
      ∧ m.get? (B "receive") = some (Value.map receive)
      ∧ m.get? (B "transmit") = some (Value.map transmit)
      ∧ receive.get? (B "bytes") = some (Value.int 1093450)
      ∧ transmit.get? (B "packets") = some (Value.int 11421) := by
  have hcols : splitColumnsByColonAndSpace netDevRowLo
      = .ok [B "lo", B "1093450", B "11420", B "0", B "0", B "0", B "0", B "0", B "0",
          B "1093451", B "11421", B "0", B "0", B "0", B "0", B "0", B "0"] := rfl
  have hints : ∀ i c, [B "lo", B "1093450", B "11420", B "0", B "0", B "0", B "0", B "0",
      B "0", B "1093451", B "11421", B "0", B "0", B "0", B "0", B "0", B "0"][i]? = some c →
      1 ≤ i → (ParseInt c).isOk = true := by
    intro i c hc hi
    have h := forall_getElem?_of_all _ (fun i c => i = 0 || (ParseInt c).isOk) (by decide) i c hc
    have hne : ¬ i = 0 := by omega
    simpa [hne] using h
  obtain ⟨m, receive, transmit, hm, hk, h0, hr, ht, _, _, hrc, htc⟩ :=
    parseProcNetDevColumns_spec [] netDevRowLo _ hcols (by decide) hints
  refine ⟨m, receive, transmit, hm, hk, h0 _ rfl, hr, ht, ?_, ?_⟩
  · obtain ⟨n, hn, hg⟩ := hrc 0 (B "bytes") (B "1093450") rfl rfl
    have e : n = 1093450 :=
      (Res.ok_inj ((by decide : ParseInt (B "1093450") = .ok 1093450).symm.trans hn)).symm
    rw [hg, e]
  · obtain ⟨n, hn, hg⟩ := htc 1 (B "packets") (B "11421") rfl rfl
    have e : n = 11421 :=
      (Res.ok_inj ((by decide : ParseInt (B "11421") = .ok 11421).symm.trans hn)).symm
    rw [hg, e]

/-! ## C12: the line splitter -/

theorem splitAux_single (b : UInt8) (s : GoString) : ∀ cur : GoString,
    splitAux [b] 0 cur s
      = (cur.reverse ++ beforeFirst b s)
        :: (if b ∈ s then splitAux [b] 0 [] (afterFirst b s) else []) := by
  induction s with
  | nil => intro cur; simp [splitAux, beforeFirst]
  | cons c cs ih =>
    intro cur
    by_cases h : c = b
    · subst h
      simp [splitAux, List.isPrefixOf, beforeFirst, afterFirst]
    · have h2 : ¬ b = c := fun e => h e.symm
      simp [splitAux, List.isPrefixOf, beforeFirst, afterFirst, h, h2, ih (c :: cur)]

theorem Split_single (b : UInt8) (s : GoString) :
    Split s [b]
      = beforeFirst b s :: (if b ∈ s then Split (afterFirst b s) [b] else []) := by
  simp only [Split, List.cons_ne_nil, if_false]
  rw [splitAux_single]
  simp

theorem splitLineBy_single (line : GoString) (b : UInt8) :
    splitLineBy line [b] = .ok (splitLineSpec line b) := by
  unfold splitLineBy splitLineSpec
  rw [Split_single]
  by_cases hb : b ∈ line
  · rw [if_pos hb, Split_single]
    simp [index, hb]
  · rw [if_neg hb]
    simp [index, hb]
    rfl

theorem whiteSpaces_eq :
    whiteSpaces = [[0x09], [0x0A], [0x0B], [0x0C], [0x0D], [0x20], [0xC2, 0x85], [0xC2, 0xA0],
      [0xE1, 0x9A, 0x80], [0xE2, 0x80, 0x80], [0xE2, 0x80, 0x81], [0xE2, 0x80, 0x82],
      [0xE2, 0x80, 0x83], [0xE2, 0x80, 0x84], [0xE2, 0x80, 0x85], [0xE2, 0x80, 0x86],
      [0xE2, 0x80, 0x87], [0xE2, 0x80, 0x88], [0xE2, 0x80, 0x89], [0xE2, 0x80, 0x8A],
      [0xE2, 0x80, 0xA8], [0xE2, 0x80, 0xA9], [0xE2, 0x80, 0xAF], [0xE2, 0x81, 0x9F],
      [0xE3, 0x80, 0x80]] := by
  decide

theorem u8_between (a lo hi : UInt8) (h1 : lo ≤ a) (h2 : a ≤ hi) :
    ∃ k, k ≤ hi.toNat - lo.toNat ∧ a = UInt8.ofNat (lo.toNat + k) := by
  have h1n : lo.toNat ≤ a.toNat := by
    rw [UInt8.le_def] at h1; exact h1
  have h2n : a.toNat ≤ hi.toNat := by
    rw [UInt8.le_def] at h2; exact h2
  refine ⟨a.toNat - lo.toNat, by omega, ?_⟩
  apply UInt8.ext
  have e : lo.toNat + (a.toNat - lo.toNat) = a.toNat := by omega
  rw [e]
  have hlt : a.toNat < 256 := a.toNat_lt
  show a.toNat = a.toNat % 256
  exact (Nat.mod_eq_of_lt hlt).symm

theorem u8_tab_to_cr (a : UInt8) (h1 : 0x09 ≤ a) (h2 : a ≤ 0x0D) :
    a = 0x09 ∨ a = 0x0A ∨ a = 0x0B ∨ a = 0x0C ∨ a = 0x0D := by
  obtain ⟨k, hk, rfl⟩ := u8_between a 0x09 0x0D h1 h2
  have hk2 : k ≤ 4 := hk
  interval_cases k <;> decide

theorem u8_80_to_8A (c : UInt8) (h1 : 0x80 ≤ c) (h2 : c ≤ 0x8A) :
    c = 0x80 ∨ c = 0x81 ∨ c = 0x82 ∨ c = 0x83 ∨ c = 0x84 ∨ c = 0x85 ∨ c = 0x86 ∨ c = 0x87
      ∨ c = 0x88 ∨ c = 0x89 ∨ c = 0x8A := by
  obtain ⟨k, hk, rfl⟩ := u8_between c 0x80 0x8A h1 h2
  have hk2 : k ≤ 10 := hk
  interval_cases k <;> decide

theorem spaceWidth_starts (s : GoString) (h : spaceWidth s ≠ 0) :
    startsWithSpace s = true := by
  rw [startsWithSpace, whiteSpaces_eq]
  match s, h with
  | [], h => exact absurd rfl h
  | a :: rest, h =>
    by_cases h1 : (0x09 ≤ a ∧ a ≤ 0x0D) ∨ a = 0x20
    · rcases h1 with ⟨h1, h2⟩ | rfl
      · rcases u8_tab_to_cr a h1 h2 with rfl | rfl | rfl | rfl | rfl <;>
          simp [List.isPrefixOf]
      · simp [List.isPrefixOf]
    · match rest, h with
      | [], h => simp [spaceWidth, h1] at h
      | b :: rest2, h =>
        by_cases h2 : a = 0xC2 ∧ (b = 0x85 ∨ b = 0xA0)
        · obtain ⟨rfl, rfl | rfl⟩ := h2 <;> simp [List.isPrefixOf]
        · match rest2, h with
          | [], h => simp [spaceWidth, h1, h2] at h
          | c :: rest3, h =>
            by_cases h3 : (a = 0xE1 ∧ b = 0x9A ∧ c = 0x80)
                ∨ (a = 0xE2 ∧ b = 0x80
                  ∧ ((0x80 ≤ c ∧ c ≤ 0x8A) ∨ c = 0xA8 ∨ c = 0xA9 ∨ c = 0xAF))
                ∨ (a = 0xE2 ∧ b = 0x81 ∧ c = 0x9F)
                ∨ (a = 0xE3 ∧ b = 0x80 ∧ c = 0x80)
            · rcases h3 with ⟨rfl, rfl, rfl⟩ | ⟨rfl, rfl, ⟨hc1, hc2⟩ | rfl | rfl | rfl⟩
                | ⟨rfl, rfl, rfl⟩ | ⟨rfl, rfl, rfl⟩
              · simp [List.isPrefixOf]
              · rcases u8_80_to_8A c hc1 hc2 with
                  rfl | rfl | rfl | rfl | rfl | rfl | rfl | rfl | rfl | rfl | rfl <;>
                  simp [List.isPrefixOf]
              · simp [List.isPrefixOf]
              · simp [List.isPrefixOf]
              · simp [List.isPrefixOf]
              · simp [List.isPrefixOf]
              · simp [List.isPrefixOf]
            · simp [spaceWidth, h1, h2, h3] at h

theorem spaceWidth_append (w : GoString) (hw : w ∈ whiteSpaces) (rest : GoString) :
    spaceWidth (w ++ rest) = w.length ∧ w.length ≠ 0 := by
  rw [whiteSpaces_eq] at hw
  simp only [List.mem_cons, List.mem_singleton, List.not_mem_nil, or_false] at hw
  rcases hw with rfl | rfl | rfl | rfl | rfl | rfl | rfl | rfl | rfl | rfl | rfl | rfl | rfl | rfl | rfl | rfl | rfl | rfl | rfl | rfl | rfl | rfl | rfl | rfl | rfl <;>
    exact ⟨by simp [spaceWidth], by simp⟩

theorem spaceWidth_of_starts (s : GoString) (h : startsWithSpace s = true) :
    ∃ w ∈ whiteSpaces, ∃ rest, s = w ++ rest ∧ spaceWidth s = w.length ∧ w.length ≠ 0 := by
  unfold startsWithSpace at h
  obtain ⟨w, hw, hp⟩ := List.any_eq_true.1 h
  obtain ⟨rest, hr⟩ := List.isPrefixOf_iff_prefix.1 hp
  refine ⟨w, hw, rest, hr.symm, ?_, (spaceWidth_append w hw rest).2⟩
  rw [← hr]
  exact (spaceWidth_append w hw rest).1

theorem startsWithSpace_eq_false (s : GoString) (h : spaceWidth s = 0) :
    startsWithSpace s = false := by
  cases hs : startsWithSpace s with
  | false => rfl
  | true =>
    obtain ⟨w, _, _, _, h2, h3⟩ := spaceWidth_of_starts s hs
    rw [h] at h2
    exact absurd h2.symm h3

theorem spaceWidthRev_ends (r : GoString) (h : spaceWidthRev r ≠ 0) :
    endsWithSpace r.reverse = true := by
  have e : endsWithSpace r.reverse
      = whiteSpaces.any (fun w => w.reverse.isPrefixOf r) := by
    simp [endsWithSpace, List.isSuffixOf]
  rw [e, whiteSpaces_eq]
  match r, h with
  | [], h => exact absurd rfl h
  | c :: rest, h =>
    by_cases h1 : (0x09 ≤ c ∧ c ≤ 0x0D) ∨ c = 0x20
    · rcases h1 with ⟨h1, h2⟩ | rfl
      · rcases u8_tab_to_cr c h1 h2 with rfl | rfl | rfl | rfl | rfl <;>
          simp [List.isPrefixOf]
      · simp [List.isPrefixOf]
    · match rest, h with
      | [], h => simp [spaceWidthRev, h1] at h
      | b :: rest2, h =>
        by_cases h2 : b = 0xC2 ∧ (c = 0x85 ∨ c = 0xA0)
        · obtain ⟨rfl, rfl | rfl⟩ := h2 <;> simp [List.isPrefixOf]
        · match rest2, h with
          | [], h => simp [spaceWidthRev, h1, h2] at h
          | a :: rest3, h =>
            by_cases h3 : (a = 0xE1 ∧ b = 0x9A ∧ c = 0x80)
                ∨ (a = 0xE2 ∧ b = 0x80
                  ∧ ((0x80 ≤ c ∧ c ≤ 0x8A) ∨ c = 0xA8 ∨ c = 0xA9 ∨ c = 0xAF))
                ∨ (a = 0xE2 ∧ b = 0x81 ∧ c = 0x9F)
                ∨ (a = 0xE3 ∧ b = 0x80 ∧ c = 0x80)
            · rcases h3 with ⟨rfl, rfl, rfl⟩ | ⟨rfl, rfl, ⟨hc1, hc2⟩ | rfl | rfl | rfl⟩
                | ⟨rfl, rfl, rfl⟩ | ⟨rfl, rfl, rfl⟩
              · simp [List.isPrefixOf]
              · rcases u8_80_to_8A c hc1 hc2 with
                  rfl | rfl | rfl | rfl | rfl | rfl | rfl | rfl | rfl | rfl | rfl <;>
                  simp [List.isPrefixOf]
              · simp [List.isPrefixOf]
              · simp [List.isPrefixOf]
              · simp [List.isPrefixOf]
              · simp [List.isPrefixOf]
              · simp [List.isPrefixOf]
            · simp [spaceWidthRev, h1, h2, h3] at h

theorem spaceWidthRev_append (w : GoString) (hw : w ∈ whiteSpaces) (rest : GoString) :
    spaceWidthRev (w.reverse ++ rest) = w.length ∧ w.length ≠ 0 := by
  rw [whiteSpaces_eq] at hw
  simp only [List.mem_cons, List.mem_singleton, List.not_mem_nil, or_false] at hw
  rcases hw with rfl | rfl | rfl | rfl | rfl | rfl | rfl | rfl | rfl | rfl | rfl | rfl | rfl | rfl | rfl | rfl | rfl | rfl | rfl | rfl | rfl | rfl | rfl | rfl | rfl <;>
    exact ⟨by simp [spaceWidthRev], by simp⟩

theorem spaceWidthRev_of_ends (r : GoString) (h : endsWithSpace r.reverse = true) :
    ∃ w ∈ whiteSpaces, ∃ rest, r = w.reverse ++ rest ∧ spaceWidthRev r = w.length
      ∧ w.length ≠ 0 := by
  unfold endsWithSpace at h
  obtain ⟨w, hw, hp⟩ := List.any_eq_true.1 h
  have hp2 : w.reverse.isPrefixOf r = true := by
    simpa [List.isSuffixOf] using hp
  obtain ⟨rest, hr⟩ := List.isPrefixOf_iff_prefix.1 hp2
  refine ⟨w, hw, rest, hr.symm, ?_, (spaceWidthRev_append w hw rest).2⟩
  rw [← hr]
  exact (spaceWidthRev_append w hw rest).1

theorem endsWithSpace_eq_false (r : GoString) (h : spaceWidthRev r = 0) :
    endsWithSpace r.reverse = false := by
  cases hs : endsWithSpace r.reverse with
  | false => rfl
  | true =>
    obtain ⟨w, _, _, _, h2, h3⟩ := spaceWidthRev_of_ends r hs
    rw [h] at h2
    exact absurd h2.symm h3

/-- What `trimLeftN` removes is a run of white-space characters, and with fuel for
every byte nothing of the kind is left at the start. -/
theorem trimLeftN_spec : ∀ (fuel : Nat) (s : GoString),
    ∃ pre : List GoString, (∀ w ∈ pre, w ∈ whiteSpaces)
      ∧ s = pre.flatten ++ trimLeftN fuel s
      ∧ (s.length ≤ fuel → spaceWidth (trimLeftN fuel s) = 0) := by
  intro fuel
  induction fuel with
  | zero =>
    intro s
    refine ⟨[], by simp, by simp [trimLeftN], ?_⟩
    intro hl
    have e : s = [] := List.length_eq_zero.1 (Nat.le_zero.1 hl)
    subst e
    rfl
  | succ fuel ih =>
    intro s
    by_cases h0 : spaceWidth s = 0
    · refine ⟨[], by simp, by simp [trimLeftN, h0], ?_⟩
      intro _
      simp [trimLeftN, h0]
    · obtain ⟨w, hw, rest, hs, hlen, hne⟩ :=
        spaceWidth_of_starts s (spaceWidth_starts s h0)
      have hdrop : s.drop (spaceWidth s) = rest := by
        rw [hlen, hs, List.drop_left]
      obtain ⟨pre, hpre, hrest, hfuel⟩ := ih rest
      have ht : trimLeftN (fuel + 1) s = trimLeftN fuel rest := by
        simp only [trimLeftN, h0, if_false, hdrop]
      refine ⟨w :: pre, ?_, ?_, ?_⟩
      · intro x hx
        rcases List.mem_cons.1 hx with e | e
        · rw [e]; exact hw
        · exact hpre x e
      · rw [ht, List.flatten_cons, List.append_assoc, ← hrest, hs]
      · intro hl
        rw [ht]
        apply hfuel
        have : s.length = w.length + rest.length := by rw [hs, List.length_append]
        omega

/-- The same for `trimRightRevN`, which works on the reversed text. -/
theorem trimRightRevN_spec : ∀ (fuel : Nat) (r : GoString),
    ∃ post : List GoString, (∀ w ∈ post, w ∈ whiteSpaces)
      ∧ r.reverse = (trimRightRevN fuel r).reverse ++ post.flatten
      ∧ (r.length ≤ fuel → spaceWidthRev (trimRightRevN fuel r) = 0) := by
  intro fuel
  induction fuel with
  | zero =>
    intro r
    refine ⟨[], by simp, by simp [trimRightRevN], ?_⟩
    intro hl
    have e : r = [] := List.length_eq_zero.1 (Nat.le_zero.1 hl)
    subst e
    rfl
  | succ fuel ih =>
    intro r
    by_cases h0 : spaceWidthRev r = 0
    · refine ⟨[], by simp, by simp [trimRightRevN, h0], ?_⟩
      intro _
      simp [trimRightRevN, h0]
    · have hends : endsWithSpace r.reverse = true := spaceWidthRev_ends r h0
      obtain ⟨w, hw, rest, hs, hlen, hne⟩ := spaceWidthRev_of_ends r hends
      have hdrop : r.drop (spaceWidthRev r) = rest := by
        rw [hlen, hs, ← List.length_reverse w, List.drop_left]
      obtain ⟨post, hpost, hrest, hfuel⟩ := ih rest
      have ht : trimRightRevN (fuel + 1) r = trimRightRevN fuel rest := by
        simp only [trimRightRevN, h0, if_false, hdrop]
      refine ⟨post ++ [w], ?_, ?_, ?_⟩
      · intro x hx
        rcases List.mem_append.1 hx with e | e
        · exact hpost x e
        · rw [List.mem_singleton.1 e]; exact hw
      · rw [ht, hs, List.reverse_append, List.reverse_reverse, hrest]
        simp
      · intro hl
        rw [ht]
        apply hfuel
        have : r.length = w.length + rest.length := by
          rw [hs, List.length_append, List.length_reverse]
        omega

/-- The model of `strings.TrimSpace` returns the white-space-trimmed text. -/
theorem TrimSpace_isTrimOf (s : GoString) : isTrimOf s (TrimSpace s) := by
  obtain ⟨pre, hpre, hs, hleft⟩ := trimLeftN_spec s.length s
  obtain ⟨post, hpost, ht, hright⟩ :=
    trimRightRevN_spec (trimLeftN s.length s).length (trimLeftN s.length s).reverse
  have hl0 := hleft (Nat.le_refl _)
  have hr0 := hright (by rw [List.length_reverse])
  rw [List.reverse_reverse] at ht
  have hT : TrimSpace s
      = (trimRightRevN (trimLeftN s.length s).length (trimLeftN s.length s).reverse).reverse :=
    rfl
  refine ⟨pre, post, hpre, hpost, ?_, ?_, ?_⟩
  · rw [hT, List.append_assoc, ← ht]
    exact hs
  · cases hst : startsWithSpace (TrimSpace s) with
    | false => rfl
    | true =>
      obtain ⟨w, hw, rest, hrest, _, _⟩ := spaceWidth_of_starts _ hst
      have hbig : startsWithSpace (trimLeftN s.length s) = true := by
        unfold startsWithSpace
        refine List.any_eq_true.2 ⟨w, hw, List.isPrefixOf_iff_prefix.2 ?_⟩
        rw [ht, ← hT, hrest, List.append_assoc]
        exact List.prefix_append _ _
      rw [startsWithSpace_eq_false _ hl0] at hbig
      cases hbig
  · have h := endsWithSpace_eq_false _ hr0
    rw [← hT] at h
    exact h

/-- C12.  For every line and every one-byte delimiter, in particular ":" and " ",
`splitLineBy` returns without error a pair (key, rawValue): the key is the
white-space-trimmed text before the first occurrence of the delimiter (the whole
trimmed line if the delimiter is absent), the raw value is the white-space-trimmed
text between the first and the second occurrence of the delimiter (to the end of the
line if there is no second occurrence) and is empty if the delimiter is absent; what
follows a second occurrence is not in the result.  Trimmed means: what is removed at
either end is a run of white-space characters, and what is left neither starts nor
ends with one. -/
theorem splitLineBy_spec (line : GoString) :
    (∀ b : UInt8, ∃ key val, splitLineBy line [b] = .ok (key, val)
      ∧ isTrimOf (beforeFirst b line) key
      ∧ (if b ∈ line then isTrimOf (beforeFirst b (afterFirst b line)) val else val = []))
    ∧ (∃ key val, splitLineByColon line = .ok (key, val)
      ∧ isTrimOf (beforeFirst 0x3A line) key
      ∧ (if 0x3A ∈ line then isTrimOf (beforeFirst 0x3A (afterFirst 0x3A line)) val
          else val = []))
    ∧ (∃ key val, splitLineBySpace line = .ok (key, val)
      ∧ isTrimOf (beforeFirst 0x20 line) key
      ∧ (if 0x20 ∈ line then isTrimOf (beforeFirst 0x20 (afterFirst 0x20 line)) val
          else val = [])) := by
  have h : ∀ b : UInt8, ∃ key val, splitLineBy line [b] = .ok (key, val)
      ∧ isTrimOf (beforeFirst b line) key
      ∧ (if b ∈ line then isTrimOf (beforeFirst b (afterFirst b line)) val
          else val = []) := by
    intro b
    refine ⟨_, _, splitLineBy_single line b, TrimSpace_isTrimOf _, ?_⟩
    by_cases hb : b ∈ line
    · simp only [hb, if_true]
      exact TrimSpace_isTrimOf _
    · simp only [hb, if_false]
  exact ⟨h, h 0x3A, h 0x20⟩

/-- Witness of C12: a line with white space around the key and the value and with a
second colon, and a line without a colon. -/
theorem splitLineBy_spec_witness :
    splitLineByColon (B " Mem Total :\t16 kB : x") = .ok (B "Mem Total", B "16 kB")
    ∧ beforeFirst 0x3A (B " Mem Total :\t16 kB : x") = B " Mem Total "
    ∧ beforeFirst 0x3A (afterFirst 0x3A (B " Mem Total :\t16 kB : x")) = B "\t16 kB "
    ∧ isTrimOf (B " Mem Total ") (B "Mem Total")
    ∧ isTrimOf (B "\t16 kB ") (B "16 kB")
    ∧ splitLineByColon (B "  no delimiter ") = .ok (B "no delimiter", B "")
    ∧ splitLineBySpace (B "nr_free_pages 12345 6") = .ok (B "nr_free_pages", B "12345") := by
  have hc : splitLineByColon (B " Mem Total :\t16 kB : x")
      = .ok (B "Mem Total", B "16 kB") := by decide
  have h1 : beforeFirst 0x3A (B " Mem Total :\t16 kB : x") = B " Mem Total " := by decide
  have h2 : beforeFirst 0x3A (afterFirst 0x3A (B " Mem Total :\t16 kB : x"))
      = B "\t16 kB " := by decide
  obtain ⟨key, val, hkv, hk, hv⟩ := (splitLineBy_spec (B " Mem Total :\t16 kB : x")).2.1
  rw [hc] at hkv
  simp only [Res.ok.injEq, Prod.mk.injEq] at hkv
  obtain ⟨e1, e2⟩ := hkv
  subst e1 e2
  rw [h1] at hk
  rw [if_pos (by decide), h2] at hv
  exact ⟨hc, h1, h2, hk, hv, by decide, by decide⟩

/-! ## C13: keys outside the enumerated set -/

theorem parseProcCpuinfoValue_unknown (parseFloat : GoString → Except NumErr GoFloat64)
    (key valueStr : GoString) (h : key ∉ cpuinfoKeys) :
    parseProcCpuinfoValue parseFloat key valueStr
      = .error (.new (B "unknown cpuinfo key: " ++ key)) := by
  simp only [cpuinfoKeys, List.mem_append, not_or] at h
  obtain ⟨⟨⟨⟨⟨h1, h2⟩, h3⟩, h4⟩, h5⟩, h6⟩ := h
  simp only [parseProcCpuinfoValue, h1, h2, h3, h4, h5, h6, if_false]

theorem parseProcCryptoValue_unknown (key valueStr : GoString) (h : key ∉ cryptoKeys) :
    parseProcCryptoValue key valueStr = .error (.new (B "unknown crypto key: " ++ key)) := by
  simp only [cryptoKeys, List.mem_cons, List.mem_singleton, not_or] at h
  obtain ⟨a1, a2, a3, a4, a5, a6, a7, a8, b1, b2, b3, b4, b5, b6, b7, b8, b9, b10, b11⟩ := h
  simp only [parseProcCryptoValue, a1, a2, a3, a4, a5, a6, a7, a8, b1, b2, b3, b4, b5, b6, b7,
    b8, b9, b10, b11, or_self, if_false]

theorem parseProcCpuinfoValue_isPanic (parseFloat : GoString → Except NumErr GoFloat64)
    (key valueStr : GoString) :
    (parseProcCpuinfoValue parseFloat key valueStr).isPanic = false := by
  have hp := ParseInt_isPanic valueStr
  unfold parseProcCpuinfoValue
  split
  · rfl
  · split
    · cases h : ParseInt valueStr <;> simp_all [Res.isPanic]
    · split
      · cases parseFloat valueStr <;> rfl
      · split
        · rfl
        · split
          · rfl
          · split <;> rfl

theorem parseProcCryptoValue_isPanic (key valueStr : GoString) :
    (parseProcCryptoValue key valueStr).isPanic = false := by
  have hp := ParseInt_isPanic valueStr
  unfold parseProcCryptoValue
  split
  · rfl
  · split
    · cases h : ParseInt valueStr <;> simp_all [Res.isPanic]
    · rfl

/-- A line parser built on the colon splitter never panics when its value converter
never does. -/
theorem createLineParser_colon_isPanic (options : Options)
    (unicodeLower : GoString → GoString) (valueParser : valueParserFn)
    (hv : ∀ k v, (valueParser k v).isPanic = false) (line : GoString) :
    (createLineParser options unicodeLower splitLineByColon valueParser line).isPanic
      = false := by
  have hs : splitLineByColon line = .ok (splitLineSpec line 0x3A) := splitLineBy_single line 0x3A
  have h := hv (splitLineSpec line 0x3A).1 (splitLineSpec line 0x3A).2
  simp only [createLineParser, hs, Res.ok_bind]
  cases hp : valueParser (splitLineSpec line 0x3A).1 (splitLineSpec line 0x3A).2 with
  | ok v => rfl
  | error e => rfl
  | panic i n => rw [hp] at h; simp [Res.isPanic] at h

/-- A line parser fails with the error of its value converter. -/
theorem createLineParser_error (options : Options) (unicodeLower : GoString → GoString)
    (splitter : lineSplitterFn) (valueParser : valueParserFn) (line key val : GoString)
    (e : GoError) (hs : splitter line = .ok (key, val)) (hv : valueParser key val = .error e) :
    createLineParser options unicodeLower splitter valueParser line = .error e := by
  simp only [createLineParser, hs, Res.ok_bind, hv, Res.error_bind]

theorem Res.isError_of_not {α : Type} (r : Res α) (h1 : r.isPanic = false)
    (h2 : r.isOk = false) : r.isError = true := by
  cases r <;> simp_all [Res.isPanic, Res.isOk, Res.isError]

theorem chunkLinesLoop_isPanic (lineParser : lineParserFn)
    (hp : ∀ l, (lineParser l).isPanic = false) (lines : List GoString) : ∀ m : GoMap,
    (chunkLinesLoop lineParser lines m).isPanic = false := by
  induction lines with
  | nil => intro m; rfl
  | cons l ls ih =>
    intro m
    have h := hp l
    cases hl : lineParser l with
    | ok kv => simp only [chunkLinesLoop, hl, Res.ok_bind]; exact ih _
    | error e => simp only [chunkLinesLoop, hl, Res.error_bind]; rfl
    | panic i n => rw [hl] at h; simp [Res.isPanic] at h

theorem chunkLinesLoop_isOk (lineParser : lineParserFn) (lines : List GoString)
    (bad : GoString) (hmem : bad ∈ lines) (hbad : (lineParser bad).isOk = false) :
    ∀ m : GoMap, (chunkLinesLoop lineParser lines m).isOk = false := by
  induction lines with
  | nil => simp at hmem
  | cons l ls ih =>
    intro m
    cases hl : lineParser l with
    | ok kv =>
      simp only [chunkLinesLoop, hl, Res.ok_bind]
      rcases List.mem_cons.1 hmem with h | h
      · subst h; rw [hl] at hbad; simp [Res.isOk] at hbad
      · exact ih h _
    | error e => simp only [chunkLinesLoop, hl, Res.error_bind]; rfl
    | panic i n => simp only [chunkLinesLoop, hl, Res.panic_bind]; rfl

theorem chunkParserLoop_isPanic (lineParser : lineParserFn)
    (hp : ∀ l, (lineParser l).isPanic = false) (chunks : List chunk) :
    ∀ acc : Option (List Value), (chunkParserLoop lineParser chunks acc).isPanic = false := by
  induction chunks with
  | nil => intro acc; rfl
  | cons c cs ih =>
    intro acc
    have h := chunkLinesLoop_isPanic lineParser hp c GoMap.empty
    cases hc : chunkLinesLoop lineParser c GoMap.empty with
    | ok m => simp only [chunkParserLoop, parseChunkLines, hc, Res.ok_bind]; exact ih _
    | error e => simp only [chunkParserLoop, parseChunkLines, hc, Res.error_bind]; rfl
    | panic i n => rw [hc] at h; simp [Res.isPanic] at h

theorem chunkParserLoop_isOk (lineParser : lineParserFn) (chunks : List chunk)
    (c : chunk) (bad : GoString) (hc : c ∈ chunks) (hmem : bad ∈ c)
    (hbad : (lineParser bad).isOk = false) :
    ∀ acc : Option (List Value), (chunkParserLoop lineParser chunks acc).isOk = false := by
  induction chunks with
  | nil => simp at hc
  | cons c0 cs ih =>
    intro acc
    cases h0 : chunkLinesLoop lineParser c0 GoMap.empty with
    | ok m =>
      simp only [chunkParserLoop, parseChunkLines, h0, Res.ok_bind]
      rcases List.mem_cons.1 hc with h | h
      · subst h
        have := chunkLinesLoop_isOk lineParser c bad hmem hbad GoMap.empty
        rw [h0] at this; simp [Res.isOk] at this
      · exact ih h _
    | error e => simp only [chunkParserLoop, parseChunkLines, h0, Res.error_bind]; rfl
    | panic i n => simp only [chunkParserLoop, parseChunkLines, h0, Res.panic_bind]; rfl

/-- The chunk parser returns an error as soon as one line of one chunk is refused by
a line parser that never panics. -/
theorem createChunkParser_fails (lineParser : lineParserFn)
    (hp : ∀ l, (lineParser l).isPanic = false) (r : Reader) (chunks : List chunk)
    (c : chunk) (bad : GoString) (hr : parseAsChunks r = .ok chunks) (hc : c ∈ chunks)
    (hmem : bad ∈ c) (hbad : (lineParser bad).isOk = false) :
    (createChunkParser lineParser r).isError = true := by
  simp only [createChunkParser, hr, Res.ok_bind]
  exact Res.isError_of_not _ (chunkParserLoop_isPanic lineParser hp chunks none)
    (chunkParserLoop_isOk lineParser chunks c bad hc hmem hbad none)

/-- Unknown keys in the chunks that `parseAsChunks` returns.  For every key outside the
keys that `parseProcCpuinfoValue` (resp. `parseProcCryptoValue`) enumerates and every
value, the converter fails with the error "unknown cpuinfo key: <key>" (resp.
"unknown crypto key: <key>"); and when a line of a chunk returned by `parseAsChunks`
splits at the colon into such a key, the chunk parser of the format returns an error,
and so no list, whatever the other chunks hold. -/
theorem unknown_key_fails (parseFloat : GoString → Except NumErr GoFloat64) :
    (∀ key valueStr, key ∉ cpuinfoKeys →
      parseProcCpuinfoValue parseFloat key valueStr
        = .error (.new (B "unknown cpuinfo key: " ++ key)))
    ∧ (∀ key valueStr, key ∉ cryptoKeys →
      parseProcCryptoValue key valueStr = .error (.new (B "unknown crypto key: " ++ key)))
    ∧ (∀ (options : Options) (unicodeLower : GoString → GoString) (r : Reader)
        (chunks : List chunk) (c : chunk) (line key val : GoString),
        parseAsChunks r = .ok chunks → c ∈ chunks → line ∈ c →
        splitLineByColon line = .ok (key, val) → key ∉ cpuinfoKeys →
        (createChunkParser (createLineParser options unicodeLower splitLineByColon
          (parseProcCpuinfoValue parseFloat)) r).isError = true)
    ∧ (∀ (options : Options) (unicodeLower : GoString → GoString) (r : Reader)
        (chunks : List chunk) (c : chunk) (line key val : GoString),
        parseAsChunks r = .ok chunks → c ∈ chunks → line ∈ c →
        splitLineByColon line = .ok (key, val) → key ∉ cryptoKeys →
        (createChunkParser (createLineParser options unicodeLower splitLineByColon
          parseProcCryptoValue) r).isError = true) := by
  refine ⟨parseProcCpuinfoValue_unknown parseFloat, parseProcCryptoValue_unknown, ?_, ?_⟩
  · intro options unicodeLower r chunks c line key val hr hc hl hs hk
    refine createChunkParser_fails _
      (createLineParser_colon_isPanic options unicodeLower _
        (parseProcCpuinfoValue_isPanic parseFloat)) r chunks c line hr hc hl ?_
    rw [createLineParser_error options unicodeLower _ _ line key val _ hs
      (parseProcCpuinfoValue_unknown parseFloat key val hk)]
    rfl
  · intro options unicodeLower r chunks c line key val hr hc hl hs hk
    refine createChunkParser_fails _
      (createLineParser_colon_isPanic options unicodeLower _ parseProcCryptoValue_isPanic)
      r chunks c line hr hc hl ?_
    rw [createLineParser_error options unicodeLower _ _ line key val _ hs
      (parseProcCryptoValue_unknown key val hk)]
    rfl

/-- A CPU-info text whose first block parses and whose second block, ended by an empty
line, has the key "bogus": the chunk parser returns an error. -/
theorem unknown_key_fails_witness :
    parseAsChunks cpuinfoTextBogus
        = .ok [[B "processor\t: 0", B "model name\t: QEMU"], [B "processor\t: 1", B "bogus\t: 7"]]
    ∧ splitLineByColon (B "bogus\t: 7") = .ok (B "bogus", B "7")
    ∧ B "bogus" ∉ cpuinfoKeys
    ∧ parseProcCpuinfoValue (fun _ => .error .syntaxErr) (B "bogus") (B "7")
        = .error (.new (B "unknown cpuinfo key: bogus"))
    ∧ (createChunkParser (createLineParser Options.zero (fun s => s) splitLineByColon
        (parseProcCpuinfoValue (fun _ => .error .syntaxErr))) cpuinfoTextBogus).isError = true :=
  ⟨by decide, by decide, by decide,
   (unknown_key_fails (fun _ => .error .syntaxErr)).1 (B "bogus") (B "7") (by decide),
   (unknown_key_fails (fun _ => .error .syntaxErr)).2.2.1 Options.zero (fun s => s)
     cpuinfoTextBogus
     [[B "processor\t: 0", B "model name\t: QEMU"], [B "processor\t: 1", B "bogus\t: 7"]]
     [B "processor\t: 1", B "bogus\t: 7"] (B "bogus\t: 7") (B "bogus") (B "7")
     (by decide) (by decide) (by decide) (by decide) (by decide)⟩

/-- C13 (code evaluated at the failing input).  On the CPU-info text of a first block
"processor: 0", an empty line and a last block "bogus: 7" that no empty line ends, the
key "bogus" is outside the enumerated keys and the converter refuses it, yet the chunk
parser does not fail: it returns the list of the first block alone, because
`parseAsChunks` drops the last block. -/
theorem createChunkParser_misses_unknown_key_in_last_block
    (parseFloat : GoString → Except NumErr GoFloat64) :
    splitLineByColon (B "bogus\t: 7") = .ok (B "bogus", B "7")
    ∧ B "bogus" ∉ cpuinfoKeys
    ∧ parseProcCpuinfoValue parseFloat (B "bogus") (B "7")
        = .error (.new (B "unknown cpuinfo key: bogus"))
    ∧ parseAsChunks (textReader "processor\t: 0\n\nbogus\t: 7") = .ok [[B "processor\t: 0"]]
    ∧ createChunkParser (createLineParser Options.zero (fun s => s) splitLineByColon
        (parseProcCpuinfoValue parseFloat)) (textReader "processor\t: 0\n\nbogus\t: 7")
      = .ok (some [Value.map [(B "processor", Value.int 0)]]) := by
  refine ⟨by decide, by decide, ?_, by decide, by rfl⟩
  rw [parseProcCpuinfoValue_unknown parseFloat (B "bogus") (B "7") (by decide)]
  rfl

/-! ## C14: the keys of the emitted mappings -/

theorem Res.All_bind {α β : Type} (P : β → Prop) (x : Res α) (f : α → Res β)
    (h : ∀ a, x = .ok a → Res.All P (f a)) : Res.All P (x >>= f) := by
  cases x with
  | ok a => exact h a rfl
  | error e => exact trivial
  | panic i n => exact trivial

theorem Res.All_of_eq_ok {α : Type} {P : α → Prop} {r : Res α} {v : α}
    (h : Res.All P r) (hr : r = .ok v) : P v := by
  subst hr; exact h

theorem GoMap.mem_keys_set (m : GoMap) (k : GoString) (v : Value) :
    ∀ x ∈ (GoMap.set m k v).keys, x = k ∨ x ∈ m.keys := by
  induction m with
  | nil => intro x hx; simpa [GoMap.set, GoMap.keys] using hx
  | cons kv rest ih =>
    obtain ⟨k0, v0⟩ := kv
    intro x hx
    by_cases h : k0 = k
    · simp only [GoMap.set, if_pos h, GoMap.keys, List.map_cons, List.mem_cons] at hx ⊢
      rcases hx with hx | hx
      · exact Or.inl hx
      · exact Or.inr (Or.inr hx)
    · simp only [GoMap.set, if_neg h, GoMap.keys, List.map_cons, List.mem_cons] at hx ⊢
      rcases hx with hx | hx
      · exact Or.inr (Or.inl hx)
      · rcases ih x hx with h1 | h1
        · exact Or.inl h1
        · exact Or.inr (Or.inr h1)

theorem keysIn_empty (labels : List GoString) : keysIn labels GoMap.empty := by
  intro k hk; simp [GoMap.empty, GoMap.keys] at hk

theorem keysIn_set {labels : List GoString} {m : GoMap} (k : GoString) (v : Value)
    (hm : keysIn labels m) (hk : k ∈ labels) : keysIn labels (m.set k v) := by
  intro x hx
  rcases GoMap.mem_keys_set m k v x hx with h | h
  · rw [h]; exact hk
  · exact hm x h

theorem index_mem {α : Type} (l : List α) (i : Nat) (x : α) (h : index l i = .ok x) :
    x ∈ l := by
  unfold index at h
  cases hi : l[i]? with
  | none => rw [hi] at h; simp at h
  | some y =>
    rw [hi] at h
    cases h
    exact List.getElem?_mem hi

theorem parseProcNetArpColumns_keys (header columns : List GoString) :
    Res.All (keysIn arpLabels) (parseProcNetArpColumns header columns) := by
  unfold parseProcNetArpColumns
  split
  · exact trivial
  · repeat (refine Res.All_bind _ _ _ (fun _ _ => ?_))
    show keysIn _ _
    repeat (first | exact keysIn_empty _ | refine keysIn_set _ _ ?_ (by decide))

theorem parseProcMountsColumns_keys (header columns : List GoString) :
    Res.All (keysIn mountsLabels) (parseProcMountsColumns header columns) := by
  unfold parseProcMountsColumns
  split
  · exact trivial
  · repeat (refine Res.All_bind _ _ _ (fun _ _ => ?_))
    show keysIn _ _
    repeat (first | exact keysIn_empty _ | refine keysIn_set _ _ ?_ (by decide))

theorem parseProcNetNetlinkColumns_keys (header columns : List GoString) :
    Res.All (keysIn netlinkLabels) (parseProcNetNetlinkColumns header columns) := by
  unfold parseProcNetNetlinkColumns
  split
  · exact trivial
  · repeat (refine Res.All_bind _ _ _ (fun _ _ => ?_))
    show keysIn _ _
    repeat (first | exact keysIn_empty _ | refine keysIn_set _ _ ?_ (by decide))

theorem parseProcModulesColumns_keys (header columns : List GoString) :
    Res.All (keysIn modulesLabels) (parseProcModulesColumns header columns) := by
  unfold parseProcModulesColumns
  split
  · exact trivial
  · repeat (refine Res.All_bind _ _ _ (fun _ _ => ?_))
    show keysIn _ _
    refine keysIn_set _ _ (keysIn_set _ _ ?_ (by decide)) (by decide)
    split <;>
      repeat (first | exact keysIn_empty _ | refine keysIn_set _ _ ?_ (by decide))

theorem parseProcPidLimitsColumns_keys (header columns : List GoString) :
    Res.All (keysIn limitsLabels) (parseProcPidLimitsColumns header columns) := by
  unfold parseProcPidLimitsColumns
  repeat (refine Res.All_bind _ _ _ (fun _ _ => ?_))
  split
  · repeat (refine Res.All_bind _ _ _ (fun _ _ => ?_))
    show keysIn _ _
    repeat (first | exact keysIn_empty _ | refine keysIn_set _ _ ?_ (by decide))
  · show keysIn _ _
    repeat (first | exact keysIn_empty _ | refine keysIn_set _ _ ?_ (by decide))

theorem Value.map_inj {a b : GoMap} (h : Value.map a = Value.map b) : a = b := by
  cases h; rfl

theorem parseProcNetDevColumns_keys (header columns : List GoString) :
    Res.All netDevKeysOk (parseProcNetDevColumns header columns) := by
  unfold parseProcNetDevColumns
  split
  · exact trivial
  · repeat (refine Res.All_bind _ _ _ (fun _ _ => ?_))
    show netDevKeysOk _
    refine ⟨?_, ?_, ?_⟩
    · repeat (first | exact keysIn_empty _ | refine keysIn_set _ _ ?_ (by decide))
    · intro sub hsub
      have e := Value.map_inj (Option.some.inj ((Eq.symm hsub).trans rfl))
      rw [e]
      repeat (first | exact keysIn_empty _ | refine keysIn_set _ _ ?_ (by decide))
    · intro sub hsub
      have e := Value.map_inj (Option.some.inj ((Eq.symm hsub).trans rfl))
      rw [e]
      repeat (first | exact keysIn_empty _ | refine keysIn_set _ _ ?_ (by decide))

theorem diskstatsLoop_keys (cols : List GoString) : ∀ (i : Nat) (r : GoMap),
    keysIn diskstatsLabels r → Res.All (keysIn diskstatsLabels) (diskstatsLoop cols i r) := by
  induction cols with
  | nil => intro i r hr; exact hr
  | cons c cs ih =>
    intro i r hr
    unfold diskstatsLoop
    split
    · refine Res.All_bind _ _ _ (fun n _ => ?_)
      refine Res.All_bind _ _ _ (fun label hl => ?_)
      exact ih _ _ (keysIn_set _ _ hr (index_mem _ _ _ hl))
    · refine Res.All_bind _ _ _ (fun label hl => ?_)
      exact ih _ _ (keysIn_set _ _ hr (index_mem _ _ _ hl))

theorem parseProcDiskstatsColumns_keys (header columns : List GoString) :
    Res.All (keysIn diskstatsLabels) (parseProcDiskstatsColumns header columns) := by
  unfold parseProcDiskstatsColumns
  split
  · exact trivial
  · exact diskstatsLoop_keys _ _ _ (keysIn_empty _)

theorem tableLoop_all (P : Value → Prop) (rowParser : tableRowParserFn)
    (header : List GoString)
    (hrow : ∀ line, Res.All (fun m => P (Value.map m)) (rowParser header line))
    (lines : List GoString) : ∀ acc : Option (List Value), (∀ v ∈ acc.getD [], P v) →
    Res.All (fun res : Option (List Value) => ∀ v ∈ res.getD [], P v)
      (tableLoop rowParser header lines acc) := by
  induction lines with
  | nil => intro acc hacc; exact hacc
  | cons l ls ih =>
    intro acc hacc
    unfold tableLoop
    split
    · exact ih acc hacc
    · refine Res.All_bind _ _ _ (fun m hm => ?_)
      refine ih _ ?_
      intro v hv
      simp only [goAppend, Option.getD_some, List.mem_append, List.mem_singleton] at hv
      rcases hv with hv | hv
      · exact hacc v hv
      · rw [hv]
        have hl := hrow l
        rw [hm] at hl
        exact hl

/-- What holds of every mapping that the columns parser returns holds of every row
that the table parser returns. -/
theorem createTableParser_all (P : Value → Prop) (headerParser : Option tableHeaderParserFn)
    (columnSplitter : tableColumnSplitterFn) (columnsParser : tableColumnsParserFn)
    (hcp : ∀ header columns, Res.All (fun m => P (Value.map m)) (columnsParser header columns))
    (r : Reader) (rows : Option (List Value))
    (h : createTableParser headerParser (createTableRowParser columnSplitter columnsParser) r
      = .ok rows) :
    ∀ v ∈ rows.getD [], P v := by
  have hrow : ∀ header line, Res.All (fun m => P (Value.map m))
      (createTableRowParser columnSplitter columnsParser header line) := by
    intro header line
    unfold createTableRowParser
    exact Res.All_bind _ _ _ (fun cols _ => hcp header cols)
  have hall : Res.All (fun res : Option (List Value) => ∀ v ∈ res.getD [], P v)
      (createTableParser headerParser (createTableRowParser columnSplitter columnsParser) r) := by
    unfold createTableParser
    refine Res.All_bind _ _ _ (fun lines _ => ?_)
    refine Res.All_bind _ _ _ (fun hl _ => ?_)
    exact tableLoop_all P _ _ (hrow _) _ none (by intro v hv; simp at hv)
  exact Res.All_of_eq_ok hall h

theorem keysWithin_of_keysIn (labels : List GoString) (columnsParser : tableColumnsParserFn)
    (h : ∀ header columns, Res.All (keysIn labels) (columnsParser header columns)) :
    ∀ header columns,
      Res.All (fun m => keysWithin labels (Value.map m)) (columnsParser header columns) := by
  intro header columns
  have := h header columns
  cases hc : columnsParser header columns with
  | ok m => rw [hc] at this; exact ⟨m, rfl, this⟩
  | error e => exact trivial
  | panic i n => exact trivial

theorem chunkLinesLoop_keys (labels : List GoString) (lineParser : lineParserFn)
    (hlp : ∀ line, Res.All (fun kv : GoString × Value => kv.1 ∈ labels) (lineParser line))
    (lines : List GoString) : ∀ m : GoMap, keysIn labels m →
    Res.All (keysIn labels) (chunkLinesLoop lineParser lines m) := by
  induction lines with
  | nil => intro m hm; exact hm
  | cons l ls ih =>
    intro m hm
    unfold chunkLinesLoop
    refine Res.All_bind _ _ _ (fun kv hkv => ?_)
    have hl := hlp l
    rw [hkv] at hl
    exact ih _ (keysIn_set _ _ hm hl)

theorem chunkParserLoop_keys (labels : List GoString) (lineParser : lineParserFn)
    (hlp : ∀ line, Res.All (fun kv : GoString × Value => kv.1 ∈ labels) (lineParser line))
    (chunks : List chunk) : ∀ acc : Option (List Value),
    (∀ v ∈ acc.getD [], keysWithin labels v) →
    Res.All (fun res : Option (List Value) => ∀ v ∈ res.getD [], keysWithin labels v)
      (chunkParserLoop lineParser chunks acc) := by
  induction chunks with
  | nil => intro acc hacc; exact hacc
  | cons c cs ih =>
    intro acc hacc
    unfold chunkParserLoop
    refine Res.All_bind _ _ _ (fun m hm => ?_)
    refine ih _ ?_
    intro v hv
    simp only [goAppend, Option.getD_some, List.mem_append, List.mem_singleton] at hv
    rcases hv with hv | hv
    · exact hacc v hv
    · rw [hv]
      exact ⟨m, rfl, Res.All_of_eq_ok
        (chunkLinesLoop_keys labels lineParser hlp c GoMap.empty (keysIn_empty _)) hm⟩

/-- The keys that a line parser returns: the keys that its value converter accepts,
normalized when the option is enabled. -/
theorem createLineParser_keys (keys : List GoString) (options : Options)
    (unicodeLower : GoString → GoString) (splitter : lineSplitterFn)
    (valueParser : valueParserFn)
    (hv : ∀ k v parsed, valueParser k v = .ok parsed → k ∈ keys) (line : GoString) :
    Res.All (fun kv : GoString × Value =>
        kv.1 ∈ (if options.OutputQueryFriendly then keys.map (makeQueryFriendly unicodeLower)
          else keys))
      (createLineParser options unicodeLower splitter valueParser line) := by
  unfold createLineParser
  refine Res.All_bind _ _ _ (fun kv _ => ?_)
  refine Res.All_bind _ _ _ (fun parsed hp => ?_)
  have hk := hv _ _ _ hp
  show _ ∈ _
  by_cases ho : options.OutputQueryFriendly = true
  · simp only [ho, if_true]
    exact List.mem_map.2 ⟨_, hk, rfl⟩
  · simp only [ho, if_false]
    exact hk

theorem createChunkParser_keys (keys : List GoString) (options : Options)
    (unicodeLower : GoString → GoString) (splitter : lineSplitterFn)
    (valueParser : valueParserFn)
    (hv : ∀ k v parsed, valueParser k v = .ok parsed → k ∈ keys) (r : Reader)
    (res : Option (List Value))
    (h : createChunkParser (createLineParser options unicodeLower splitter valueParser) r
      = .ok res) :
    ∀ v ∈ res.getD [],
      keysWithin (if options.OutputQueryFriendly then keys.map (makeQueryFriendly unicodeLower)
        else keys) v := by
  have hall : Res.All (fun res : Option (List Value) => ∀ v ∈ res.getD [],
      keysWithin (if options.OutputQueryFriendly then keys.map (makeQueryFriendly unicodeLower)
        else keys) v)
      (createChunkParser (createLineParser options unicodeLower splitter valueParser) r) := by
    unfold createChunkParser
    refine Res.All_bind _ _ _ (fun chunks _ => ?_)
    exact chunkParserLoop_keys _ _
      (createLineParser_keys keys options unicodeLower splitter valueParser hv) chunks none
      (by intro v hv; simp at hv)
  exact Res.All_of_eq_ok hall h

theorem parseProcCpuinfoValue_ok_key (parseFloat : GoString → Except NumErr GoFloat64)
    (k v : GoString) (parsed : Value) (h : parseProcCpuinfoValue parseFloat k v = .ok parsed) :
    k ∈ cpuinfoKeys := by
  by_contra hk
  rw [parseProcCpuinfoValue_unknown parseFloat k v hk] at h
  cases h

theorem parseProcCryptoValue_ok_key (k v : GoString) (parsed : Value)
    (h : parseProcCryptoValue k v = .ok parsed) : k ∈ cryptoKeys := by
  by_contra hk
  rw [parseProcCryptoValue_unknown k v hk] at h
  cases h

theorem GoMap.mem_keys_set_iff (m : GoMap) (k : GoString) (v : Value) (x : GoString) :
    x ∈ (GoMap.set m k v).keys ↔ x = k ∨ x ∈ m.keys := by
  induction m with
  | nil => simp [GoMap.set, GoMap.keys]
  | cons kv rest ih =>
    obtain ⟨k0, v0⟩ := kv
    by_cases h : k0 = k
    · subst h
      simp [GoMap.set, GoMap.keys]
    · simp only [GoMap.set, if_neg h, GoMap.keys, List.map_cons, List.mem_cons] at ih ⊢
      rw [ih]
      tauto

/-- The keys of the mapping that the loop of `createMapParser` returns: the keys it
started with and the keys that the line parser returned for the lines before the
first empty line. -/
theorem mapParserLoop_mem_keys (lineParser : lineParserFn) (lines : List GoString) :
    ∀ acc m : GoMap, mapParserLoop lineParser lines acc = .ok m →
    ∀ k, k ∈ m.keys ↔ k ∈ acc.keys
      ∨ ∃ l ∈ linesBeforeEmpty lines, ∃ v, lineParser l = .ok (k, v) := by
  induction lines with
  | nil =>
    intro acc m hm k
    simp only [mapParserLoop, Res.ok.injEq] at hm
    subst hm
    simp [linesBeforeEmpty]
  | cons l ls ih =>
    intro acc m hm k
    by_cases hl : l = []
    · simp only [mapParserLoop, hl, if_true, Res.ok.injEq] at hm
      subst hm
      simp [linesBeforeEmpty, hl]
    · have e : linesBeforeEmpty (l :: ls) = l :: linesBeforeEmpty ls := by
        simp [linesBeforeEmpty, hl]
      simp only [mapParserLoop, hl, if_false] at hm
      cases hp : lineParser l with
      | ok kv =>
        obtain ⟨k1, v1⟩ := kv
        rw [hp, Res.ok_bind] at hm
        rw [ih _ m hm k, GoMap.mem_keys_set_iff, e]
        simp only [List.mem_cons, exists_eq_or_imp, hp, Res.ok.injEq, Prod.mk.injEq]
        constructor
        · rintro ((h | h) | h)
          · exact Or.inr (Or.inl ⟨v1, h.symm, rfl⟩)
          · exact Or.inl h
          · exact Or.inr (Or.inr h)
        · rintro (h | ⟨v, h, _⟩ | h)
          · exact Or.inl (Or.inr h)
          · exact Or.inl (Or.inl h.symm)
          · exact Or.inr h
      | error e2 => rw [hp] at hm; simp [Res.error_bind] at hm
      | panic i n => rw [hp] at hm; simp [Res.panic_bind] at hm

/-- When the loop of `createMapParser` succeeds, the line parser succeeded on every
line before the first empty line. -/
theorem mapParserLoop_lines_ok (lineParser : lineParserFn) (lines : List GoString) :
    ∀ acc m : GoMap, mapParserLoop lineParser lines acc = .ok m →
    ∀ l ∈ linesBeforeEmpty lines, (lineParser l).isOk = true := by
  induction lines with
  | nil => intro acc m _ l hl; simp [linesBeforeEmpty] at hl
  | cons x xs ih =>
    intro acc m hm l hl
    by_cases hx : x = []
    · simp [linesBeforeEmpty, hx] at hl
    · have e : linesBeforeEmpty (x :: xs) = x :: linesBeforeEmpty xs := by
        simp [linesBeforeEmpty, hx]
      rw [e] at hl
      simp only [mapParserLoop, hx, if_false] at hm
      cases hp : lineParser x with
      | ok kv =>
        rw [hp, Res.ok_bind] at hm
        rcases List.mem_cons.1 hl with h | h
        · rw [h, hp]; rfl
        · exact ih _ m hm l h
      | error e2 => rw [hp] at hm; simp [Res.error_bind] at hm
      | panic i n => rw [hp] at hm; simp [Res.panic_bind] at hm

theorem createLineParser_ok_iff (options : Options) (unicodeLower : GoString → GoString)
    (splitter : lineSplitterFn) (valueParser : valueParserFn) (line k : GoString)
    (v : Value) :
    createLineParser options unicodeLower splitter valueParser line = .ok (k, v)
      ↔ ∃ k0 val, splitter line = .ok (k0, val) ∧ valueParser k0 val = .ok v
          ∧ k = (if options.OutputQueryFriendly then makeQueryFriendly unicodeLower k0
              else k0) := by
  unfold createLineParser
  cases hs : splitter line with
  | ok kv =>
    obtain ⟨k0, val⟩ := kv
    simp only [Res.ok_bind]
    cases hv : valueParser k0 val with
    | ok p =>
      simp only [Res.ok_bind, Res.pure_eq, Res.ok.injEq, Prod.mk.injEq]
      constructor
      · rintro ⟨h1, h2⟩
        exact ⟨k0, val, ⟨rfl, rfl⟩, by rw [hv, h2], h1.symm⟩
      · rintro ⟨k2, val2, ⟨h1, h2⟩, h3, h4⟩
        subst h1 h2
        rw [hv] at h3
        exact ⟨h4.symm, Res.ok.inj h3⟩
    | error e =>
      simp only [Res.error_bind]
      constructor
      · intro h; cases h
      · rintro ⟨k2, val2, h1, h3, _⟩
        simp only [Res.ok.injEq, Prod.mk.injEq] at h1
        rw [← h1.1, ← h1.2, hv] at h3
        cases h3
    | panic i n =>
      simp only [Res.panic_bind]
      constructor
      · intro h; cases h
      · rintro ⟨k2, val2, h1, h3, _⟩
        simp only [Res.ok.injEq, Prod.mk.injEq] at h1
        rw [← h1.1, ← h1.2, hv] at h3
        cases h3
  | error e => simp [Res.error_bind]
  | panic i n => simp [Res.panic_bind]

/-- The keys of the mapping of a map-shaped format: the keys that the line splitter
returns for the lines before the first empty line, normalized when the option is
enabled. -/
theorem createMapParser_keys (options : Options) (unicodeLower : GoString → GoString)
    (splitter : lineSplitterFn) (valueParser : valueParserFn) (r : Reader) (m : GoMap)
    (h : createMapParser (createLineParser options unicodeLower splitter valueParser) r
      = .ok (some m)) (k : GoString) :
    k ∈ m.keys ↔ ∃ l ∈ linesBeforeEmpty (Split r.data (B "\n")), ∃ k0 val,
      splitter l = .ok (k0, val)
      ∧ k = (if options.OutputQueryFriendly then makeQueryFriendly unicodeLower k0
          else k0) := by
  unfold createMapParser ReadAll at h
  cases hf : r.fail with
  | some e => rw [hf] at h; simp [Res.error_bind] at h
  | none =>
    rw [hf] at h
    simp only [Res.ok_bind, Res.pure_eq] at h
    cases hl : mapParserLoop (createLineParser options unicodeLower splitter valueParser)
        (Split r.data (B "\n")) GoMap.empty with
    | ok m1 =>
      rw [hl, Res.ok_bind] at h
      have e : m1 = m := by
        simp only [Res.ok.injEq, Option.some.injEq] at h
        exact h
      subst e
      rw [mapParserLoop_mem_keys _ _ _ _ hl k]
      simp only [GoMap.empty, GoMap.keys, List.map_nil, List.not_mem_nil, false_or]
      constructor
      · rintro ⟨l, hmem, v, hv⟩
        obtain ⟨k0, val, h1, _, h3⟩ :=
          (createLineParser_ok_iff options unicodeLower splitter valueParser l k v).1 hv
        exact ⟨l, hmem, k0, val, h1, h3⟩
      · rintro ⟨l, hmem, k0, val, h1, h3⟩
        have hok := mapParserLoop_lines_ok _ _ _ _ hl l hmem
        cases hp : createLineParser options unicodeLower splitter valueParser l with
        | ok kv =>
          obtain ⟨k2, v2⟩ := kv
          obtain ⟨k3, val3, h4, _, h6⟩ :=
            (createLineParser_ok_iff options unicodeLower splitter valueParser l k2 v2).1 hp
          rw [h1] at h4
          simp only [Res.ok.injEq, Prod.mk.injEq] at h4
          refine ⟨l, hmem, v2, ?_⟩
          rw [h3, h4.1, ← h6]
          exact hp
        | error e2 => rw [hp] at hok; simp [Res.isOk] at hok
        | panic i n => rw [hp] at hok; simp [Res.isOk] at hok
    | error e2 => rw [hl] at h; simp [Res.error_bind] at h
    | panic i n => rw [hl] at h; simp [Res.panic_bind] at h

/-- C14 (counterexample).  The memory-info parser and the virtual-memory-stats parser
accept a line whose key belongs to no schema: the text "Bogus: 3" resp. "bogus 3"
parses to a mapping with the key "Bogus" resp. "bogus". -/
theorem map_formats_accept_any_key :
    createMapParser (createLineParser Options.zero (fun s => s) splitLineByColon
        parseProcMeminfoValue) (textReader "Bogus: 3\n")
      = .ok (some [(B "Bogus", Value.map [(B "value", Value.int 3)])])
    ∧ createMapParser (createLineParser Options.zero (fun s => s) splitLineBySpace
        parseProcVmstatValue) (textReader "bogus 3\n")
      = .ok (some [(B "bogus", Value.int 3)]) := by
  constructor <;> rfl

/-- C14 (amended).  For every table format (disk-stats, modules, mounts, ARP, netlink,
per-process limits, net-device) and every input on which the parse succeeds, every
emitted row is a mapping whose keys belong to the fixed field names of the format; in
a net-device row the keys of the "receive" and "transmit" mappings belong to the eight
counters.  For the chunked formats (CPU-info, crypto) and every input on which the
parse succeeds, every emitted mapping has its keys among the keys that the format
enumerates, or among their normalized forms when the option is enabled.  The value
converters of the map-shaped formats (memory-info, per-process io, virtual-memory
stats) do not depend on the key: these formats have no key schema and reject no line
for its key.  When the parse of a map-shaped format succeeds, the keys of the mapping
are exactly the keys that the line splitter returns for the lines before the first
empty line, each normalized by `makeQueryFriendly` when the option is enabled. -/
theorem emitted_keys (parseFloat : GoString → Except NumErr GoFloat64) :
    (∀ (headerParser : Option tableHeaderParserFn) (columnSplitter : tableColumnSplitterFn)
        (r : Reader) (rows : Option (List Value)),
        createTableParser headerParser (createTableRowParser columnSplitter parseProcDiskstatsColumns) r
          = .ok rows →
        ∀ v ∈ rows.getD [], keysWithin diskstatsLabels v)
    ∧ (∀ (headerParser : Option tableHeaderParserFn) (columnSplitter : tableColumnSplitterFn)
        (r : Reader) (rows : Option (List Value)),
        createTableParser headerParser (createTableRowParser columnSplitter parseProcModulesColumns) r
          = .ok rows →
        ∀ v ∈ rows.getD [], keysWithin modulesLabels v)
    ∧ (∀ (headerParser : Option tableHeaderParserFn) (columnSplitter : tableColumnSplitterFn)
        (r : Reader) (rows : Option (List Value)),
        createTableParser headerParser (createTableRowParser columnSplitter parseProcMountsColumns) r
          = .ok rows →
        ∀ v ∈ rows.getD [], keysWithin mountsLabels v)
    ∧ (∀ (headerParser : Option tableHeaderParserFn) (columnSplitter : tableColumnSplitterFn)
        (r : Reader) (rows : Option (List Value)),
        createTableParser headerParser (createTableRowParser columnSplitter parseProcNetArpColumns) r
          = .ok rows →
        ∀ v ∈ rows.getD [], keysWithin arpLabels v)
    ∧ (∀ (headerParser : Option tableHeaderParserFn) (columnSplitter : tableColumnSplitterFn)
        (r : Reader) (rows : Option (List Value)),
        createTableParser headerParser (createTableRowParser columnSplitter parseProcNetNetlinkColumns) r
          = .ok rows →
        ∀ v ∈ rows.getD [], keysWithin netlinkLabels v)
    ∧ (∀ (headerParser : Option tableHeaderParserFn) (columnSplitter : tableColumnSplitterFn)
        (r : Reader) (rows : Option (List Value)),
        createTableParser headerParser (createTableRowParser columnSplitter parseProcPidLimitsColumns) r
          = .ok rows →
        ∀ v ∈ rows.getD [], keysWithin limitsLabels v)
    ∧ (∀ (headerParser : Option tableHeaderParserFn) (columnSplitter : tableColumnSplitterFn)
        (r : Reader) (rows : Option (List Value)),
        createTableParser headerParser
          (createTableRowParser columnSplitter parseProcNetDevColumns) r = .ok rows →
        ∀ v ∈ rows.getD [], ∃ m : GoMap, v = Value.map m ∧ netDevKeysOk m)
    ∧ (∀ (options : Options) (unicodeLower : GoString → GoString) (r : Reader)
        (res : Option (List Value)),
        createChunkParser (createLineParser options unicodeLower splitLineByColon
          (parseProcCpuinfoValue parseFloat)) r = .ok res →
        ∀ v ∈ res.getD [],
          keysWithin (if options.OutputQueryFriendly then
            cpuinfoKeys.map (makeQueryFriendly unicodeLower) else cpuinfoKeys) v)
    ∧ (∀ (options : Options) (unicodeLower : GoString → GoString) (r : Reader)
        (res : Option (List Value)),
        createChunkParser (createLineParser options unicodeLower splitLineByColon
          parseProcCryptoValue) r = .ok res →
        ∀ v ∈ res.getD [],
          keysWithin (if options.OutputQueryFriendly then
            cryptoKeys.map (makeQueryFriendly unicodeLower) else cryptoKeys) v)
    ∧ (∀ k1 k2 v : GoString, parseProcMeminfoValue k1 v = parseProcMeminfoValue k2 v)
    ∧ (∀ k1 k2 v : GoString, parseProcPidIoValue k1 v = parseProcPidIoValue k2 v)
    ∧ (∀ k1 k2 v : GoString, parseProcVmstatValue k1 v = parseProcVmstatValue k2 v)
    ∧ (∀ (options : Options) (unicodeLower : GoString → GoString)
        (splitter : lineSplitterFn) (valueParser : valueParserFn) (r : Reader) (m : GoMap),
        createMapParser (createLineParser options unicodeLower splitter valueParser) r
          = .ok (some m) →
        ∀ k, k ∈ m.keys ↔ ∃ l ∈ linesBeforeEmpty (Split r.data (B "\n")), ∃ k0 val,
          splitter l = .ok (k0, val)
          ∧ k = (if options.OutputQueryFriendly then makeQueryFriendly unicodeLower k0
              else k0)) := by
  refine ⟨?_, ?_, ?_, ?_, ?_, ?_, ?_, ?_, ?_, fun _ _ _ => rfl, fun _ _ _ => rfl,
    fun _ _ _ => rfl, createMapParser_keys⟩
  · intro hp sp r rows h
    exact createTableParser_all _ hp sp _
      (keysWithin_of_keysIn _ _ parseProcDiskstatsColumns_keys) r rows h
  · intro hp sp r rows h
    exact createTableParser_all _ hp sp _
      (keysWithin_of_keysIn _ _ parseProcModulesColumns_keys) r rows h
  · intro hp sp r rows h
    exact createTableParser_all _ hp sp _
      (keysWithin_of_keysIn _ _ parseProcMountsColumns_keys) r rows h
  · intro hp sp r rows h
    exact createTableParser_all _ hp sp _
      (keysWithin_of_keysIn _ _ parseProcNetArpColumns_keys) r rows h
  · intro hp sp r rows h
    exact createTableParser_all _ hp sp _
      (keysWithin_of_keysIn _ _ parseProcNetNetlinkColumns_keys) r rows h
  · intro hp sp r rows h
    exact createTableParser_all _ hp sp _
      (keysWithin_of_keysIn _ _ parseProcPidLimitsColumns_keys) r rows h
  · intro hp sp r rows h
    refine createTableParser_all _ hp sp _ ?_ r rows h
    intro header columns
    have := parseProcNetDevColumns_keys header columns
    cases hc : parseProcNetDevColumns header columns with
    | ok m => rw [hc] at this; exact ⟨m, rfl, this⟩
    | error e => exact trivial
    | panic i n => exact trivial
  · intro options unicodeLower r res h
    exact createChunkParser_keys cpuinfoKeys options unicodeLower _ _
      (parseProcCpuinfoValue_ok_key parseFloat) r res h
  · intro options unicodeLower r res h
    exact createChunkParser_keys cryptoKeys options unicodeLower _ _
      parseProcCryptoValue_ok_key r res h

/-- Witness of C14: an ARP table with one entry, a CPU-info text of one block read
with the option enabled, and a memory-info text of two lines read with the option
enabled, whose keys "Active(anon)" and "active_anon" both become "active_anon". -/
theorem emitted_keys_witness :
    (∃ rows, createTableParser (skipTableHeader 1)
          (createTableRowParser splitColumnsBySpace parseProcNetArpColumns) arpTextOneEntry
        = .ok (some rows)
      ∧ rows.length = 1 ∧ ∀ v ∈ rows, keysWithin arpLabels v)
    ∧ (∃ res, createChunkParser (createLineParser Options.queryFriendly (fun s => s)
          splitLineByColon (parseProcCpuinfoValue (fun _ => .error .syntaxErr)))
          (textReader "processor\t: 0\nmodel name\t: QEMU\n\n")
        = .ok (some res)
      ∧ res = [Value.map [(B "processor", Value.int 0), (B "model_name", Value.str (B "QEMU"))]]
      ∧ ∀ v ∈ res, keysWithin (cpuinfoKeys.map (makeQueryFriendly (fun s => s))) v)
    ∧ createMapParser (createLineParser Options.queryFriendly (fun s => s)
          splitLineByColon parseProcMeminfoValue)
          (textReader "Active(anon): 1 kB\nactive_anon: 2 kB\n")
        = .ok (some [(B "active_anon",
            Value.map [(B "value", Value.int 2), (B "unit", Value.str (B "kB"))])])
    ∧ (∀ k, k ∈ GoMap.keys [(B "active_anon",
            Value.map [(B "value", Value.int 2), (B "unit", Value.str (B "kB"))])]
        ↔ ∃ l ∈ linesBeforeEmpty
            (Split (textReader "Active(anon): 1 kB\nactive_anon: 2 kB\n").data (B "\n")),
          ∃ k0 val, splitLineByColon l = .ok (k0, val)
            ∧ k = (if Options.queryFriendly.OutputQueryFriendly then
                makeQueryFriendly (fun s => s) k0 else k0)) := by
  refine ⟨?_, ?_, by rfl, ?_⟩
  · refine ⟨_, rfl, rfl, ?_⟩
    exact (emitted_keys (fun _ => .error .syntaxErr)).2.2.2.1 (skipTableHeader 1)
      splitColumnsBySpace arpTextOneEntry _ rfl
  · refine ⟨_, rfl, rfl, ?_⟩
    exact (emitted_keys (fun _ => .error .syntaxErr)).2.2.2.2.2.2.2.1 Options.queryFriendly
      (fun s => s) (textReader "processor\t: 0\nmodel name\t: QEMU\n\n") _ rfl
  · exact (emitted_keys (fun _ => .error .syntaxErr)).2.2.2.2.2.2.2.2.2.2.2.2
      Options.queryFriendly (fun s => s) splitLineByColon parseProcMeminfoValue
      (textReader "Active(anon): 1 kB\nactive_anon: 2 kB\n") _ (by rfl)

/-! ## C15: paths that are not supported -/

theorem switchFname_unsupported (options : Options) (unicodeLower : GoString → GoString)
    (parseFloat : GoString → Except NumErr GoFloat64) (fname : GoString) (f : Reader)
    (h : fname ∉ literalPaths) :
    switchFname options unicodeLower parseFloat fname f
      = .error (.new (fname ++ B " is not supported")) := by
  simp only [literalPaths, List.mem_cons, List.mem_singleton, not_or] at h
  obtain ⟨h1, h2, h3, h4, h5, h6, h7, h8, h9, h10, h11, h12, h13⟩ := h
  unfold switchFname
  simp only [h1, h2, h3, h4, h5, h6, h7, h8, h9, h10, h11, h12, h13, or_self, if_false]

/-- C15 (counterexample).  The path "/mnt/proc/1/io" is none of the literal paths and
is not of the form /proc/<digits>/io or /proc/<digits>/limits, yet the dispatch
returns an iterator for it: the one of the per-process io format. -/
theorem createInputIter_matches_inside_path :
    B "/mnt/proc/1/io" ∉ literalPaths
    ∧ perProcessForm (B "/mnt/proc/1/io") (B "io") = false
    ∧ perProcessForm (B "/mnt/proc/1/io") (B "limits") = false
    ∧ createInputIter Options.zero (fun s => s) (fun _ => .error .syntaxErr)
        (fun _ => .ok (textReader "rchar: 1\n")) (B ".") [B "/mnt/proc/1/io"]
      = .ok (.procMap ⟨B "/mnt/proc/1/io", some [(B "rchar", Value.int 1)]⟩) := by
  refine ⟨by decide, by decide, by decide, rfl⟩

/-- C15 (amended).  For every path that is none of the literal supported paths and in
which the leftmost match of the expression `/proc/\d+/(.+)`, searched anywhere in the
path, does not capture exactly "io" or "limits", the dispatch of `createInputIter`
(given that the file opens) returns no iterator and the error
"<path> is not supported"; no other parser is selected. -/
theorem createInputIter_unsupported (options : Options) (unicodeLower : GoString → GoString)
    (parseFloat : GoString → Except NumErr GoFloat64) (osOpen : GoString → Res Reader)
    (query fname : GoString) (f : Reader)
    (hopen : osOpen fname = .ok f) (hlit : fname ∉ literalPaths)
    (hio : (findPerProcessSubmatch fname)[1]? ≠ some (B "io"))
    (hlimits : (findPerProcessSubmatch fname)[1]? ≠ some (B "limits")) :
    createInputIter options unicodeLower parseFloat osOpen query [fname]
      = .error (.new (fname ++ B " is not supported")) := by
  have hsw := switchFname_unsupported options unicodeLower parseFloat fname f hlit
  unfold createInputIter
  rw [if_neg (by simp)]
  simp only [index, List.getElem?_cons_zero, Res.ok_bind, hopen]
  split
  · cases hs : (findPerProcessSubmatch fname)[1]? with
    | none => simp only [Res.panic_bind]; rename_i h2; simp [List.getElem?_eq_none_iff, h2] at hs
    | some sub =>
      rw [hs] at hio hlimits
      have h1 : ¬ sub = B "io" := fun e => hio (by rw [e])
      have h2 : ¬ sub = B "limits" := fun e => hlimits (by rw [e])
      simp only [Res.ok_bind, h1, h2, if_false, hsw]
  · exact hsw

/-- Witness of C15: the paths "/proc/uptime" (the expression matches nowhere),
"/proc/1/status" (the expression captures "status") and "/proc/1/root/proc/2/io" (the
leftmost match captures "root/proc/2/io"). -/
theorem createInputIter_unsupported_witness :
    createInputIter Options.zero (fun s => s) (fun _ => .error .syntaxErr)
        (fun _ => .ok (textReader "350735.47 234388.90\n")) (B ".") [B "/proc/uptime"]
      = .error (.new (B "/proc/uptime is not supported"))
    ∧ findPerProcessSubmatch (B "/proc/1/status") = [B "/proc/1/status", B "status"]
    ∧ createInputIter Options.zero (fun s => s) (fun _ => .error .syntaxErr)
        (fun _ => .ok (textReader "Name:\tsystemd\n")) (B ".") [B "/proc/1/status"]
      = .error (.new (B "/proc/1/status is not supported"))
    ∧ findPerProcessSubmatch (B "/proc/1/root/proc/2/io")
        = [B "/proc/1/root/proc/2/io", B "root/proc/2/io"]
    ∧ createInputIter Options.zero (fun s => s) (fun _ => .error .syntaxErr)
        (fun _ => .ok (textReader "rchar: 1\n")) (B ".") [B "/proc/1/root/proc/2/io"]
      = .error (.new (B "/proc/1/root/proc/2/io is not supported")) :=
  ⟨createInputIter_unsupported Options.zero (fun s => s) (fun _ => .error .syntaxErr)
      (fun _ => .ok (textReader "350735.47 234388.90\n")) (B ".") (B "/proc/uptime")
      (textReader "350735.47 234388.90\n") rfl (by decide) (by decide) (by decide),
   by decide,
   createInputIter_unsupported Options.zero (fun s => s) (fun _ => .error .syntaxErr)
      (fun _ => .ok (textReader "Name:\tsystemd\n")) (B ".") (B "/proc/1/status")
      (textReader "Name:\tsystemd\n") rfl (by decide) (by decide) (by decide),
   by decide,
   createInputIter_unsupported Options.zero (fun s => s) (fun _ => .error .syntaxErr)
      (fun _ => .ok (textReader "rchar: 1\n")) (B ".") (B "/proc/1/root/proc/2/io")
      (textReader "rchar: 1\n") rfl (by decide) (by decide) (by decide)⟩

/-! ## C16: skipping the header rows -/

theorem Split_newline_length (data : GoString) : 1 ≤ (Split data (B "\n")).length := by
  have e : B "\n" = [0x0A] := by decide
  rw [e, Split_single]
  simp

/-- C16 (counterexample).  The empty input holds no header row, yet the table parser
built with `skipTableHeader(1)` does not fail on it: it returns the nil list without
error. -/
theorem skipTableHeader_one_accepts_empty_input :
    createTableParser (skipTableHeader 1)
        (createTableRowParser splitColumnsBySpace parseProcNetArpColumns) (textReader "")
      = .ok none := by
  rfl

/-- C16 (amended).  `skipTableHeader(N)` fails when given fewer than N rows and
otherwise returns the first N rows as header and the rest as remaining, so that header
followed by remaining equals the input rows; a table parser built with
`skipTableHeader(N)` fails, with the error of the header step, on every input that
splits at newlines into fewer than N lines, where empty lines and the empty piece
after a final newline count as lines; and every input, the empty one included, splits
into at least one line, so that with N = 1 the header step never fails. -/
theorem skipTableHeader_spec (nRows : Nat) :
    (∃ f : tableHeaderParserFn, skipTableHeader nRows = some f
      ∧ (∀ rows : List GoString, rows.length < nRows →
          f rows = .error (.new (B "unable to skip table header: " ++ fmtD nRows
            ++ B " rows to be skipped, but only " ++ fmtD rows.length ++ B " rows available")))
      ∧ (∀ rows : List GoString, nRows ≤ rows.length →
          ∃ header remaining, f rows = .ok (header, remaining)
            ∧ header = rows.take nRows ∧ remaining = rows.drop nRows
            ∧ header.length = nRows ∧ header ++ remaining = rows))
    ∧ (∀ (rowParser : tableRowParserFn) (data : GoString),
        (Split data (B "\n")).length < nRows →
        createTableParser (skipTableHeader nRows) rowParser ⟨data, none⟩
          = .error (.new (B "unable to skip table header: " ++ fmtD nRows
            ++ B " rows to be skipped, but only " ++ fmtD (Split data (B "\n")).length
            ++ B " rows available")))
    ∧ (∀ data : GoString, 1 ≤ (Split data (B "\n")).length) := by
  refine ⟨⟨_, rfl, ?_, ?_⟩, ?_, Split_newline_length⟩
  · intro rows h
    simp only [h, if_true]
  · intro rows h
    have h2 : ¬ rows.length < nRows := by omega
    refine ⟨rows.take nRows, rows.drop nRows, ?_, rfl, rfl, ?_, List.take_append_drop _ _⟩
    · simp only [h2, if_false]
    · simp only [List.length_take]
      omega
  · intro rowParser data h
    have hpos : (Split data (B "\n")).length > 0 := Split_newline_length data
    simp only [createTableParser, readAllLines, ReadAll, Res.ok_bind, Res.pure_eq,
      skipTableHeader, hpos, if_true, h, Res.error_bind]

/-- Witness of C16: the net-device header step, `skipTableHeader(2)`, on a text of one
line and on a text of three lines. -/
theorem skipTableHeader_spec_witness :
    (Split (B "Inter-|   Receive") (B "\n")).length < 2
    ∧ createTableParser (skipTableHeader 2)
        (createTableRowParser splitColumnsByColonAndSpace parseProcNetDevColumns)
        ⟨B "Inter-|   Receive", none⟩
      = .error (.new (B "unable to skip table header: " ++ fmtD 2
          ++ B " rows to be skipped, but only "
          ++ fmtD (Split (B "Inter-|   Receive") (B "\n")).length ++ B " rows available"))
    ∧ (∃ f : tableHeaderParserFn, skipTableHeader 2 = some f
      ∧ f [B "Inter-|", B " face |", B "lo: 1"] = .ok ([B "Inter-|", B " face |"], [B "lo: 1"])) := by
  have h1 : (Split (B "Inter-|   Receive") (B "\n")).length < 2 := by decide
  refine ⟨h1, (skipTableHeader_spec 2).2.1 _ (B "Inter-|   Receive") h1, ?_⟩
  obtain ⟨f, hf, _, hok⟩ := (skipTableHeader_spec 2).1
  obtain ⟨header, remaining, hres, hh, hr, _, _⟩ :=
    hok [B "Inter-|", B " face |", B "lo: 1"] (by decide)
  refine ⟨f, hf, ?_⟩
  rw [hres, hh, hr]
  rfl

/-! ## C17: rows of the modules file -/

theorem appendAll_foldl (xs : List GoString) : ∀ acc : Option (List Value),
    xs.foldl (fun val v => goAppend val (Value.str v)) acc
      = if xs = [] then acc else some (acc.getD [] ++ xs.map Value.str) := by
  induction xs with
  | nil => intro acc; rfl
  | cons x rest ih =>
    intro acc
    rw [List.foldl_cons, ih]
    by_cases h : rest = []
    · subst h; simp [goAppend]
    · simp [goAppend, h]

theorem appendAll_eq (x : GoString) (rest : List GoString) :
    appendAll (x :: rest) = some ((x :: rest).map Value.str) := by
  unfold appendAll
  rw [appendAll_foldl]
  simp

theorem splitAux_ne_nil (sep : GoString) (s : GoString) : ∀ (skip : Nat) (cur : GoString),
    splitAux sep skip cur s ≠ [] := by
  induction s with
  | nil => intro skip cur; simp [splitAux]
  | cons c cs ih =>
    intro skip cur
    cases skip with
    | zero =>
      simp only [splitAux]
      split
      · simp
      · exact ih 0 _
    | succ k => simp only [splitAux]; exact ih k cur

/-- The last piece of a split at a byte is empty exactly when the text is empty or
ends with that byte. -/
theorem splitAux_getLast (b : UInt8) (s : GoString) : ∀ cur : GoString,
    (splitAux [b] 0 cur s).getLast? = some []
      ↔ (s = [] ∧ cur = []) ∨ s.getLast? = some b := by
  induction s with
  | nil => intro cur; simp [splitAux]
  | cons c cs ih =>
    intro cur
    by_cases h : c = b
    · subst h
      have hne := splitAux_ne_nil [c] cs 0 []
      simp only [splitAux, List.isPrefixOf, beq_self_eq_true, Bool.true_and, if_true,
        List.length_singleton, Nat.sub_self]
      obtain ⟨y, ys, hy⟩ : ∃ y ys, splitAux [c] 0 [] cs = y :: ys := by
        cases hs : splitAux [c] 0 [] cs with
        | nil => exact absurd hs hne
        | cons y ys => exact ⟨y, ys, rfl⟩
      have ih0 := ih []
      rw [hy] at ih0 ⊢
      rw [List.getLast?_cons_cons, ih0]
      cases cs with
      | nil => simp
      | cons d ds => simp [List.getLast?_cons_cons]
    · have hb : (b == c) = false := by
        simpa using fun e : b = c => h e.symm
      simp only [splitAux, List.isPrefixOf, hb, Bool.false_and, Bool.false_eq_true, if_false]
      rw [ih (c :: cur)]
      cases cs with
      | nil => simp [h]
      | cons d ds => simp [List.getLast?_cons_cons]

theorem HasSuffix_single (b : UInt8) (s : GoString) (h : HasSuffix s [b] = true) :
    s = TrimSuffix s [b] ++ [b] := by
  have hsuf : [b] <:+ s := by simpa [HasSuffix] using h
  obtain ⟨t, ht⟩ := hsuf
  subst ht
  simp [TrimSuffix, h]

theorem HasSuffix_double (b : UInt8) (t : GoString) :
    HasSuffix (t ++ [b]) [b, b] = true ↔ t.getLast? = some b := by
  simp only [HasSuffix, List.isSuffixOf_iff_suffix, List.getLast?_eq_some_iff]
  constructor
  · rintro ⟨u, hu⟩
    refine ⟨u, ?_⟩
    have e : (u ++ [b]) ++ [b] = t ++ [b] := by simpa using hu
    exact (List.append_cancel_right e).symm
  · rintro ⟨u, hu⟩
    exact ⟨u, by simp [hu]⟩

/-- After the removal of one trailing `b`, the split at `b` ends with an empty piece
exactly when the text was the single `b` or ended with two of them. -/
theorem trailing_item_empty (b : UInt8) (s : GoString) (h : HasSuffix s [b] = true) :
    (Split (TrimSuffix s [b]) [b]).getLast? = some []
      ↔ (s = [b] ∨ HasSuffix s [b, b] = true) := by
  have hs := HasSuffix_single b s h
  have e1 : s = [b] ↔ TrimSuffix s [b] = [] := by
    constructor
    · intro e
      rw [e] at hs
      have : ([] : GoString) ++ [b] = TrimSuffix [b] [b] ++ [b] := by simpa using hs
      rw [e]
      exact (List.append_cancel_right this).symm
    · intro e
      rw [e] at hs
      simpa using hs
  have e2 : HasSuffix s [b, b] = true ↔ (TrimSuffix s [b]).getLast? = some b := by
    rw [← HasSuffix_double]
    rw [← hs]
  simp only [Split, List.cons_ne_nil, if_false]
  rw [splitAux_getLast, e1, e2]
  simp

/-- C17 (counterexample).  For the modules row whose column 3 is "a,," the list under
"sources" is "a" followed by an empty item: it has a trailing empty element. -/
theorem parseProcModulesColumns_trailing_empty_item :
    (parseProcModulesColumns [] [B "nf_nat", B "49152", B "3", B "a,,", B "Live", B "0x0"]
      >>= fun m => pure (m.get? (B "sources")))
      = .ok (some (Value.list [Value.str (B "a"), Value.str (B "")])) := by
  rfl

/-- C17 (amended).  For every modules row of at least 6 columns with integer columns 1
and 2, `parseProcModulesColumns` returns name, size, ref_count, state and base from
columns 0, 1, 2, 4, 5; the result has a "sources" key if and only if column 3 ends
with a comma, in which case sources is the list of the comma-separated items of
column 3 with one trailing comma removed; that list ends with an empty item exactly
when column 3 is the single comma or ends with two commas. -/
theorem parseProcModulesColumns_spec (header rest : List GoString)
    (c0 c1 c2 c3 c4 c5 : GoString) (n1 n2 : Int)
    (h1 : ParseInt c1 = .ok n1) (h2 : ParseInt c2 = .ok n2) :
    ∃ m, parseProcModulesColumns header (c0 :: c1 :: c2 :: c3 :: c4 :: c5 :: rest) = .ok m
      ∧ m.get? (B "name") = some (Value.str c0)
      ∧ m.get? (B "size") = some (Value.int n1)
      ∧ m.get? (B "ref_count") = some (Value.int n2)
      ∧ m.get? (B "state") = some (Value.str c4)
      ∧ m.get? (B "base") = some (Value.str c5)
      ∧ (HasSuffix c3 (B ",") = true →
          m.get? (B "sources")
            = some (Value.list ((Split (TrimSuffix c3 (B ",")) (B ",")).map Value.str))
          ∧ ((Split (TrimSuffix c3 (B ",")) (B ",")).getLast? = some (B "")
              ↔ (c3 = B "," ∨ HasSuffix c3 (B ",,") = true)))
      ∧ (HasSuffix c3 (B ",") = false → m.get? (B "sources") = none) := by
  have hunfold : parseProcModulesColumns header (c0 :: c1 :: c2 :: c3 :: c4 :: c5 :: rest)
      = .ok (((match
          (if HasSuffix c3 (B ",") = true then
            appendAll (Split (TrimSuffix c3 (B ",")) (B ",")) else none) with
        | some l =>
          (((GoMap.empty.set (B "name") (Value.str c0)).set (B "size") (Value.int n1)).set
            (B "ref_count") (Value.int n2)).set (B "sources") (Value.list l)
        | none =>
          ((GoMap.empty.set (B "name") (Value.str c0)).set (B "size") (Value.int n1)).set
            (B "ref_count") (Value.int n2)).set (B "state") (Value.str c4)).set
          (B "base") (Value.str c5)) := by
    unfold parseProcModulesColumns
    rw [if_neg (by simp)]
    simp only [index, List.getElem?_cons_zero, List.getElem?_cons_succ]
    rw [Res.ok_bind, Res.ok_bind, h1, Res.ok_bind, Res.ok_bind, h2, Res.ok_bind, Res.ok_bind,
      Res.ok_bind, Res.ok_bind]
    rfl
  have ecomma : B "," = [0x2C] := by decide
  have ecomma2 : B ",," = [0x2C, 0x2C] := by decide
  by_cases hs : HasSuffix c3 (B ",") = true
  · obtain ⟨x, xs, hx⟩ : ∃ x xs, Split (TrimSuffix c3 (B ",")) (B ",") = x :: xs := by
      rw [ecomma]
      exact ⟨_, _, Split_single _ _⟩
    rw [hunfold]
    simp only [hs, if_true, hx, appendAll_eq]
    refine ⟨_, rfl, rfl, rfl, rfl, rfl, rfl, fun _ => ⟨rfl, ?_⟩, fun h => by simp at h⟩
    rw [← hx, ecomma2, ecomma]
    exact trailing_item_empty 0x2C c3 (by rw [← ecomma]; exact hs)
  · have hs2 : HasSuffix c3 (B ",") = false := by simpa using hs
    rw [hunfold]
    simp only [hs2, Bool.false_eq_true, if_false]
    exact ⟨_, rfl, rfl, rfl, rfl, rfl, rfl, fun h => by simp at h, fun _ => rfl⟩

/-- Witness of C17: a row with two sources and a row with none. -/
theorem parseProcModulesColumns_spec_witness :
    (∃ m, parseProcModulesColumns []
          [B "nf_nat", B "49152", B "3", B "nft_nat,xt_nat,", B "Live", B "0x0"] = .ok m
      ∧ m.get? (B "name") = some (Value.str (B "nf_nat"))
      ∧ m.get? (B "size") = some (Value.int 49152)
      ∧ m.get? (B "sources")
          = some (Value.list ((Split (TrimSuffix (B "nft_nat,xt_nat,") (B ",")) (B ",")).map
              Value.str)))
    ∧ (Split (TrimSuffix (B "nft_nat,xt_nat,") (B ",")) (B ",")) = [B "nft_nat", B "xt_nat"]
    ∧ (∃ m, parseProcModulesColumns []
          [B "loop", B "40960", B "0", B "-", B "Live", B "0x0"] = .ok m
      ∧ m.get? (B "sources") = none) := by
  obtain ⟨m, hm, hname, hsize, _, _, _, hsrc, _⟩ :=
    parseProcModulesColumns_spec [] [] (B "nf_nat") (B "49152") (B "3") (B "nft_nat,xt_nat,")
      (B "Live") (B "0x0") 49152 3 (by decide) (by decide)
  obtain ⟨m2, hm2, _, _, _, _, _, _, hnone⟩ :=
    parseProcModulesColumns_spec [] [] (B "loop") (B "40960") (B "0") (B "-")
      (B "Live") (B "0x0") 40960 0 (by decide) (by decide)
  exact ⟨⟨m, hm, hname, hsize, (hsrc (by decide)).1⟩, by decide, ⟨m2, hm2, hnone (by decide)⟩⟩

/-! ## C18: the column-count thresholds -/

theorem length_ge_6 {α : Type} (l : List α) (h : 6 ≤ l.length) :
    ∃ c0 c1 c2 c3 c4 c5 rest, l = c0 :: c1 :: c2 :: c3 :: c4 :: c5 :: rest := by
  match l, h with
  | c0 :: c1 :: c2 :: c3 :: c4 :: c5 :: rest, _ => exact ⟨c0, c1, c2, c3, c4, c5, rest, rfl⟩
  | [], h => simp at h
  | [_], h => simp at h
  | [_, _], h => simp at h
  | [_, _, _], h => simp at h
  | [_, _, _, _], h => simp at h
  | [_, _, _, _, _], h => simp at h

/-- C18.  Each table column parser returns its format error, and so indexes no
column, whenever it is given fewer columns than the threshold of its format: 20 for
disk-stats, 6 for modules, 6 for mounts, 6 for ARP, 17 for net-device and 10 for
netlink; and the ARP and mounts parsers succeed for every column list of at least 6
entries. -/
theorem column_thresholds (header columns : List GoString) :
    (columns.length < 20 →
      parseProcDiskstatsColumns header columns
        = .error (.new (B "unknown /proc/diskstats format: found " ++ fmtD columns.length
            ++ B " columns")))
    ∧ (columns.length < 6 →
      parseProcModulesColumns header columns
        = .error (.new (B "unknown /proc/modules format. expected 6 columns but got "
            ++ fmtD columns.length ++ B " columns")))
    ∧ (columns.length < 6 →
      parseProcMountsColumns header columns
        = .error (.new (B "unknown /proc/mounts format. expected 6 columns but got "
            ++ fmtD columns.length ++ B " columns")))
    ∧ (columns.length < 6 →
      parseProcNetArpColumns header columns
        = .error (.new (B "unknown /proc/net/arp format. expected 6 columns but got "
            ++ fmtD columns.length ++ B " columns")))
    ∧ (columns.length < 17 →
      parseProcNetDevColumns header columns
        = .error (.new (B "unknown /proc/net/dev format. expected 17 columns but got "
            ++ fmtD columns.length ++ B " columns")))
    ∧ (columns.length < 10 →
      parseProcNetNetlinkColumns header columns
        = .error (.new (B "unknown /proc/net/netlink format. expected 10 columns but got "
            ++ fmtD columns.length ++ B " columns")))
    ∧ (6 ≤ columns.length → (parseProcNetArpColumns header columns).isOk = true)
    ∧ (6 ≤ columns.length → (parseProcMountsColumns header columns).isOk = true) := by
  refine ⟨?_, ?_, ?_, ?_, ?_, ?_, ?_, ?_⟩
  · intro h; unfold parseProcDiskstatsColumns; rw [if_pos h]
  · intro h; unfold parseProcModulesColumns; rw [if_pos h]
  · intro h; unfold parseProcMountsColumns; rw [if_pos h]
  · intro h; unfold parseProcNetArpColumns; rw [if_pos h]
  · intro h; unfold parseProcNetDevColumns; rw [if_pos h]
  · intro h; unfold parseProcNetNetlinkColumns; rw [if_pos h]
  · intro h
    obtain ⟨c0, c1, c2, c3, c4, c5, rest, rfl⟩ := length_ge_6 columns h
    unfold parseProcNetArpColumns
    rw [if_neg (by simp)]
    simp only [index, List.getElem?_cons_zero, List.getElem?_cons_succ]
    rfl
  · intro h
    obtain ⟨c0, c1, c2, c3, c4, c5, rest, rfl⟩ := length_ge_6 columns h
    unfold parseProcMountsColumns
    rw [if_neg (by simp)]
    simp only [index, List.getElem?_cons_zero, List.getElem?_cons_succ]
    rfl

/-- Witness of C18: five columns given to each parser, and six columns given to the
ARP and the mounts parser. -/
theorem column_thresholds_witness :
    parseProcNetDevColumns [] [B "lo", B "1", B "2", B "3", B "4"]
        = .error (.new (B "unknown /proc/net/dev format. expected 17 columns but got "
            ++ fmtD 5 ++ B " columns"))
    ∧ parseProcModulesColumns [] [B "lo", B "1", B "2", B "3", B "4"]
        = .error (.new (B "unknown /proc/modules format. expected 6 columns but got "
            ++ fmtD 5 ++ B " columns"))
    ∧ (parseProcNetArpColumns []
        [B "10.0.2.2", B "0x1", B "0x2", B "52:55:0a:00:02:02", B "*", B "eth0"]).isOk = true
    ∧ (parseProcMountsColumns []
        [B "proc", B "/proc", B "proc", B "rw,nosuid", B "0", B "0"]).isOk = true :=
  ⟨(column_thresholds [] [B "lo", B "1", B "2", B "3", B "4"]).2.2.2.2.1 (by decide),
   (column_thresholds [] [B "lo", B "1", B "2", B "3", B "4"]).2.1 (by decide),
   (column_thresholds []
     [B "10.0.2.2", B "0x1", B "0x2", B "52:55:0a:00:02:02", B "*", B "eth0"]).2.2.2.2.2.2.1
     (by decide),
   (column_thresholds []
     [B "proc", B "/proc", B "proc", B "rw,nosuid", B "0", B "0"]).2.2.2.2.2.2.2 (by decide)⟩

/-! ## C19: the rows of a table -/

theorem tableLoop_isPanic (rowParser : tableRowParserFn) (header : List GoString)
    (hp : ∀ l, (rowParser header l).isPanic = false) (lines : List GoString) :
    ∀ acc : Option (List Value), (tableLoop rowParser header lines acc).isPanic = false := by
  induction lines with
  | nil => intro acc; rfl
  | cons l ls ih =>
    intro acc
    by_cases hl : l = []
    · simp only [tableLoop, hl, if_true]; exact ih acc
    · simp only [tableLoop, hl, if_false]
      have h := hp l
      cases hr : rowParser header l with
      | ok m => simp only [Res.ok_bind]; exact ih _
      | error e => rfl
      | panic i n => rw [hr] at h; simp [Res.isPanic] at h

theorem createLineParser_flag (enabled disabled : Options) (hen : enabled.OutputQueryFriendly = true)
    (hdis : disabled.OutputQueryFriendly = false) (unicodeLower : GoString → GoString)
    (splitter : lineSplitterFn) (valueParser : valueParserFn) (line : GoString) :
    createLineParser enabled unicodeLower splitter valueParser line
      = (match createLineParser disabled unicodeLower splitter valueParser line with
          | .ok kv => .ok (makeQueryFriendly unicodeLower kv.1, kv.2)
          | .error e => .error e
          | .panic i n => .panic i n) := by
  unfold createLineParser
  cases hs : splitter line with
  | ok kv =>
    obtain ⟨k, v⟩ := kv
    simp only [Res.ok_bind]
    cases hv : valueParser k v with
    | ok p => simp [hen, hdis, Res.ok_bind, Res.pure_eq]
    | error e => rfl
    | panic i n => rfl
  | error e => rfl
  | panic i n => rfl

theorem tablePaths_no_submatch :
    ∀ fname ∈ tablePaths, findPerProcessSubmatch fname = [] := by
  decide

theorem switchFname_table (o1 o2 : Options) (unicodeLower : GoString → GoString)
    (parseFloat : GoString → Except NumErr GoFloat64) (fname : GoString) (f : Reader)
    (h : fname ∈ tablePaths) :
    switchFname o1 unicodeLower parseFloat fname f
      = switchFname o2 unicodeLower parseFloat fname f := by
  have h1 : fname ≠ B "/proc/cpuinfo" := by
    intro e; subst e; exact absurd h (by decide)
  have h2 : fname ≠ B "/proc/crypto" := by
    intro e; subst e; exact absurd h (by decide)
  have h3 : fname ≠ B "/proc/meminfo" := by
    intro e; subst e; exact absurd h (by decide)
  have h4 : fname ≠ B "/proc/vmstat" := by
    intro e; subst e; exact absurd h (by decide)
  unfold switchFname
  simp only [h1, h2, h3, h4, if_false]

theorem createInputIter_table (o1 o2 : Options) (unicodeLower : GoString → GoString)
    (parseFloat : GoString → Except NumErr GoFloat64) (osOpen : GoString → Res Reader)
    (query fname : GoString) (rest : List GoString)
    (h : fname ∈ tablePaths ∨ ∃ w, findPerProcessSubmatch fname = [w, B "limits"]) :
    createInputIter o1 unicodeLower parseFloat osOpen query (fname :: rest)
      = createInputIter o2 unicodeLower parseFloat osOpen query (fname :: rest) := by
  unfold createInputIter
  rw [if_neg (by simp), if_neg (by simp)]
  simp only [index, List.getElem?_cons_zero, Res.ok_bind]
  cases hopen : osOpen fname with
  | error e => rfl
  | panic i n => rfl
  | ok f =>
    simp only [Res.ok_bind]
    rcases h with h | ⟨w, hw⟩
    · have hlen : ¬ (findPerProcessSubmatch fname).length = 2 := by
        rw [tablePaths_no_submatch fname h]; decide
      rw [if_neg hlen, if_neg hlen]
      exact switchFname_table o1 o2 unicodeLower parseFloat fname f h
    · have hio : ¬ B "limits" = B "io" := by decide
      simp only [hw, List.length_cons, List.length_nil, List.getElem?_cons_succ,
        List.getElem?_cons_zero, Res.ok_bind, hio, if_false, if_true]

/-- C20.  Between a run with the flag of query-friendly keys enabled and a run with it
disabled, whatever the other options: for every splitter, value converter and line,
`createLineParser` succeeds in the one run exactly when it succeeds in the other, with
the same value and with `makeQueryFriendly` of the key of the disabled run as key (and
it fails in the same way); and for every path that `createInputIter` hands to a table
parser (the literal table paths, and the paths whose per-process capture is "limits")
the result of `createInputIter` is the same in both runs, for every content of the
file. -/
theorem flag_changes_only_line_keys (enabled disabled : Options)
    (hen : enabled.OutputQueryFriendly = true) (hdis : disabled.OutputQueryFriendly = false)
    (unicodeLower : GoString → GoString) :
    (∀ (splitter : lineSplitterFn) (valueParser : valueParserFn) (line : GoString),
      createLineParser enabled unicodeLower splitter valueParser line
        = (match createLineParser disabled unicodeLower splitter valueParser line with
            | .ok kv => .ok (makeQueryFriendly unicodeLower kv.1, kv.2)
            | .error e => .error e
            | .panic i n => .panic i n)
      ∧ (createLineParser enabled unicodeLower splitter valueParser line).isOk
          = (createLineParser disabled unicodeLower splitter valueParser line).isOk)
    ∧ (∀ (parseFloat : GoString → Except NumErr GoFloat64) (osOpen : GoString → Res Reader)
        (query fname : GoString) (rest : List GoString),
        (fname ∈ tablePaths ∨ ∃ w, findPerProcessSubmatch fname = [w, B "limits"]) →
        createInputIter enabled unicodeLower parseFloat osOpen query (fname :: rest)
          = createInputIter disabled unicodeLower parseFloat osOpen query (fname :: rest)) := by
  refine ⟨fun splitter valueParser line => ?_, fun parseFloat osOpen query fname rest h =>
    createInputIter_table enabled disabled unicodeLower parseFloat osOpen query fname rest h⟩
  have e := createLineParser_flag enabled disabled hen hdis unicodeLower splitter valueParser line
  refine ⟨e, ?_⟩
  rw [e]
  cases createLineParser disabled unicodeLower splitter valueParser line <;> rfl

/-- Witness of C20: the options of the flag `-f` alone against the zero options, on
the line "Cache Size (L2): 1 kB" of the memory-information format and on the paths
"/proc/net/arp" and "/proc/1/limits". -/
theorem flag_changes_only_line_keys_witness :
    Options.queryFriendly.OutputQueryFriendly = true
    ∧ Options.zero.OutputQueryFriendly = false
    ∧ createLineParser Options.zero (fun s => s) splitLineByColon parseProcMeminfoValue
        (B "Cache Size (L2): 1 kB")
        = .ok (B "Cache Size (L2)",
            Value.map [(B "value", Value.int 1), (B "unit", Value.str (B "kB"))])
    ∧ createLineParser Options.queryFriendly (fun s => s) splitLineByColon
        parseProcMeminfoValue (B "Cache Size (L2): 1 kB")
        = .ok (makeQueryFriendly (fun s => s) (B "Cache Size (L2)"),
            Value.map [(B "value", Value.int 1), (B "unit", Value.str (B "kB"))])
    ∧ (∀ osOpen : GoString → Res Reader,
        createInputIter Options.queryFriendly (fun s => s) (fun _ => .error .syntaxErr)
            osOpen (B ".") [B "/proc/net/arp"]
          = createInputIter Options.zero (fun s => s) (fun _ => .error .syntaxErr)
            osOpen (B ".") [B "/proc/net/arp"])
    ∧ (∀ osOpen : GoString → Res Reader,
        createInputIter Options.queryFriendly (fun s => s) (fun _ => .error .syntaxErr)
            osOpen (B ".") [B "/proc/1/limits"]
          = createInputIter Options.zero (fun s => s) (fun _ => .error .syntaxErr)
            osOpen (B ".") [B "/proc/1/limits"]) := by
  have h := flag_changes_only_line_keys Options.queryFriendly Options.zero rfl rfl
    (fun s => s)
  have hoff : createLineParser Options.zero (fun s => s) splitLineByColon
      parseProcMeminfoValue (B "Cache Size (L2): 1 kB")
      = .ok (B "Cache Size (L2)",
          Value.map [(B "value", Value.int 1), (B "unit", Value.str (B "kB"))]) := by rfl
  refine ⟨rfl, rfl, hoff, ?_, fun osOpen => ?_, fun osOpen => ?_⟩
  · rw [(h.1 splitLineByColon parseProcMeminfoValue (B "Cache Size (L2): 1 kB")).1, hoff]
  · exact h.2 (fun _ => .error .syntaxErr) osOpen (B ".") (B "/proc/net/arp") []
      (Or.inl (by decide))
  · exact h.2 (fun _ => .error .syntaxErr) osOpen (B ".") (B "/proc/1/limits") []
      (Or.inr ⟨B "/proc/1/limits", by decide⟩)

/-! ## C21: the per-process paths -/

theorem matchPerProcessHere_numeric (d sfx : GoString) (hd : d ≠ [])
    (hdig : d.all isRegexDigit = true) (hs : sfx ≠ []) (hnl : ∀ c ∈ sfx, c ≠ 0x0A) :
    matchPerProcessHere (B "/proc/" ++ d ++ 0x2F :: sfx)
      = some (B "/proc/" ++ d ++ 0x2F :: sfx, sfx) := by
  have ep : B "/proc/" = [0x2F, 0x70, 0x72, 0x6F, 0x63, 0x2F] := by decide
  have hall : ∀ a ∈ d, isRegexDigit a = true := List.all_eq_true.1 hdig
  have hslash : isRegexDigit 0x2F = false := by decide
  have hdrop : (d ++ 0x2F :: sfx).dropWhile isRegexDigit = 0x2F :: sfx := by
    rw [List.dropWhile_append_of_pos hall, List.dropWhile_cons, hslash]
    rfl
  have htake : (d ++ 0x2F :: sfx).takeWhile isRegexDigit = d := by
    rw [List.takeWhile_append_of_pos hall, List.takeWhile_cons, hslash]
    simp
  have hcap : sfx.takeWhile (fun b => b ≠ 0x0A) = sfx := by
    rw [List.takeWhile_eq_self_iff]
    intro c hc
    simpa using hnl c hc
  unfold matchPerProcessHere
  rw [ep]
  simp only [List.cons_append, List.nil_append, List.isPrefixOf, beq_self_eq_true,
    Bool.and_self, Bool.true_and, if_true, List.drop_succ_cons, List.drop_zero]
  rw [hdrop]
  simp only [htake, hcap, ne_eq, hd, hs, not_false_eq_true, and_self, if_true,
    List.append_assoc, List.cons_append, List.nil_append]

theorem findPerProcessSubmatch_numeric (d sfx : GoString) (hd : d ≠ [])
    (hdig : d.all isRegexDigit = true) (hs : sfx ≠ []) (hnl : ∀ c ∈ sfx, c ≠ 0x0A) :
    findPerProcessSubmatch (B "/proc/" ++ d ++ 0x2F :: sfx)
      = [B "/proc/" ++ d ++ 0x2F :: sfx, sfx] := by
  have h := matchPerProcessHere_numeric d sfx hd hdig hs hnl
  have ep : B "/proc/" = [0x2F, 0x70, 0x72, 0x6F, 0x63, 0x2F] := by decide
  rw [ep] at h ⊢
  simp only [List.cons_append, List.nil_append] at h ⊢
  unfold findPerProcessSubmatch
  rw [h]

theorem findPerProcessSubmatch_shape (s : GoString) :
    findPerProcessSubmatch s = [] ∨ ∃ m cap, findPerProcessSubmatch s = [m, cap] := by
  induction s with
  | nil => exact Or.inl rfl
  | cons c cs ih =>
    unfold findPerProcessSubmatch
    cases h : matchPerProcessHere (c :: cs) with
    | none => exact ih
    | some p => exact Or.inr ⟨p.1, p.2, rfl⟩

theorem createInputIter_by_capture (options : Options) (unicodeLower : GoString → GoString)
    (parseFloat : GoString → Except NumErr GoFloat64) (osOpen : GoString → Res Reader)
    (query fname : GoString) (rest : List GoString) :
    createInputIter options unicodeLower parseFloat osOpen query (fname :: rest)
      = osOpen fname >>= fun f =>
          dispatchByCapture options unicodeLower parseFloat fname f
            (findPerProcessSubmatch fname)[1]? := by
  unfold createInputIter
  rw [if_neg (by simp)]
  simp only [index, List.getElem?_cons_zero, Res.ok_bind]
  congr 1
  funext f
  rcases findPerProcessSubmatch_shape fname with h | ⟨m, cap, h⟩
  · rw [h]
    simp only [List.length_nil, List.getElem?_nil, dispatchByCapture]
    rw [if_neg (by decide)]
  · rw [h]
    simp only [List.length_cons, List.length_nil, List.getElem?_cons_succ,
      List.getElem?_cons_zero, Res.ok_bind, dispatchByCapture, dispatchPidIo,
      dispatchPidLimits]
    rw [if_pos (by decide)]

theorem digitChar_isDigitChar (k : Nat) (h : k < 10) : isDigitChar (Nat.digitChar k) = true := by
  interval_cases k <;> decide

theorem toDigitsCore_isDigitChar : ∀ (fuel n : Nat) (ds : List Char),
    (∀ c ∈ ds, isDigitChar c = true) →
    ∀ c ∈ Nat.toDigitsCore 10 fuel n ds, isDigitChar c = true := by
  intro fuel
  induction fuel with
  | zero => intro n ds h; simpa [Nat.toDigitsCore] using h
  | succ fuel ih =>
    intro n ds h
    have hd : ∀ c ∈ Nat.digitChar (n % 10) :: ds, isDigitChar c = true := by
      intro c hc
      rcases List.mem_cons.1 hc with e | e
      · rw [e]; exact digitChar_isDigitChar _ (Nat.mod_lt _ (by decide))
      · exact h c e
    unfold Nat.toDigitsCore
    simp only
    split
    · exact hd
    · exact ih _ _ hd

theorem toDigitsCore_ne_nil : ∀ (fuel n : Nat) (ds : List Char), ds ≠ [] →
    Nat.toDigitsCore 10 fuel n ds ≠ [] := by
  intro fuel
  induction fuel with
  | zero => intro n ds h; simpa [Nat.toDigitsCore] using h
  | succ fuel ih =>
    intro n ds _
    unfold Nat.toDigitsCore
    simp only
    split
    · simp
    · exact ih _ _ (by simp)

theorem fmtD_eq (n : Nat) : fmtD n = (Nat.toDigits 10 n).flatMap String.utf8EncodeChar := rfl

/-- The decimal numeral of a number is a non-empty text of decimal digits. -/
theorem fmtD_digits (n : Nat) : fmtD n ≠ [] ∧ (fmtD n).all isRegexDigit = true := by
  rw [fmtD_eq]
  have hall : ∀ c ∈ Nat.toDigits 10 n, isDigitChar c = true :=
    toDigitsCore_isDigitChar (n + 1) n [] (by simp)
  have hne : Nat.toDigits 10 n ≠ [] := by
    unfold Nat.toDigits Nat.toDigitsCore
    simp only
    split
    · simp
    · exact toDigitsCore_ne_nil _ _ _ (by simp)
  constructor
  · obtain ⟨c, cs, hc⟩ := List.exists_cons_of_ne_nil hne
    rw [hc, List.flatMap_cons]
    have h1 := hall c (by rw [hc]; exact List.mem_cons_self _ _)
    simp only [isDigitChar, Bool.and_eq_true, decide_eq_true_eq] at h1
    intro e
    have e2 := List.append_eq_nil.1 e
    rw [e2.1] at h1
    simp at h1
  · rw [List.all_eq_true]
    intro b hb
    obtain ⟨c, hc, hbc⟩ := List.mem_flatMap.1 hb
    have h1 := hall c hc
    simp only [isDigitChar, Bool.and_eq_true] at h1
    exact List.all_eq_true.1 h1.1 b hbc

theorem createInputIter_numeric (options : Options) (unicodeLower : GoString → GoString)
    (parseFloat : GoString → Except NumErr GoFloat64) (osOpen : GoString → Res Reader)
    (query : GoString) (rest : List GoString) (d : GoString) (hd : d ≠ [])
    (hdig : d.all isRegexDigit = true) :
    createInputIter options unicodeLower parseFloat osOpen query
        ((B "/proc/" ++ d ++ B "/io") :: rest)
      = (osOpen (B "/proc/" ++ d ++ B "/io")
          >>= dispatchPidIo options unicodeLower (B "/proc/" ++ d ++ B "/io"))
    ∧ createInputIter options unicodeLower parseFloat osOpen query
        ((B "/proc/" ++ d ++ B "/limits") :: rest)
      = (osOpen (B "/proc/" ++ d ++ B "/limits")
          >>= dispatchPidLimits (B "/proc/" ++ d ++ B "/limits")) := by
  have e1 : B "/io" = 0x2F :: B "io" := by decide
  have e2 : B "/limits" = 0x2F :: B "limits" := by decide
  have h1 := findPerProcessSubmatch_numeric d (B "io") hd hdig (by decide) (by decide)
  have h2 := findPerProcessSubmatch_numeric d (B "limits") hd hdig (by decide) (by decide)
  have hne : ¬ B "limits" = B "io" := by decide
  constructor
  · rw [createInputIter_by_capture, e1, h1]
    simp only [List.getElem?_cons_succ, List.getElem?_cons_zero, dispatchByCapture, if_true]
  · rw [createInputIter_by_capture, e2, h2]
    simp only [List.getElem?_cons_succ, List.getElem?_cons_zero, dispatchByCapture, hne,
      if_false, if_true]

/-- C21.  For every non-empty text of decimal digits `d`, and so for the numeral of
every process id `n`, `createInputIter` on the path /proc/d/io opens the file and
builds the iterator of the map combinator with the colon line splitter and the value
converter `parseProcPidIoValue`, which returns integers only; on the path
/proc/d/limits it builds the iterator of the table combinator with one header row
skipped and the limits columns.  For every path the choice is made from the text
captured after the numeric segment alone: "io" and "limits" select these two
iterators before the literal paths are looked at, and any other capture, or none,
leads to the switch over the literal paths. -/
theorem perProcess_dispatch (options : Options) (unicodeLower : GoString → GoString)
    (parseFloat : GoString → Except NumErr GoFloat64) (osOpen : GoString → Res Reader)
    (query : GoString) (rest : List GoString) :
    (∀ d : GoString, d ≠ [] → d.all isRegexDigit = true →
      createInputIter options unicodeLower parseFloat osOpen query
          ((B "/proc/" ++ d ++ B "/io") :: rest)
        = (osOpen (B "/proc/" ++ d ++ B "/io")
            >>= dispatchPidIo options unicodeLower (B "/proc/" ++ d ++ B "/io"))
      ∧ createInputIter options unicodeLower parseFloat osOpen query
          ((B "/proc/" ++ d ++ B "/limits") :: rest)
        = (osOpen (B "/proc/" ++ d ++ B "/limits")
            >>= dispatchPidLimits (B "/proc/" ++ d ++ B "/limits")))
    ∧ (∀ n : Nat,
      createInputIter options unicodeLower parseFloat osOpen query
          ((B "/proc/" ++ fmtD n ++ B "/io") :: rest)
        = (osOpen (B "/proc/" ++ fmtD n ++ B "/io")
            >>= dispatchPidIo options unicodeLower (B "/proc/" ++ fmtD n ++ B "/io"))
      ∧ createInputIter options unicodeLower parseFloat osOpen query
          ((B "/proc/" ++ fmtD n ++ B "/limits") :: rest)
        = (osOpen (B "/proc/" ++ fmtD n ++ B "/limits")
            >>= dispatchPidLimits (B "/proc/" ++ fmtD n ++ B "/limits")))
    ∧ (∀ fname : GoString,
      createInputIter options unicodeLower parseFloat osOpen query (fname :: rest)
        = osOpen fname >>= fun f =>
            dispatchByCapture options unicodeLower parseFloat fname f
              (findPerProcessSubmatch fname)[1]?)
    ∧ (∀ key valueStr : GoString,
      Res.All (fun v => ∃ n : Int, v = Value.int n) (parseProcPidIoValue key valueStr)) := by
  refine ⟨fun d hd hdig => createInputIter_numeric options unicodeLower parseFloat osOpen
      query rest d hd hdig,
    fun n => createInputIter_numeric options unicodeLower parseFloat osOpen query rest
      (fmtD n) (fmtD_digits n).1 (fmtD_digits n).2,
    fun fname => createInputIter_by_capture options unicodeLower parseFloat osOpen query
      fname rest, ?_⟩
  intro key valueStr
  unfold parseProcPidIoValue
  cases h : ParseInt valueStr with
  | ok n => exact ⟨n, rfl⟩
  | error e => trivial
  | panic i n => trivial

/-- Witness of C21: the process id 4242, with an io file of one line. -/
theorem perProcess_dispatch_witness :
    B "4242" ≠ [] ∧ (B "4242").all isRegexDigit = true
    ∧ createInputIter Options.zero (fun s => s) (fun _ => .error .syntaxErr)
        (fun _ => .ok (textReader "rchar: 1\n")) (B ".")
        [B "/proc/" ++ B "4242" ++ B "/io"]
      = ((fun _ => .ok (textReader "rchar: 1\n")) (B "/proc/" ++ B "4242" ++ B "/io")
          >>= dispatchPidIo Options.zero (fun s => s) (B "/proc/" ++ B "4242" ++ B "/io"))
    ∧ ((.ok (textReader "rchar: 1\n") : Res Reader)
          >>= dispatchPidIo Options.zero (fun s => s) (B "/proc/" ++ B "4242" ++ B "/io"))
      = .ok (.procMap ⟨B "/proc/4242/io", some [(B "rchar", Value.int 1)]⟩) :=
  ⟨by decide, by decide,
   ((perProcess_dispatch Options.zero (fun s => s) (fun _ => .error .syntaxErr)
      (fun _ => .ok (textReader "rchar: 1\n")) (B ".") []).1 (B "4242") (by decide)
      (by decide)).1,
   rfl⟩

/-! ## C22: the map parser stops at the first empty line -/

theorem splitAux_append (b : UInt8) (a c : GoString) : ∀ cur : GoString,
    splitAux [b] 0 cur (a ++ b :: c) = splitAux [b] 0 cur a ++ splitAux [b] 0 [] c := by
  induction a with
  | nil => intro cur; simp [splitAux, List.isPrefixOf]
  | cons x xs ih =>
    intro cur
    by_cases h : x = b
    · subst h
      simp [splitAux, List.isPrefixOf, ih []]
    · have h2 : ¬ b = x := fun e => h e.symm
      simp [splitAux, List.isPrefixOf, h2, ih (x :: cur)]

theorem Split_append (b : UInt8) (a c : GoString) :
    Split (a ++ b :: c) [b] = Split a [b] ++ Split c [b] := by
  simp only [Split, List.cons_ne_nil, if_false]
  exact splitAux_append b a c []

theorem Split_of_not_mem (b : UInt8) (s : GoString) (h : b ∉ s) : Split s [b] = [s] := by
  rw [Split_single, if_neg h]
  simp only [beforeFirst, List.cons.injEq, and_true]
  rw [List.takeWhile_eq_self_iff]
  intro c hc
  simp only [decide_eq_true_eq]
  rintro rfl
  exact h hc

theorem splitAux_pieces (b : UInt8) (s : GoString) : ∀ cur : GoString, b ∉ cur →
    ∀ p ∈ splitAux [b] 0 cur s, b ∉ p := by
  induction s with
  | nil =>
    intro cur hcur p hp
    simp only [splitAux, List.mem_singleton] at hp
    subst hp
    simpa using hcur
  | cons x xs ih =>
    intro cur hcur p hp
    by_cases h : x = b
    · subst h
      simp only [splitAux, List.isPrefixOf, beq_self_eq_true, Bool.true_and, if_true,
        List.length_singleton, Nat.sub_self, List.mem_cons] at hp
      rcases hp with hp | hp
      · subst hp; simpa using hcur
      · exact ih [] (by simp) p hp
    · have h2 : ¬ b = x := fun e => h e.symm
      have hb : (b == x) = false := by simpa using h2
      simp only [splitAux, List.isPrefixOf, hb, Bool.false_and, if_false] at hp
      refine ih (x :: cur) ?_ p hp
      simp only [List.mem_cons, not_or]
      exact ⟨h2, hcur⟩

theorem Split_pieces (b : UInt8) (s : GoString) : ∀ p ∈ Split s [b], b ∉ p := by
  simp only [Split, List.cons_ne_nil, if_false]
  exact splitAux_pieces b s [] (by simp)

theorem Split_joinLines (ls : List GoString) (hne : ls ≠ [])
    (h : ∀ l ∈ ls, (0x0A : UInt8) ∉ l) :
    Split (joinLines ls) [0x0A] = ls := by
  induction ls with
  | nil => exact absurd rfl hne
  | cons l rest ih =>
    cases rest with
    | nil => exact Split_of_not_mem 0x0A l (h l (List.mem_cons_self _ _))
    | cons l2 rest2 =>
      rw [joinLines, Split_append, Split_of_not_mem 0x0A l (h l (List.mem_cons_self _ _)),
        ih (by simp) (fun x hx => h x (List.mem_cons_of_mem _ hx))]
      rfl

theorem mapParserLoop_takeWhile (lineParser : lineParserFn) (lines : List GoString) :
    ∀ result : GoMap, mapParserLoop lineParser lines result
      = mapParserLoop lineParser (linesBeforeEmpty lines) result := by
  induction lines with
  | nil => intro result; rfl
  | cons l ls ih =>
    intro result
    by_cases hl : l = []
    · subst hl; simp [linesBeforeEmpty, mapParserLoop]
    · have e : linesBeforeEmpty (l :: ls) = l :: linesBeforeEmpty ls := by
        simp [linesBeforeEmpty, hl]
      rw [e]
      simp only [mapParserLoop, hl, if_false]
      cases hp : lineParser l with
      | ok kv => simp only [Res.ok_bind]; exact ih _
      | error e => rfl
      | panic i n => rfl

theorem mapParserLoop_cut (lineParser : lineParserFn) (xs ys : List GoString) :
    ∀ result : GoMap, mapParserLoop lineParser (xs ++ [] :: ys) result
      = mapParserLoop lineParser xs result := by
  induction xs with
  | nil => intro result; simp [mapParserLoop]
  | cons l ls ih =>
    intro result
    by_cases hl : l = []
    · subst hl; simp [mapParserLoop]
    · simp only [List.cons_append, mapParserLoop, hl, if_false]
      cases hp : lineParser l with
      | ok kv => simp only [Res.ok_bind]; exact ih _
      | error e => rfl
      | panic i n => rfl

theorem mapParserLoop_eq_chunkLinesLoop (lineParser : lineParserFn) (lines : List GoString)
    (h : ∀ l ∈ lines, l ≠ []) : ∀ result : GoMap,
    mapParserLoop lineParser lines result = chunkLinesLoop lineParser lines result := by
  induction lines with
  | nil => intro result; rfl
  | cons l ls ih =>
    intro result
    have hl : l ≠ [] := h l (List.mem_cons_self _ _)
    simp only [mapParserLoop, chunkLinesLoop, hl, if_false]
    cases hp : lineParser l with
    | ok kv =>
      simp only [Res.ok_bind]
      exact ih (fun x hx => h x (List.mem_cons_of_mem _ hx)) _
    | error e => rfl
    | panic i n => rfl

theorem GoMap.get?_set_self (m : GoMap) (k : GoString) (v : Value) :
    (m.set k v).get? k = some v := by
  induction m with
  | nil => simp [GoMap.set, GoMap.get?]
  | cons kv rest ih =>
    obtain ⟨k0, v0⟩ := kv
    by_cases h : k0 = k
    · simp [GoMap.set, GoMap.get?, h]
    · simp [GoMap.set, GoMap.get?, h, ih]

theorem GoMap.get?_set_ne (m : GoMap) (k k2 : GoString) (v : Value) (hne : k ≠ k2) :
    (m.set k v).get? k2 = m.get? k2 := by
  induction m with
  | nil => simp [GoMap.set, GoMap.get?, hne]
  | cons kv rest ih =>
    obtain ⟨k0, v0⟩ := kv
    by_cases h : k0 = k
    · subst h
      simp [GoMap.set, GoMap.get?, hne]
    · by_cases h2 : k0 = k2
      · subst h2
        simp [GoMap.set, GoMap.get?, h]
      · simp [GoMap.set, GoMap.get?, h, h2, ih]

theorem chunkLinesLoop_append (lineParser : lineParserFn) (xs ys : List GoString) :
    ∀ result : GoMap, chunkLinesLoop lineParser (xs ++ ys) result
      = chunkLinesLoop lineParser xs result >>= chunkLinesLoop lineParser ys := by
  induction xs with
  | nil => intro result; rfl
  | cons l ls ih =>
    intro result
    simp only [List.cons_append, chunkLinesLoop]
    cases hp : lineParser l with
    | ok kv => simp only [Res.ok_bind]; exact ih _
    | error e => rfl
    | panic i n => rfl

theorem chunkLinesLoop_get? (lineParser : lineParserFn) (k : GoString) (lines : List GoString)
    (h : ∀ l ∈ lines, ∀ v, lineParser l ≠ .ok (k, v)) : ∀ result m : GoMap,
    chunkLinesLoop lineParser lines result = .ok m → m.get? k = result.get? k := by
  induction lines with
  | nil =>
    intro result m hm
    simp only [chunkLinesLoop, Res.ok.injEq] at hm
    rw [hm]
  | cons l ls ih =>
    intro result m hm
    simp only [chunkLinesLoop] at hm
    cases hp : lineParser l with
    | ok kv =>
      obtain ⟨k1, v1⟩ := kv
      rw [hp, Res.ok_bind] at hm
      have hne : k1 ≠ k := by
        rintro rfl
        exact h l (List.mem_cons_self _ _) v1 hp
      rw [ih (fun x hx => h x (List.mem_cons_of_mem _ hx)) _ m hm]
      exact GoMap.get?_set_ne result k1 k v1 hne
    | error e => rw [hp] at hm; simp [Res.error_bind] at hm
    | panic i n => rw [hp] at hm; simp [Res.panic_bind] at hm

theorem chunkLinesLoop_last (lineParser : lineParserFn) (before after : List GoString)
    (line k : GoString) (v : Value) (hline : lineParser line = .ok (k, v))
    (hafter : ∀ l ∈ after, ∀ v2, lineParser l ≠ .ok (k, v2)) (result m : GoMap)
    (hm : chunkLinesLoop lineParser (before ++ line :: after) result = .ok m) :
    m.get? k = some v := by
  rw [chunkLinesLoop_append] at hm
  cases hb : chunkLinesLoop lineParser before result with
  | ok m1 =>
    rw [hb, Res.ok_bind] at hm
    simp only [chunkLinesLoop] at hm
    rw [hline, Res.ok_bind] at hm
    rw [chunkLinesLoop_get? lineParser k after hafter _ m hm]
    exact GoMap.get?_set_self m1 k v
  | error e => rw [hb] at hm; simp [Res.error_bind] at hm
  | panic i n => rw [hb] at hm; simp [Res.panic_bind] at hm

theorem createMapParser_eq (lineParser : lineParserFn) (data : GoString) :
    createMapParser lineParser ⟨data, none⟩
      = mapParserLoop lineParser (linesBeforeEmpty (Split data (B "\n"))) GoMap.empty
          >>= fun m => .ok (some m) := by
  simp only [createMapParser, ReadAll, Res.ok_bind, Res.pure_eq]
  rw [mapParserLoop_takeWhile]

theorem linesBeforeEmpty_ne (lines : List GoString) :
    ∀ l ∈ linesBeforeEmpty lines, l ≠ [] := by
  intro l hl
  have h := List.mem_takeWhile_imp hl
  simpa using h

theorem createMapParser_before_empty (lineParser : lineParserFn) (data : GoString) :
    createMapParser lineParser ⟨data, none⟩
      = createMapParser lineParser
          ⟨joinLines (linesBeforeEmpty (Split data (B "\n"))), none⟩ := by
  have enl : B "\n" = [0x0A] := by decide
  rw [createMapParser_eq, createMapParser_eq]
  congr 2
  rw [enl]
  by_cases hpre : linesBeforeEmpty (Split data [0x0A]) = []
  · rw [hpre]; rfl
  · rw [Split_joinLines _ hpre]
    · symm
      unfold linesBeforeEmpty
      rw [List.takeWhile_eq_self_iff]
      intro l hl
      simpa using linesBeforeEmpty_ne _ l hl
    · intro l hl
      exact Split_pieces 0x0A data l (List.takeWhile_sublist _ |>.subset hl)

theorem createMapParser_cut (lineParser : lineParserFn) (a b : GoString) :
    createMapParser lineParser ⟨a ++ B "\n\n" ++ b, none⟩
      = createMapParser lineParser ⟨a, none⟩ := by
  have enl : B "\n" = [0x0A] := by decide
  have enl2 : B "\n\n" = [0x0A, 0x0A] := by decide
  simp only [createMapParser, ReadAll, Res.ok_bind, Res.pure_eq]
  have e : Split (a ++ B "\n\n" ++ b) (B "\n") = Split a (B "\n") ++ [] :: Split b (B "\n") := by
    rw [enl, enl2]
    have e1 : a ++ [0x0A, 0x0A] ++ b = a ++ 0x0A :: ([] ++ 0x0A :: b) := by simp
    rw [e1, Split_append, Split_append]
    rfl
  rw [e, mapParserLoop_cut]

/-- C22.  For every line parser and every input, the map parser built by
`createMapParser` returns what it returns on the text made of the lines before the
first empty line only; whatever is appended to an input after an empty line changes
nothing, neither the mapping nor the error; and when the parse succeeds, a key holds
the value of the last line, among the lines before the first empty line, that the
line parser gave this key. -/
theorem createMapParser_stops_at_empty_line (lineParser : lineParserFn) (data : GoString)
    (fail : Option GoError) :
    createMapParser lineParser ⟨data, fail⟩
        = createMapParser lineParser
            ⟨joinLines (linesBeforeEmpty (Split data (B "\n"))), fail⟩
    ∧ (∀ rest : GoString,
        createMapParser lineParser ⟨data ++ B "\n\n" ++ rest, fail⟩
          = createMapParser lineParser ⟨data, fail⟩)
    ∧ (∀ (m : GoMap) (before after : List GoString) (line k : GoString) (v : Value),
        createMapParser lineParser ⟨data, fail⟩ = .ok (some m) →
        linesBeforeEmpty (Split data (B "\n")) = before ++ line :: after →
        lineParser line = .ok (k, v) →
        (∀ l ∈ after, ∀ v2, lineParser l ≠ .ok (k, v2)) →
        m.get? k = some v) := by
  cases fail with
  | some e =>
    refine ⟨rfl, fun _ => rfl, ?_⟩
    intro m before after line k v hm
    simp [createMapParser, ReadAll, Res.error_bind] at hm
  | none =>
    refine ⟨createMapParser_before_empty lineParser data,
      fun rest => createMapParser_cut lineParser data rest, ?_⟩
    intro m before after line k v hm hsplit hline hafter
    rw [createMapParser_eq,
      mapParserLoop_eq_chunkLinesLoop lineParser _ (linesBeforeEmpty_ne _), hsplit] at hm
    cases hc : chunkLinesLoop lineParser (before ++ line :: after) GoMap.empty with
    | ok m1 =>
      rw [hc, Res.ok_bind] at hm
      have e : m1 = m := by
        simp only [Res.ok.injEq, Option.some.injEq] at hm
        exact hm
      subst e
      exact chunkLinesLoop_last lineParser before after line k v hline hafter _ m1 hc
    | error e => rw [hc] at hm; simp [Res.error_bind] at hm
    | panic i n => rw [hc] at hm; simp [Res.panic_bind] at hm

/-- Witness of C22: the per-process io parser on a text of three lines, an empty line
and a line that the parser would refuse; the key "a" is on the first two lines. -/
theorem createMapParser_stops_at_empty_line_witness :
    createMapParser
        (createLineParser Options.zero (fun s => s) splitLineByColon parseProcPidIoValue)
        ⟨B "a: 1\na: 3\nb: 2\n\nc: x\n", none⟩
      = .ok (some [(B "a", Value.int 3), (B "b", Value.int 2)])
    ∧ linesBeforeEmpty (Split (B "a: 1\na: 3\nb: 2\n\nc: x\n") (B "\n"))
      = [B "a: 1"] ++ B "a: 3" :: [B "b: 2"]
    ∧ (createLineParser Options.zero (fun s => s) splitLineByColon parseProcPidIoValue
        (B "c: x")).isOk = false
    ∧ GoMap.get? [(B "a", Value.int 3), (B "b", Value.int 2)] (B "a")
      = some (Value.int 3) := by
  have hm : createMapParser
      (createLineParser Options.zero (fun s => s) splitLineByColon parseProcPidIoValue)
      ⟨B "a: 1\na: 3\nb: 2\n\nc: x\n", none⟩
      = .ok (some [(B "a", Value.int 3), (B "b", Value.int 2)]) := by rfl
  have hs : linesBeforeEmpty (Split (B "a: 1\na: 3\nb: 2\n\nc: x\n") (B "\n"))
      = [B "a: 1"] ++ B "a: 3" :: [B "b: 2"] := by decide
  refine ⟨hm, hs, by rfl, ?_⟩
  refine (createMapParser_stops_at_empty_line
    (createLineParser Options.zero (fun s => s) splitLineByColon parseProcPidIoValue)
    (B "a: 1\na: 3\nb: 2\n\nc: x\n") none).2.2 _ [B "a: 1"] [B "b: 2"] (B "a: 3") (B "a")
    (Value.int 3) hm hs (by rfl) ?_
  intro l hl v2 h
  rw [List.mem_singleton] at hl
  subst hl
  have e : createLineParser Options.zero (fun s => s) splitLineByColon parseProcPidIoValue
      (B "b: 2") = .ok (B "b", Value.int 2) := by rfl
  rw [e] at h
  simp only [Res.ok.injEq, Prod.mk.injEq] at h
  exact absurd h.1 (by decide)

/-! ## C23: normalizing a key twice -/

theorem lowerASCII_toNat (c : UInt8) :
    (lowerASCII c).toNat
      = if 0x41 ≤ c.toNat ∧ c.toNat ≤ 0x5A then c.toNat + 0x20 else c.toNat := by
  unfold lowerASCII
  have h1 : (0x41 ≤ c) ↔ 0x41 ≤ c.toNat := by
    rw [UInt8.le_def]; rfl
  have h2 : (c ≤ 0x5A) ↔ c.toNat ≤ 0x5A := by
    rw [UInt8.le_def]; rfl
  simp only [h1, h2]
  split
  · have e : (c + 0x20).toNat = (c.toNat + 0x20) % 256 := by
      simp [UInt8.toNat_add]
    rw [e]; omega
  · rfl

theorem lowerASCII_lowerASCII (c : UInt8) : lowerASCII (lowerASCII c) = lowerASCII c := by
  apply UInt8.ext
  rw [lowerASCII_toNat (lowerASCII c), lowerASCII_toNat c]
  split_ifs <;> omega

theorem lowerASCII_lt_iff (c : UInt8) : lowerASCII c < 0x80 ↔ c < 0x80 := by
  have h1 : (lowerASCII c < 0x80) ↔ (lowerASCII c).toNat < 0x80 := by
    rw [UInt8.lt_def]; rfl
  have h2 : (c < 0x80) ↔ c.toNat < 0x80 := by
    rw [UInt8.lt_def]; rfl
  rw [h1, h2, lowerASCII_toNat]
  split_ifs <;> omega

theorem lowerASCII_ne (c b : UInt8) (hb : b.toNat < 0x61) (h : c ≠ b) : lowerASCII c ≠ b := by
  intro e
  have e2 := congrArg UInt8.toNat e
  rw [lowerASCII_toNat] at e2
  apply h
  apply UInt8.ext
  split_ifs at e2 <;> omega

theorem all_lt_map_lowerASCII (s : GoString) :
    (s.map lowerASCII).all (fun c => c < 0x80) = s.all (fun c => c < 0x80) := by
  induction s with
  | nil => rfl
  | cons c cs ih =>
    simp only [List.map_cons, List.all_cons, ih]
    congr 1
    exact decide_eq_decide.2 (lowerASCII_lt_iff c)

theorem map_lowerASCII_idem (s : GoString) :
    (s.map lowerASCII).map lowerASCII = s.map lowerASCII := by
  rw [List.map_map]
  exact List.map_congr_left (fun c _ => lowerASCII_lowerASCII c)

theorem hasNoSpaceOrParen_map_lowerASCII (s : GoString) (h : hasNoSpaceOrParen s = true) :
    hasNoSpaceOrParen (s.map lowerASCII) = true := by
  unfold hasNoSpaceOrParen at h ⊢
  rw [List.all_eq_true] at h ⊢
  intro x hx
  obtain ⟨c, hc, rfl⟩ := List.mem_map.1 hx
  have hc2 := h c hc
  simp only [decide_eq_true_eq] at hc2 ⊢
  exact ⟨lowerASCII_ne c 0x20 (by decide) hc2.1, lowerASCII_ne c 0x28 (by decide) hc2.2.1,
    lowerASCII_ne c 0x29 (by decide) hc2.2.2⟩

theorem hasNoSpaceOrParen_replaced (key : GoString) :
    hasNoSpaceOrParen (key.flatMap
      (fun c => if c = 0x20 ∨ c = 0x28 then [0x5F] else if c = 0x29 then [] else [c]))
      = true := by
  unfold hasNoSpaceOrParen
  rw [List.all_eq_true]
  intro x hx
  obtain ⟨c, _, hxc⟩ := List.mem_flatMap.1 hx
  simp only [decide_eq_true_eq]
  by_cases h1 : c = 0x20 ∨ c = 0x28
  · rw [if_pos h1, List.mem_singleton] at hxc
    subst hxc; decide
  · rw [if_neg h1] at hxc
    by_cases h2 : c = 0x29
    · rw [if_pos h2] at hxc; simp at hxc
    · rw [if_neg h2, List.mem_singleton] at hxc
      subst hxc
      exact ⟨fun e => h1 (Or.inl e), fun e => h1 (Or.inr e), h2⟩

theorem replaced_of_hasNoSpaceOrParen (s : GoString) (h : hasNoSpaceOrParen s = true) :
    s.flatMap (fun c => if c = 0x20 ∨ c = 0x28 then [0x5F] else if c = 0x29 then [] else [c])
      = s := by
  induction s with
  | nil => rfl
  | cons c cs ih =>
    unfold hasNoSpaceOrParen at h ih
    simp only [List.all_cons, Bool.and_eq_true, decide_eq_true_eq] at h
    obtain ⟨⟨h1, h2, h3⟩, hcs⟩ := h
    have h12 : ¬ (c = 0x20 ∨ c = 0x28) := fun e => e.elim h1 h2
    rw [List.flatMap_cons, if_neg h12, if_neg h3, ih hcs]
    rfl

theorem all_lt_replaced (key : GoString) (h : key.all (fun c => c < 0x80) = true) :
    (key.flatMap
      (fun c => if c = 0x20 ∨ c = 0x28 then [0x5F] else if c = 0x29 then [] else [c])).all
      (fun c => c < 0x80) = true := by
  rw [List.all_eq_true] at h ⊢
  intro x hx
  obtain ⟨c, hc, hxc⟩ := List.mem_flatMap.1 hx
  by_cases h1 : c = 0x20 ∨ c = 0x28
  · rw [if_pos h1, List.mem_singleton] at hxc
    subst hxc; decide
  · rw [if_neg h1] at hxc
    by_cases h2 : c = 0x29
    · rw [if_pos h2] at hxc; simp at hxc
    · rw [if_neg h2, List.mem_singleton] at hxc
      subst hxc
      exact h x hc

theorem makeQueryFriendly_of_clean (unicodeLower : GoString → GoString) (s : GoString)
    (h : hasNoSpaceOrParen s = true) :
    makeQueryFriendly unicodeLower s = ToLower unicodeLower s := by
  unfold makeQueryFriendly
  rw [replace_three, replaced_of_hasNoSpaceOrParen s h]

theorem ToLower_ascii (unicodeLower : GoString → GoString) (s : GoString)
    (h : s.all (fun c => c < 0x80) = true) :
    ToLower unicodeLower s = s.map lowerASCII := by
  unfold ToLower
  rw [if_pos h]

theorem ToLower_ToLower_ascii (unicodeLower : GoString → GoString) (s : GoString)
    (h : s.all (fun c => c < 0x80) = true) :
    ToLower unicodeLower (ToLower unicodeLower s) = ToLower unicodeLower s := by
  rw [ToLower_ascii unicodeLower s h,
    ToLower_ascii unicodeLower _ ((all_lt_map_lowerASCII s).trans h), map_lowerASCII_idem]

/-- Idempotence and cleanness of `makeQueryFriendly` for any lower-casing of the texts
with a byte outside ASCII: outright for a key of ASCII bytes, and for the other keys from
the two properties `lowerKeepsClean` and `lowerIdempotent` of the lower-casing. -/
theorem makeQueryFriendly_idempotent_of (unicodeLower : GoString → GoString) (key : GoString) :
    (key.all (fun c => c < 0x80) = true →
      makeQueryFriendly unicodeLower (makeQueryFriendly unicodeLower key)
          = makeQueryFriendly unicodeLower key
        ∧ hasNoSpaceOrParen (makeQueryFriendly unicodeLower key) = true)
    ∧ (lowerKeepsClean unicodeLower →
      hasNoSpaceOrParen (makeQueryFriendly unicodeLower key) = true
        ∧ (lowerIdempotent unicodeLower →
          makeQueryFriendly unicodeLower (makeQueryFriendly unicodeLower key)
            = makeQueryFriendly unicodeLower key)) := by
  have hr := hasNoSpaceOrParen_replaced key
  have hclean : (key.all (fun c => c < 0x80) = true ∨ lowerKeepsClean unicodeLower) →
      hasNoSpaceOrParen (makeQueryFriendly unicodeLower key) = true := by
    intro h
    unfold makeQueryFriendly
    rw [replace_three]
    unfold ToLower
    split
    · exact hasNoSpaceOrParen_map_lowerASCII _ hr
    · rename_i hna
      rcases h with h | h
      · exact absurd (all_lt_replaced key h) hna
      · exact h _ (by simpa using hna) hr
  have hidem : (key.all (fun c => c < 0x80) = true
        ∨ (lowerKeepsClean unicodeLower ∧ lowerIdempotent unicodeLower)) →
      makeQueryFriendly unicodeLower (makeQueryFriendly unicodeLower key)
        = makeQueryFriendly unicodeLower key := by
    intro h
    have hc : hasNoSpaceOrParen (makeQueryFriendly unicodeLower key) = true :=
      hclean (h.imp id And.left)
    rw [makeQueryFriendly_of_clean unicodeLower _ hc]
    unfold makeQueryFriendly
    rw [replace_three]
    by_cases ha : (key.flatMap (fun c =>
        if c = 0x20 ∨ c = 0x28 then [0x5F] else if c = 0x29 then [] else [c])).all
        (fun c => c < 0x80) = true
    · exact ToLower_ToLower_ascii unicodeLower _ ha
    · rcases h with h | h
      · exact absurd (all_lt_replaced key h) ha
      · have ha2 : (key.flatMap (fun c =>
            if c = 0x20 ∨ c = 0x28 then [0x5F] else if c = 0x29 then [] else [c])).all
            (fun c => c < 0x80) = false := by simpa using ha
        have e : ToLower unicodeLower (key.flatMap (fun c =>
            if c = 0x20 ∨ c = 0x28 then [0x5F] else if c = 0x29 then [] else [c]))
            = unicodeLower (key.flatMap (fun c =>
            if c = 0x20 ∨ c = 0x28 then [0x5F] else if c = 0x29 then [] else [c])) := by
          unfold ToLower
          rw [if_neg ha]
        rw [e]
        exact h.2 _ ha2
  exact ⟨fun h => ⟨hidem (Or.inl h), hclean (Or.inl h)⟩,
    fun h => ⟨hclean (Or.inr h), fun h2 => hidem (Or.inr ⟨h, h2⟩)⟩⟩

theorem toNat_ofNat_lt (x : Nat) (h : x < 256) : (UInt8.ofNat x).toNat = x := by
  show x % 256 = x
  exact Nat.mod_eq_of_lt h

theorem mapAux_eq_runesAux (mapping : Nat → Nat) (s : GoString) : ∀ skip : Nat,
    mapAux mapping skip s = ((runesAux skip s).map mapping).flatMap EncodeRune := by
  induction s with
  | nil => intro skip; cases skip <;> rfl
  | cons c cs ih =>
    intro skip
    cases skip with
    | zero => simp only [mapAux, runesAux, List.map_cons, List.flatMap_cons, ih]
    | succ k => simp only [mapAux, runesAux, ih]

theorem Map_eq_runes (mapping : Nat → Nat) (s : GoString) :
    Map mapping s = ((runes s).map mapping).flatMap EncodeRune :=
  mapAux_eq_runesAux mapping s 0

theorem validRune_iff (r : Nat) :
    validRune r = true ↔ r < 0xD800 ∨ (0xE000 ≤ r ∧ r < 0x110000) := by
  simp [validRune]

theorem decode2_spec (p0 b1 : Nat) (h1 : 0xC2 ≤ p0) (h2 : p0 < 0xE0) :
    validRune (decode2 p0 b1).1 = true ∧ 0x80 ≤ (decode2 p0 b1).1
      ∧ 1 ≤ (decode2 p0 b1).2 := by
  rw [validRune_iff]
  unfold decode2
  split_ifs
  · dsimp only; omega
  · exact ⟨by decide, by decide, by decide⟩

theorem decode3_spec (p0 b1 b2 : Nat) (h1 : 0xE0 ≤ p0) (h2 : p0 < 0xF0) :
    validRune (decode3 p0 b1 b2).1 = true ∧ 0x80 ≤ (decode3 p0 b1 b2).1
      ∧ 1 ≤ (decode3 p0 b1 b2).2 := by
  rw [validRune_iff]
  unfold decode3
  split_ifs
  all_goals
    dsimp only [RuneError]
    omega

theorem decode4_spec (p0 b1 b2 b3 : Nat) (h1 : 0xF0 ≤ p0) (h2 : p0 < 0xF5) :
    validRune (decode4 p0 b1 b2 b3).1 = true ∧ 0x80 ≤ (decode4 p0 b1 b2 b3).1
      ∧ 1 ≤ (decode4 p0 b1 b2 b3).2 := by
  rw [validRune_iff]
  unfold decode4
  split_ifs
  all_goals
    dsimp only [RuneError]
    omega

/-- What `DecodeRune` returns on a text that is not empty is a scalar value of width at
least 1, and it is below 0x80 only as the value of the first byte. -/
theorem DecodeRune_cons_spec (p0 : UInt8) (rest : GoString) :
    validRune (DecodeRune (p0 :: rest)).1 = true
    ∧ ((DecodeRune (p0 :: rest)).1 < 0x80 → p0.toNat = (DecodeRune (p0 :: rest)).1)
    ∧ 1 ≤ (DecodeRune (p0 :: rest)).2 := by
  have hre : validRune (RuneError, 1).1 = true
      ∧ ((RuneError, 1).1 < 0x80 → p0.toNat = (RuneError, 1).1)
      ∧ 1 ≤ ((RuneError, 1) : Nat × Nat).2 :=
    ⟨by decide, fun h => absurd h (by decide), by decide⟩
  unfold DecodeRune
  dsimp only
  split_ifs with h1 h2 h3 h4 h5
  · exact ⟨(validRune_iff _).2 (Or.inl (by dsimp only; omega)), fun _ => rfl, Nat.le_refl 1⟩
  · exact hre
  · rcases rest with _ | ⟨b1, rest1⟩
    · exact hre
    · have h := decode2_spec p0.toNat b1.toNat (by omega) h3
      exact ⟨h.1, fun hlt => absurd h.2.1 (Nat.not_le.2 hlt), h.2.2⟩
  · rcases rest with _ | ⟨b1, _ | ⟨b2, rest2⟩⟩
    · exact hre
    · exact hre
    · have h := decode3_spec p0.toNat b1.toNat b2.toNat (by omega) h4
      exact ⟨h.1, fun hlt => absurd h.2.1 (Nat.not_le.2 hlt), h.2.2⟩
  · rcases rest with _ | ⟨b1, _ | ⟨b2, _ | ⟨b3, rest3⟩⟩⟩
    · exact hre
    · exact hre
    · exact hre
    · have h := decode4_spec p0.toNat b1.toNat b2.toNat b3.toNat (by omega) h5
      exact ⟨h.1, fun hlt => absurd h.2.1 (Nat.not_le.2 hlt), h.2.2⟩
  · exact hre

theorem runesAux_valid (s : GoString) : ∀ skip : Nat,
    ∀ r ∈ runesAux skip s, validRune r = true := by
  induction s with
  | nil => intro skip r hr; cases skip <;> simp [runesAux] at hr
  | cons c cs ih =>
    intro skip r hr
    cases skip with
    | zero =>
      simp only [runesAux, List.mem_cons] at hr
      rcases hr with h | h
      · rw [h]; exact (DecodeRune_cons_spec c cs).1
      · exact ih _ r h
    | succ k =>
      simp only [runesAux] at hr
      exact ih k r hr

/-- A character below 0x80 among the characters of a text is one of its bytes. -/
theorem runesAux_ascii (s : GoString) : ∀ skip : Nat,
    ∀ r ∈ runesAux skip s, r < 0x80 → ∃ c ∈ s, c.toNat = r := by
  induction s with
  | nil => intro skip r hr; cases skip <;> simp [runesAux] at hr
  | cons c cs ih =>
    intro skip r hr hlt
    cases skip with
    | zero =>
      simp only [runesAux, List.mem_cons] at hr
      rcases hr with h | h
      · rw [h] at hlt
        exact ⟨c, List.mem_cons_self _ _, by rw [h]; exact (DecodeRune_cons_spec c cs).2.1 hlt⟩
      · obtain ⟨x, hx, hxr⟩ := ih _ r h hlt
        exact ⟨x, List.mem_cons_of_mem _ hx, hxr⟩
    | succ k =>
      simp only [runesAux] at hr
      obtain ⟨x, hx, hxr⟩ := ih k r hr hlt
      exact ⟨x, List.mem_cons_of_mem _ hx, hxr⟩

theorem runesAux_skip (pre rest : GoString) :
    runesAux pre.length (pre ++ rest) = runesAux 0 rest := by
  induction pre with
  | nil => rfl
  | cons c cs ih =>
    simp only [List.length_cons, List.cons_append, runesAux]
    exact ih

/-- The bytes of the encoding of a character: the character itself below 0x80, bytes
from 0x80 on otherwise. -/
theorem EncodeRune_bytes (r : Nat) :
    (r < 0x80 → EncodeRune r = [UInt8.ofNat r])
    ∧ (0x80 ≤ r → ∀ b ∈ EncodeRune r, 0x80 ≤ b.toNat) := by
  constructor
  · intro h; simp [EncodeRune, h]
  · intro h b hb
    unfold EncodeRune at hb
    rw [if_neg (by omega)] at hb
    split_ifs at hb
    all_goals
      simp only [List.mem_cons, List.mem_singleton, List.not_mem_nil, or_false] at hb
    · rcases hb with e | e <;> rw [e, toNat_ofNat_lt _ (by omega)] <;> omega
    · rcases hb with e | e | e <;> rw [e] <;> decide
    · rcases hb with e | e | e <;> rw [e, toNat_ofNat_lt _ (by omega)] <;> omega
    · rcases hb with e | e | e | e <;> rw [e, toNat_ofNat_lt _ (by omega)] <;> omega

/-- Decoding the encoding of a scalar value gives the value and the width of the
encoding, whatever follows. -/
theorem DecodeRune_EncodeRune (r : Nat) (hr : validRune r = true) (rest : GoString) :
    DecodeRune (EncodeRune r ++ rest) = (r, (EncodeRune r).length) := by
  rw [validRune_iff] at hr
  unfold EncodeRune
  split_ifs with h1 h2 h3 h4
  · unfold DecodeRune
    simp only [List.singleton_append, toNat_ofNat_lt r (by omega), if_pos h1,
      List.length_singleton]
  · have e0 := toNat_ofNat_lt (0xC0 + r / 64) (by omega)
    have e1 := toNat_ofNat_lt (0x80 + r % 64) (by omega)
    unfold DecodeRune
    simp only [List.cons_append, List.nil_append, e0, e1, List.length_cons, List.length_nil]
    rw [if_neg (by omega), if_neg (by omega), if_pos (by omega)]
    unfold decode2
    rw [if_pos (by omega)]
    congr 1
    omega
  · omega
  · have e0 := toNat_ofNat_lt (0xE0 + r / 4096) (by omega)
    have e1 := toNat_ofNat_lt (0x80 + r / 64 % 64) (by omega)
    have e2 := toNat_ofNat_lt (0x80 + r % 64) (by omega)
    unfold DecodeRune
    simp only [List.cons_append, List.nil_append, e0, e1, e2, List.length_cons,
      List.length_nil]
    rw [if_neg (by omega), if_neg (by omega), if_neg (by omega), if_pos (by omega)]
    unfold decode3
    rw [if_pos (by
      refine ⟨?_, ?_, ?_, ?_⟩
      · split_ifs <;> omega
      · split_ifs <;> omega
      · omega
      · omega)]
    congr 1
    omega
  · have e0 := toNat_ofNat_lt (0xF0 + r / 262144) (by omega)
    have e1 := toNat_ofNat_lt (0x80 + r / 4096 % 64) (by omega)
    have e2 := toNat_ofNat_lt (0x80 + r / 64 % 64) (by omega)
    have e3 := toNat_ofNat_lt (0x80 + r % 64) (by omega)
    unfold DecodeRune
    simp only [List.cons_append, List.nil_append, e0, e1, e2, e3, List.length_cons,
      List.length_nil]
    rw [if_neg (by omega), if_neg (by omega), if_neg (by omega), if_neg (by omega),
      if_pos (by omega)]
    unfold decode4
    rw [if_pos (by
      refine ⟨?_, ?_, ?_, ?_, ?_, ?_⟩
      · split_ifs <;> omega
      · split_ifs <;> omega
      · omega
      · omega
      · omega
      · omega)]
    congr 1
    omega

theorem EncodeRune_ne_nil (r : Nat) : EncodeRune r ≠ [] := by
  unfold EncodeRune
  split_ifs <;> simp

/-- The characters of a text made of the encodings of scalar values are these values. -/
theorem runes_flatMap_EncodeRune (rs : List Nat) (h : ∀ r ∈ rs, validRune r = true) :
    runes (rs.flatMap EncodeRune) = rs := by
  induction rs with
  | nil => rfl
  | cons r rest ih =>
    have hr := h r (List.mem_cons_self _ _)
    have hd := DecodeRune_EncodeRune r hr (rest.flatMap EncodeRune)
    rw [List.flatMap_cons]
    obtain ⟨c, tail, hc⟩ := List.exists_cons_of_ne_nil (EncodeRune_ne_nil r)
    rw [hc] at hd ⊢
    unfold runes
    simp only [List.cons_append] at hd ⊢
    simp only [runesAux, hd, List.length_cons, Nat.add_sub_cancel]
    rw [runesAux_skip]
    congr 1
    exact ih (fun x hx => h x (List.mem_cons_of_mem _ hx))

theorem caseTableOk_true : caseTableOk = true := by decide!

theorem apart_iff (lo hi lo2 hi2 : Nat) : apart lo hi lo2 hi2 = true ↔ hi < lo2 ∨ hi2 < lo := by
  simp [apart, Nat.blt_eq]

theorem lookupLowerRun_some (l : List (Nat × Nat × Nat)) (r x : Nat)
    (h : lookupLowerRun l r = some x) :
    ∃ e ∈ l, e.1 ≤ r ∧ r ≤ e.2.1 ∧ x = e.2.2 + (r - e.1) := by
  induction l with
  | nil => simp [lookupLowerRun] at h
  | cons e rest ih =>
    obtain ⟨lo, hi, img⟩ := e
    simp only [lookupLowerRun] at h
    split_ifs at h with hc
    · simp only [Option.some.injEq] at h
      exact ⟨(lo, hi, img), List.mem_cons_self _ _, hc.1, hc.2, h.symm⟩
    · obtain ⟨e, he, h1⟩ := ih h
      exact ⟨e, List.mem_cons_of_mem _ he, h1⟩

theorem lookupLowerRun_none (l : List (Nat × Nat × Nat)) (x : Nat)
    (h : ∀ f ∈ l, ¬ (f.1 ≤ x ∧ x ≤ f.2.1)) : lookupLowerRun l x = none := by
  induction l with
  | nil => rfl
  | cons e rest ih =>
    obtain ⟨lo, hi, img⟩ := e
    simp only [lookupLowerRun]
    rw [if_neg (h (lo, hi, img) (List.mem_cons_self _ _))]
    exact ih (fun f hf => h f (List.mem_cons_of_mem _ hf))

theorem lookupUpperLowerRun_some (l : List (Nat × Nat)) (r x : Nat)
    (h : lookupUpperLowerRun l r = some x) :
    ∃ g ∈ l, g.1 ≤ r ∧ r ≤ g.2 ∧ x = (if (r - g.1) % 2 = 0 then r + 1 else r) := by
  induction l with
  | nil => simp [lookupUpperLowerRun] at h
  | cons e rest ih =>
    obtain ⟨lo, hi⟩ := e
    simp only [lookupUpperLowerRun] at h
    split_ifs at h with hc
    · simp only [Option.some.injEq] at h
      exact ⟨(lo, hi), List.mem_cons_self _ _, hc.1, hc.2, by rw [← h, if_pos ‹_›]⟩
    · simp only [Option.some.injEq] at h
      exact ⟨(lo, hi), List.mem_cons_self _ _, hc.1, hc.2, by rw [← h, if_neg ‹_›]⟩
    · obtain ⟨g, hg, h1⟩ := ih h
      exact ⟨g, List.mem_cons_of_mem _ hg, h1⟩

theorem lookupUpperLowerRun_none (l : List (Nat × Nat)) (x : Nat)
    (h : ∀ g ∈ l, ¬ (g.1 ≤ x ∧ x ≤ g.2)) : lookupUpperLowerRun l x = none := by
  induction l with
  | nil => rfl
  | cons e rest ih =>
    obtain ⟨lo, hi⟩ := e
    simp only [lookupUpperLowerRun]
    rw [if_neg (h (lo, hi) (List.mem_cons_self _ _))]
    exact ih (fun g hg => h g (List.mem_cons_of_mem _ hg))

/-- In a list of runs that meet no other run of the list, the lookup of a character of
a run answers from this run. -/
theorem lookupUpperLowerRun_of_mem (l : List (Nat × Nat)) (g : Nat × Nat) (x : Nat)
    (hg : g ∈ l) (hx : g.1 ≤ x ∧ x ≤ g.2)
    (hap : ∀ g2 ∈ l, (g.1 = g2.1 ∧ g.2 = g2.2) ∨ g.2 < g2.1 ∨ g2.2 < g.1) :
    lookupUpperLowerRun l x = some (if (x - g.1) % 2 = 0 then x + 1 else x) := by
  induction l with
  | nil => simp at hg
  | cons e rest ih =>
    obtain ⟨lo, hi⟩ := e
    simp only [lookupUpperLowerRun]
    rcases hap (lo, hi) (List.mem_cons_self _ _) with ⟨e1, e2⟩ | h2
    · have e1b : g.1 = lo := e1
      have e2b : g.2 = hi := e2
      rw [if_pos (by omega), e1b]
    · have h2b : g.2 < lo ∨ hi < g.1 := h2
      rw [if_neg (by omega)]
      rcases List.mem_cons.1 hg with e | e
      · rw [e] at h2b
        have h2c : hi < lo ∨ hi < lo := h2b
        rw [e] at hx
        have hx2 : lo ≤ x ∧ x ≤ hi := hx
        omega
      · exact ih e (fun g2 hg2 => hap g2 (List.mem_cons_of_mem _ hg2))

/-- The lower-case form of a character is a scalar value when the character is, it is
its own lower-case form, and it is a space or a parenthesis only when the character is
that space or parenthesis. -/
theorem unicodeToLower_spec (r : Nat) :
    (validRune r = true → validRune (unicodeToLower r) = true)
    ∧ unicodeToLower (unicodeToLower r) = unicodeToLower r
    ∧ ((unicodeToLower r = 0x20 ∨ unicodeToLower r = 0x28 ∨ unicodeToLower r = 0x29) →
        unicodeToLower r = r) := by
  have hok := caseTableOk_true
  simp only [caseTableOk, Bool.and_eq_true, List.all_eq_true] at hok
  obtain ⟨hlow, hul⟩ := hok
  by_cases hr : r ≤ 0x7F
  · have e : unicodeToLower r = if 0x41 ≤ r ∧ r ≤ 0x5A then r + 32 else r := by
      simp only [unicodeToLower, if_pos hr]
    rw [e]
    split_ifs with hc
    · refine ⟨fun _ => (validRune_iff _).2 (Or.inl (by omega)), ?_, fun h => by omega⟩
      simp only [unicodeToLower]
      rw [if_pos (by omega), if_neg (by omega)]
    · refine ⟨fun h => h, ?_, fun _ => rfl⟩
      simp only [unicodeToLower, if_pos hr, if_neg hc]
  · cases h1 : lookupLowerRun lowerRuns r with
    | some x =>
      have e : unicodeToLower r = x := by
        simp only [unicodeToLower, if_neg hr, h1]
      obtain ⟨f, hf, hlo, hhi, hx⟩ := lookupLowerRun_some _ _ _ h1
      have hfok := hlow f hf
      simp only [lowerRunOk, imageOk, Bool.and_eq_true, Bool.or_eq_true, Nat.ble_eq,
        Nat.blt_eq, List.all_eq_true, apart_iff] at hfok
      obtain ⟨⟨_, _⟩, ⟨⟨hval, habove⟩, hnl⟩, hnu⟩ := hfok
      have hfix : unicodeToLower x = x := by
        have n1 : lookupLowerRun lowerRuns x = none :=
          lookupLowerRun_none _ _ (fun f2 hf2 hc => by
            have := hnl f2 hf2
            omega)
        have n2 : lookupUpperLowerRun upperLowerRuns x = none :=
          lookupUpperLowerRun_none _ _ (fun g hg hc => by
            have := hnu g hg
            omega)
        unfold unicodeToLower
        by_cases hx7 : x ≤ 0x7F
        · rw [if_pos hx7, if_neg (by omega)]
        · rw [if_neg hx7, n1]
          simp only [n2, Option.getD_none]
      rw [e]
      exact ⟨fun _ => (validRune_iff _).2 (by omega), hfix, fun h => by omega⟩
    | none =>
      cases h2 : lookupUpperLowerRun upperLowerRuns r with
      | some x =>
        have e : unicodeToLower r = x := by
          simp only [unicodeToLower, if_neg hr, h1, h2, Option.getD_some]
        obtain ⟨g, hg, hlo, hhi, hx⟩ := lookupUpperLowerRun_some _ _ _ h2
        have hgok := hul g hg
        simp only [upperLowerRunOk, Bool.and_eq_true, Bool.or_eq_true, Nat.ble_eq,
          Nat.blt_eq, Nat.beq_eq, List.all_eq_true, apart_iff] at hgok
        obtain ⟨⟨⟨⟨⟨h80, hlt⟩, hodd⟩, hsur⟩, hnl⟩, hnu⟩ := hgok
        have hxin : g.1 ≤ x ∧ x ≤ g.2 ∧ (x - g.1) % 2 = 1 := by
          rw [hx]; split_ifs <;> omega
        have hfix : unicodeToLower x = x := by
          have n1 : lookupLowerRun lowerRuns x = none :=
            lookupLowerRun_none _ _ (fun f2 hf2 hc => by
              have := hnl f2 hf2
              omega)
          have n2 := lookupUpperLowerRun_of_mem upperLowerRuns g x hg ⟨hxin.1, hxin.2.1⟩
            (fun g2 hg2 => by
              have := hnu g2 hg2
              omega)
          unfold unicodeToLower
          rw [if_neg (by omega), n1]
          simp only [n2, Option.getD_some]
          rw [if_neg (by omega)]
        rw [e]
        exact ⟨fun _ => (validRune_iff _).2 (by omega), hfix, fun h => by omega⟩
      | none =>
        have e : unicodeToLower r = r := by
          simp only [unicodeToLower, if_neg hr, h1, h2, Option.getD_none]
        rw [e]
        exact ⟨fun h => h, e, fun _ => rfl⟩

theorem lowerASCII_of_fixed (b : UInt8) (h7 : b.toNat < 0x80)
    (hfix : unicodeToLower b.toNat = b.toNat) : lowerASCII b = b := by
  apply UInt8.ext
  rw [lowerASCII_toNat]
  unfold unicodeToLower at hfix
  rw [if_pos (by omega)] at hfix
  split_ifs at hfix ⊢ <;> omega

/-- The bytes of `strings.Map(unicode.ToLower, s)`: each is a byte of the encoding of
the lower-case form of a character of `s`. -/
theorem mem_mapToLower (s : GoString) (b : UInt8) (hb : b ∈ mapToLower s) :
    ∃ r ∈ runes s, b ∈ EncodeRune (unicodeToLower r) := by
  rw [mapToLower, Map_eq_runes] at hb
  obtain ⟨x, hx, hbx⟩ := List.mem_flatMap.1 hb
  obtain ⟨r, hr, rfl⟩ := List.mem_map.1 hx
  exact ⟨r, hr, hbx⟩

theorem mapToLower_keepsClean : lowerKeepsClean mapToLower := by
  intro s _ hclean
  unfold hasNoSpaceOrParen at hclean ⊢
  rw [List.all_eq_true] at hclean ⊢
  intro b hb
  by_contra hbad
  simp only [decide_eq_true_eq, not_and_or, not_not] at hbad
  obtain ⟨r, hr, hbr⟩ := mem_mapToLower s b hb
  have hb7 : b.toNat < 0x80 := by
    rcases hbad with e | e | e <;> rw [e] <;> decide
  have hl7 : unicodeToLower r < 0x80 := by
    by_contra hge
    have := (EncodeRune_bytes (unicodeToLower r)).2 (by omega) b hbr
    omega
  rw [(EncodeRune_bytes (unicodeToLower r)).1 hl7, List.mem_singleton] at hbr
  have hbn : b.toNat = unicodeToLower r := by
    rw [hbr]; exact toNat_ofNat_lt _ (by omega)
  have hspecial : unicodeToLower r = 0x20 ∨ unicodeToLower r = 0x28
      ∨ unicodeToLower r = 0x29 := by
    rcases hbad with e | e | e
    · left; rw [← hbn, e]; rfl
    · right; left; rw [← hbn, e]; rfl
    · right; right; rw [← hbn, e]; rfl
  have hrr := (unicodeToLower_spec r).2.2 hspecial
  obtain ⟨c, hc, hcr⟩ := runesAux_ascii s 0 r hr (by omega)
  have hcb : c = b := UInt8.ext (by rw [hcr, hbn, hrr])
  have hcok := hclean c hc
  rw [hcb] at hcok
  simp only [decide_eq_true_eq] at hcok
  rcases hbad with e | e | e
  · exact hcok.1 e
  · exact hcok.2.1 e
  · exact hcok.2.2 e

theorem mapToLower_idempotent : lowerIdempotent mapToLower := by
  intro s _
  have hrs : ∀ x ∈ (runes s).map unicodeToLower,
      validRune x = true ∧ unicodeToLower x = x := by
    intro x hx
    obtain ⟨r, hr, rfl⟩ := List.mem_map.1 hx
    exact ⟨(unicodeToLower_spec r).1 (runesAux_valid s 0 r hr), (unicodeToLower_spec r).2.1⟩
  have hL : mapToLower s = ((runes s).map unicodeToLower).flatMap EncodeRune := by
    rw [mapToLower, Map_eq_runes]
  unfold ToLower
  split_ifs with hall
  · rw [List.all_eq_true] at hall
    conv_rhs => rw [← List.map_id (mapToLower s)]
    apply List.map_congr_left
    intro b hb
    have hb7 : b.toNat < 0x80 := by
      have := hall b hb
      simp only [decide_eq_true_eq] at this
      rw [UInt8.lt_def] at this
      exact this
    rw [hL] at hb
    obtain ⟨x, hx, hbx⟩ := List.mem_flatMap.1 hb
    have hx7 : x < 0x80 := by
      by_contra hge
      have := (EncodeRune_bytes x).2 (by omega) b hbx
      omega
    rw [(EncodeRune_bytes x).1 hx7, List.mem_singleton] at hbx
    have hbn : b.toNat = x := by
      rw [hbx]; exact toNat_ofNat_lt _ (by omega)
    simp only [id]
    exact lowerASCII_of_fixed b hb7 (by rw [hbn]; exact (hrs x hx).2)
  · have e1 : runes (mapToLower s) = (runes s).map unicodeToLower := by
      rw [hL]
      exact runes_flatMap_EncodeRune _ (fun x hx => (hrs x hx).1)
    have e2 : ((runes s).map unicodeToLower).map unicodeToLower
        = (runes s).map unicodeToLower := by
      conv_rhs => rw [← List.map_id ((runes s).map unicodeToLower)]
      exact List.map_congr_left (fun x hx => (hrs x hx).2)
    conv_lhs => rw [mapToLower, Map_eq_runes, e1, e2]
    exact hL.symm

/-- C23.  For every key, `makeQueryFriendly` applied to its own result returns that
result, and the result holds no space, no "(" and no ")".  The lower-casing is that of
`strings.ToLower` with the case table of `unicode.ToLower`; a byte of the key that
starts no valid encoding becomes the character U+FFFD, as in the library. -/
theorem makeQueryFriendly_idempotent (key : GoString) :
    makeQueryFriendly mapToLower (makeQueryFriendly mapToLower key)
        = makeQueryFriendly mapToLower key
    ∧ hasNoSpaceOrParen (makeQueryFriendly mapToLower key) = true := by
  have h := (makeQueryFriendly_idempotent_of mapToLower key).2 mapToLower_keepsClean
  exact ⟨h.2 mapToLower_idempotent, h.1⟩

/-- Pinned values of C23: an ASCII key, a key with capital letters outside ASCII, and a
key with a byte that starts no valid encoding. -/
theorem makeQueryFriendly_idempotent_witness :
    makeQueryFriendly mapToLower (B "Cache Size (L2)") = B "cache_size__l2"
    ∧ makeQueryFriendly mapToLower (B "cache_size__l2") = B "cache_size__l2"
    ∧ makeQueryFriendly mapToLower (B "ÄRGER (Ω)") = B "ärger__ω"
    ∧ makeQueryFriendly mapToLower (B "ärger__ω") = B "ärger__ω"
    ∧ makeQueryFriendly mapToLower [0xFF, 0x41, 0x20] = [0xEF, 0xBF, 0xBD, 0x61, 0x5F]
    ∧ makeQueryFriendly mapToLower (makeQueryFriendly mapToLower (B "ÄRGER (Ω)"))
        = makeQueryFriendly mapToLower (B "ÄRGER (Ω)")
    ∧ hasNoSpaceOrParen (makeQueryFriendly mapToLower (B "ÄRGER (Ω)")) = true :=
  ⟨by decide, by decide, by decide, by decide, by decide,
   (makeQueryFriendly_idempotent (B "ÄRGER (Ω)")).1,
   (makeQueryFriendly_idempotent (B "ÄRGER (Ω)")).2⟩

/-! ## C5: what `makeQueryFriendly` returns -/

theorem ofNat_toNat (c : UInt8) : UInt8.ofNat c.toNat = c :=
  UInt8.ext (toNat_ofNat_lt _ c.toNat_lt)

theorem replaceByteSpec_eq :
    (fun c : UInt8 => if c = 0x20 ∨ c = 0x28 then [0x5F] else if c = 0x29 then [] else [c])
      = replaceByteSpec := rfl

/-- Lower-casing the replacement of one byte gives `normalizeByteSpec` of the byte. -/
theorem map_lowerASCII_replaceByteSpec (c : UInt8) :
    (replaceByteSpec c).map lowerASCII = normalizeByteSpec c := by
  unfold replaceByteSpec normalizeByteSpec
  by_cases h1 : c = 0x20 ∨ c = 0x28
  · rw [if_pos h1, if_pos h1]; rfl
  · rw [if_neg h1, if_neg h1]
    by_cases h2 : c = 0x29
    · rw [if_pos h2, if_pos h2]; rfl
    · rw [if_neg h2, if_neg h2, List.map_singleton]
      have ht := lowerASCII_toNat c
      split_ifs with h3
      · rw [if_pos h3] at ht
        congr 1
        apply UInt8.ext
        rw [ht, toNat_ofNat_lt _ (by omega)]
      · rw [if_neg h3] at ht
        congr 1
        exact UInt8.ext ht

theorem map_lowerASCII_replaced (key : GoString) :
    (key.flatMap replaceByteSpec).map lowerASCII = key.flatMap normalizeByteSpec := by
  induction key with
  | nil => rfl
  | cons c cs ih =>
    rw [List.flatMap_cons, List.flatMap_cons, List.map_append, ih,
      map_lowerASCII_replaceByteSpec]

/-- The lower-case form of an ASCII character is `lowerASCII` of its byte. -/
theorem unicodeToLower_ascii (c : UInt8) (h : c.toNat < 0x80) :
    EncodeRune (unicodeToLower c.toNat) = [lowerASCII c] := by
  have ht := lowerASCII_toNat c
  have e : unicodeToLower c.toNat = (lowerASCII c).toNat := by
    unfold unicodeToLower
    rw [if_pos (by omega), ht]
  have hl : (lowerASCII c).toNat < 0x80 := by
    rw [ht]; split_ifs <;> omega
  rw [e, (EncodeRune_bytes _).1 hl, ofNat_toNat]

/-- On a text of ASCII bytes the lower-case form of the specification is the byte-wise
lower-casing. -/
theorem lowercasedSpec_ascii (s : GoString) (h : s.all (fun c => c < 0x80) = true) :
    lowercasedSpec s = s.map lowerASCII := by
  unfold lowercasedSpec runes
  induction s with
  | nil => rfl
  | cons c cs ih =>
    rw [List.all_cons, Bool.and_eq_true] at h
    have hc : c.toNat < 0x80 := by
      have := h.1
      simp only [decide_eq_true_eq] at this
      rw [UInt8.lt_def] at this
      exact this
    have hd : DecodeRune (c :: cs) = (c.toNat, 1) := by
      unfold DecodeRune
      dsimp only
      rw [if_pos hc]
    simp only [runesAux, hd, List.map_cons, List.flatMap_cons, Nat.sub_self]
    rw [ih h.2, unicodeToLower_ascii c hc]
    rfl

/-- The code and the specification agree on every key (lower-casing of the library). -/
theorem makeQueryFriendly_eq_normalizeKeySpec (key : GoString) :
    makeQueryFriendly mapToLower key = normalizeKeySpec key := by
  unfold makeQueryFriendly normalizeKeySpec
  rw [replace_three, replaceByteSpec_eq]
  unfold ToLower
  split_ifs with h
  · exact (lowercasedSpec_ascii _ h).symm
  · rw [mapToLower, Map_eq_runes]
    rfl

/-- The code and the byte-wise specification agree on every key of ASCII bytes. -/
theorem makeQueryFriendly_ascii (unicodeLower : GoString → GoString) (key : GoString)
    (h : key.all (fun c => c < 0x80) = true) :
    makeQueryFriendly unicodeLower key = key.flatMap normalizeByteSpec := by
  unfold makeQueryFriendly
  rw [replace_three, ToLower_ascii unicodeLower _ (all_lt_replaced key h), replaceByteSpec_eq,
    map_lowerASCII_replaced]

/-- The replacements on the bytes of one encoded character are the encoding of the
replacements on the character. -/
theorem replaceByteSpec_EncodeRune (r : Nat) :
    (EncodeRune r).flatMap replaceByteSpec = (replaceCharSpec r).flatMap EncodeRune := by
  by_cases h7 : r < 0x80
  · have hn := toNat_ofNat_lt r (by omega)
    have hne : ∀ k : UInt8, k.toNat = k.toNat → (UInt8.ofNat r = k ↔ r = k.toNat) := by
      intro k _
      constructor
      · intro e; rw [← e, hn]
      · intro e; apply UInt8.ext; rw [hn, e]
    have e20 : (UInt8.ofNat r = 0x20) ↔ r = 0x20 := hne 0x20 rfl
    have e28 : (UInt8.ofNat r = 0x28) ↔ r = 0x28 := hne 0x28 rfl
    have e29 : (UInt8.ofNat r = 0x29) ↔ r = 0x29 := hne 0x29 rfl
    rw [(EncodeRune_bytes r).1 h7]
    unfold replaceByteSpec replaceCharSpec
    simp only [List.flatMap_cons, List.flatMap_nil, List.append_nil, e20, e28, e29]
    split_ifs
    · rfl
    · rfl
    · simp only [List.flatMap_cons, List.flatMap_nil, List.append_nil]
      exact ((EncodeRune_bytes r).1 h7).symm
  · have hb := (EncodeRune_bytes r).2 (by omega)
    have e1 : (EncodeRune r).flatMap replaceByteSpec = (EncodeRune r).flatMap (fun b => [b]) := by
      apply List.flatMap_congr
      intro b hbm
      have h80 := hb b hbm
      unfold replaceByteSpec
      have n20 : b ≠ 0x20 := fun e => by rw [e] at h80; exact absurd h80 (by decide)
      have n28 : b ≠ 0x28 := fun e => by rw [e] at h80; exact absurd h80 (by decide)
      have n29 : b ≠ 0x29 := fun e => by rw [e] at h80; exact absurd h80 (by decide)
      simp [n20, n28, n29]
    have e2 : replaceCharSpec r = [r] := by
      unfold replaceCharSpec
      rw [if_neg (by omega), if_neg (by omega)]
    rw [e1, e2]
    simp

theorem replaced_flatMap_EncodeRune (cs : List Nat) :
    (cs.flatMap EncodeRune).flatMap replaceByteSpec
      = (cs.flatMap replaceCharSpec).flatMap EncodeRune := by
  induction cs with
  | nil => rfl
  | cons r rest ih =>
    rw [List.flatMap_cons, List.flatMap_append, ih, replaceByteSpec_EncodeRune,
      List.flatMap_cons, List.flatMap_append]

theorem map_unicodeToLower_replaceCharSpec (cs : List Nat) :
    (cs.flatMap replaceCharSpec).map unicodeToLower = cs.filterMap normalizeCharSpec := by
  induction cs with
  | nil => rfl
  | cons r rest ih =>
    rw [List.flatMap_cons, List.map_append, ih]
    unfold replaceCharSpec normalizeCharSpec
    by_cases h1 : r = 0x20 ∨ r = 0x28
    · simp only [if_pos h1, List.filterMap_cons]
      rfl
    · by_cases h2 : r = 0x29
      · simp only [if_neg h1, if_pos h2, List.filterMap_cons]
        rfl
      · simp only [if_neg h1, if_neg h2, List.filterMap_cons]
        rfl

/-- The code and the character-wise specification agree on every key that is the
encoding of a sequence of characters. -/
theorem makeQueryFriendly_chars (cs : List Nat) (h : ∀ r ∈ cs, validRune r = true) :
    makeQueryFriendly mapToLower (cs.flatMap EncodeRune)
      = (cs.filterMap normalizeCharSpec).flatMap EncodeRune := by
  rw [makeQueryFriendly_eq_normalizeKeySpec]
  unfold normalizeKeySpec lowercasedSpec
  rw [replaced_flatMap_EncodeRune, runes_flatMap_EncodeRune, map_unicodeToLower_replaceCharSpec]
  intro x hx
  obtain ⟨r, hr, hxr⟩ := List.mem_flatMap.1 hx
  unfold replaceCharSpec at hxr
  split_ifs at hxr
  · rw [List.mem_singleton] at hxr; rw [hxr]; rfl
  · simp at hxr
  · rw [List.mem_singleton] at hxr; rw [hxr]; exact h r hr

/-- C5.  For every key, `makeQueryFriendly` returns the key with every space and every
"(" replaced by "_", every ")" deleted, the other bytes kept in their order, and the
result lowercased: read as a sequence of characters, each replaced by its lower-case
form (a byte that starts no valid encoding counts as the character U+FFFD, as in the
library).  On a key of ASCII bytes this is, byte by byte, "_" for a space or a "(",
nothing for a ")", the small letter for a capital letter, and the byte itself
otherwise, whatever the case table.  On a key that is valid UTF-8 it is, character by
character, "_" for a space or a "(", nothing for a ")", and the lower-case form of the
character otherwise. -/
theorem makeQueryFriendly_eq_spec :
    (∀ key : GoString, makeQueryFriendly mapToLower key = normalizeKeySpec key)
    ∧ (∀ (unicodeLower : GoString → GoString) (key : GoString),
        key.all (fun c => c < 0x80) = true →
        makeQueryFriendly unicodeLower key = key.flatMap normalizeByteSpec)
    ∧ (∀ cs : List Nat, (∀ r ∈ cs, validRune r = true) →
        makeQueryFriendly mapToLower (cs.flatMap EncodeRune)
          = (cs.filterMap normalizeCharSpec).flatMap EncodeRune) :=
  ⟨makeQueryFriendly_eq_normalizeKeySpec, makeQueryFriendly_ascii, makeQueryFriendly_chars⟩

/-- Pinned values of C5: an ASCII key, a key with capital letters outside ASCII (as a
text and as a sequence of characters), and a key whose bytes are no valid UTF-8, where
deleting the ")" joins the two bytes of "É". -/
theorem makeQueryFriendly_eq_spec_witness :
    makeQueryFriendly mapToLower (B "Cache Size (L2)") = B "cache_size__l2"
    ∧ normalizeKeySpec (B "Cache Size (L2)") = B "cache_size__l2"
    ∧ makeQueryFriendly mapToLower (B "Cache Size (L2)") = normalizeKeySpec (B "Cache Size (L2)")
    ∧ (B "Cache Size (L2)").all (fun c => c < 0x80) = true
    ∧ (B "Cache Size (L2)").flatMap normalizeByteSpec = B "cache_size__l2"
    ∧ makeQueryFriendly (fun s => s) (B "Cache Size (L2)")
        = (B "Cache Size (L2)").flatMap normalizeByteSpec
    ∧ makeQueryFriendly mapToLower (B "ÄRGER (Ω)") = B "ärger__ω"
    ∧ normalizeKeySpec (B "ÄRGER (Ω)") = B "ärger__ω"
    ∧ (∀ r ∈ [0xC4, 0x52, 0x20, 0x28, 0x3A9, 0x29], validRune r = true)
    ∧ [0xC4, 0x52, 0x20, 0x28, 0x3A9, 0x29].flatMap EncodeRune = B "ÄR (Ω)"
    ∧ [0xC4, 0x52, 0x20, 0x28, 0x3A9, 0x29].filterMap normalizeCharSpec
        = [0xE4, 0x72, 0x5F, 0x5F, 0x3C9]
    ∧ makeQueryFriendly mapToLower ([0xC4, 0x52, 0x20, 0x28, 0x3A9, 0x29].flatMap EncodeRune)
        = ([0xC4, 0x52, 0x20, 0x28, 0x3A9, 0x29].filterMap normalizeCharSpec).flatMap EncodeRune
    ∧ makeQueryFriendly mapToLower (B "ÄR (Ω)") = B "är__ω"
    ∧ makeQueryFriendly mapToLower [0xC3, 0x29, 0x89] = B "é"
    ∧ normalizeKeySpec [0xC3, 0x29, 0x89] = B "é" :=
  ⟨by decide, by decide, makeQueryFriendly_eq_spec.1 (B "Cache Size (L2)"), by decide,
   by decide, makeQueryFriendly_eq_spec.2.1 (fun s => s) (B "Cache Size (L2)") (by decide),
   by decide, by decide, by decide, by decide, by decide,
   makeQueryFriendly_eq_spec.2.2 [0xC4, 0x52, 0x20, 0x28, 0x3A9, 0x29] (by decide),
   by decide, by decide, by decide⟩

end Sq
